import Mathlib

/-!
Verification of the analog-placement HB*-tree implementation.

The definitions below are shallow embeddings of the C++ sources:
  - src/utils/Contour.cpp                (skyline data structure)
  - src/data_struct/HBStarTree.cpp       (tree construction, packing, perturbations)
  - src/data_struct/HBStarTreeNode.cpp   (tagged tree nodes)
Coordinates are C++ `int`; we model them as `Int` (no arithmetic in the
program approaches the 32-bit bounds except the sentinel
`std::numeric_limits<int>::max()`, which is kept literally as 2147483647).
-/

/-- One skyline segment `[start, stop) → height` (struct ContourSegment,
Contour.hpp; fields start/end/height). -/
structure ContourSegment where
  start : Int
  stop : Int
  height : Int
deriving DecidableEq, Repr

/-- The contour (skyline) state: the segment list plus the cached maxima
(Contour.cpp, fields segments / maxCoordinate / maxHeight). -/
structure Contour where
  segments : List ContourSegment
  maxCoordinate : Int
  maxHeight : Int
deriving DecidableEq, Repr

namespace Contour

/-- Contour::Contour() — empty contour with zero maxima. -/
def emptyContour : Contour := ⟨[], 0, 0⟩

/-- Contour::clear(). -/
def clear (_c : Contour) : Contour := ⟨[], 0, 0⟩

/-- The main loop of Contour::addSegment (Contour.cpp lines 126-172): walks
the existing segments, keeps the ones strictly before the new segment,
inserts the new segment at the first position where the remaining segments
lie at or after it, splits partially overlapped segments and drops covered
ones.  The boolean is the C++ `inserted` flag. -/
def addLoop (s e h : Int) : List ContourSegment → Bool → List ContourSegment
  | [], inserted => if inserted then [] else [⟨s, e, h⟩]
  | seg :: rest, inserted =>
    if seg.stop ≤ s then
      seg :: addLoop s e h rest inserted
    else if e ≤ seg.start then
      if inserted then seg :: addLoop s e h rest true
      else ⟨s, e, h⟩ :: seg :: addLoop s e h rest true
    else
      (if seg.start < s then [⟨seg.start, s, seg.height⟩] else []) ++
      (if inserted then [] else [⟨s, e, h⟩]) ++
      (if e < seg.stop then [⟨e, seg.stop, seg.height⟩] else []) ++
      addLoop s e h rest true

/-- Insertion step of the sort by start coordinate (the C++ uses std::sort
with the comparator `a.start < b.start`; on the lists produced by `addLoop`
from a well-formed contour all start coordinates are distinct, so any
comparison sort computes the same list). -/
def insertByStart (s : ContourSegment) : List ContourSegment → List ContourSegment
  | [] => [s]
  | t :: rest => if s.start < t.start then s :: t :: rest else t :: insertByStart s rest

/-- Sort by start coordinate (Contour.cpp lines 177-181). -/
def sortByStart : List ContourSegment → List ContourSegment
  | [] => []
  | s :: rest => insertByStart s (sortByStart rest)

/-- The loop of Contour::mergeSegments (Contour.cpp lines 85-99): the first
argument is the current last element of `mergedSegments`. -/
def mergeLoop : ContourSegment → List ContourSegment → List ContourSegment
  | last, [] => [last]
  | last, cur :: rest =>
    if last.stop = cur.start ∧ last.height = cur.height then
      mergeLoop ⟨last.start, cur.stop, last.height⟩ rest
    else
      last :: mergeLoop cur rest

/-- Contour::mergeSegments — fuse adjacent segments of equal height. -/
def mergeSegments : List ContourSegment → List ContourSegment
  | [] => []
  | s :: rest => mergeLoop s rest

/-- Contour::addSegment (Contour.cpp lines 109-185). -/
def addSegment (c : Contour) (s e h : Int) : Contour :=
  if e ≤ s then c
  else
    let mc := max c.maxCoordinate e
    let mh := max c.maxHeight h
    if c.segments.isEmpty then ⟨[⟨s, e, h⟩], mc, mh⟩
    else
      ⟨mergeSegments (sortByStart (addLoop s e h c.segments false)), mc, mh⟩

/-- std::lower_bound with comparator `a.start < b.start` on the segment
list (Contour.cpp lines 196-200): index of the first segment whose start is
not below `x`. -/
def lowerBoundIdx (x : Int) : List ContourSegment → Nat
  | [] => 0
  | seg :: rest => if seg.start < x then lowerBoundIdx x rest + 1 else 0

/-- The iterator adjustment of Contour::getHeight (Contour.cpp lines
203-209): step back to the previous segment when it still covers `s`. -/
def scanIdx (segs : List ContourSegment) (s : Int) : Nat :=
  let i := lowerBoundIdx s segs
  if i = 0 then 0
  else
    let adjust :=
      match segs.get? i with
      | none => true
      | some seg => s < seg.start
    if adjust then
      match segs.get? (i - 1) with
      | none => i
      | some p => if p.stop ≤ s then i else i - 1
    else i

/-- The scanning loop of Contour::getHeight (lines 214-217): take the
maximum height while the segment start is below `e`. -/
def scanMax (e : Int) : List ContourSegment → Int
  | [] => 0
  | seg :: rest => if seg.start < e then max (scanMax e rest) seg.height else 0

/-- Contour::getHeight (Contour.cpp lines 191-220). -/
def getHeight (c : Contour) (s e : Int) : Int :=
  if e ≤ s then 0
  else if c.segments.isEmpty then 0
  else scanMax e (c.segments.drop (scanIdx c.segments s))

/-- Contour::isEmpty. -/
def isEmpty (c : Contour) : Bool := c.segments.isEmpty

/-- Contour::getMaxCoordinate. -/
def getMaxCoordinate (c : Contour) : Int := c.maxCoordinate

/-- Contour::getMaxHeight. -/
def getMaxHeight (c : Contour) : Int := c.maxHeight

end Contour

/-- The height of the skyline at a single point: the height of the first
segment in the list that contains the point, `none` when no segment does.
Used to state pointwise properties of the segment lists. -/
def heightAt : List ContourSegment → Int → Option Int
  | [], _ => none
  | seg :: rest, p =>
    if seg.start ≤ p ∧ p < seg.stop then some seg.height else heightAt rest p

/-- Segment lists that are sorted, non-overlapping and non-degenerate, with
every start coordinate at least `lb`. -/
def SegsWFFrom (lb : Int) : List ContourSegment → Prop
  | [] => True
  | seg :: rest => lb ≤ seg.start ∧ seg.start < seg.stop ∧ SegsWFFrom seg.stop rest

/-- A sorted, non-overlapping, non-degenerate segment list: the invariant
the contour maintains (§4.1 of the spec, `segments are sorted by start,
non-overlapping`). -/
def SegsWF : List ContourSegment → Prop
  | [] => True
  | seg :: rest => seg.start < seg.stop ∧ SegsWFFrom seg.stop rest

/-- No two adjacent segments are fusable: whenever one segment ends exactly
where the next begins, their heights differ. -/
def Fused : List ContourSegment → Prop
  | [] => True
  | [_] => True
  | a :: b :: rest => ¬(a.stop = b.start ∧ a.height = b.height) ∧ Fused (b :: rest)

theorem segsWFFrom_mono {lb lb' : Int} (h : lb' ≤ lb) :
    ∀ {l : List ContourSegment}, SegsWFFrom lb l → SegsWFFrom lb' l := by
  intro l hl
  cases l with
  | nil => trivial
  | cons seg rest =>
    obtain ⟨h1, h2, h3⟩ := hl
    exact ⟨le_trans h h1, h2, h3⟩

theorem segsWF_of_from {lb : Int} {l : List ContourSegment} (h : SegsWFFrom lb l) :
    SegsWF l := by
  cases l with
  | nil => trivial
  | cons seg rest => exact ⟨h.2.1, h.2.2⟩

theorem heightAt_append (l1 l2 : List ContourSegment) (p : Int) :
    heightAt (l1 ++ l2) p =
      match heightAt l1 p with
      | some v => some v
      | none => heightAt l2 p := by
  induction l1 with
  | nil => simp [heightAt]
  | cons seg rest ih =>
    by_cases hc : seg.start ≤ p ∧ p < seg.stop
    · simp [heightAt, hc]
    · simp [heightAt, hc, ih]

theorem addLoop_heightAt_in (s e h p : Int) (hp1 : s ≤ p) (hp2 : p < e) :
    ∀ (segs : List ContourSegment) (flag : Bool),
      heightAt (Contour.addLoop s e h segs flag) p =
        if flag then none else some h := by
  intro segs
  induction segs with
  | nil =>
    intro flag
    cases flag <;> simp [Contour.addLoop, heightAt, hp1, hp2]
  | cons seg rest ih =>
    intro flag
    by_cases h1 : seg.stop ≤ s
    · have hnc : ¬(seg.start ≤ p ∧ p < seg.stop) := by omega
      cases flag <;>
        simp [Contour.addLoop, h1, heightAt, hnc, ih]
    · by_cases h2 : e ≤ seg.start
      · have hnc : ¬(seg.start ≤ p ∧ p < seg.stop) := by omega
        cases flag <;>
          simp [Contour.addLoop, h1, h2, heightAt, hnc, hp1, hp2, ih]
      · have hb : ¬(seg.start ≤ p ∧ p < s) := by omega
        have ha : ¬(e ≤ p ∧ p < seg.stop) := by omega
        cases flag <;>
          simp [Contour.addLoop, h1, h2, heightAt_append, heightAt, hb, ha,
            hp1, hp2, ih] <;>
          split_ifs <;> simp [heightAt, hb, ha]

theorem addLoop_heightAt_out (s e h p : Int) (hse : s < e) (hp : p < s ∨ e ≤ p) :
    ∀ (segs : List ContourSegment) (flag : Bool),
      heightAt (Contour.addLoop s e h segs flag) p = heightAt segs p := by
  intro segs
  induction segs with
  | nil =>
    intro flag
    have hnc : ¬(s ≤ p ∧ p < e) := by omega
    cases flag <;> simp [Contour.addLoop, heightAt, hnc]
  | cons seg rest ih =>
    intro flag
    by_cases h1 : seg.stop ≤ s
    · cases flag <;> simp [Contour.addLoop, h1, heightAt, ih]
    · by_cases h2 : e ≤ seg.start
      · have hnc : ¬(s ≤ p ∧ p < e) := by omega
        cases flag <;> simp [Contour.addLoop, h1, h2, heightAt, hnc, ih]
      · by_cases hc : seg.start ≤ p ∧ p < seg.stop
        · rcases hp with hp | hp
          · have hA : seg.start < s := by omega
            have hcov : seg.start ≤ p ∧ p < s := by omega
            cases flag <;>
              simp [Contour.addLoop, h1, h2, hA, heightAt_append, heightAt,
                hcov, hc]
          · have hB : e < seg.stop := by omega
            have hb : ¬(seg.start ≤ p ∧ p < s) := by omega
            have hnew : ¬(s ≤ p ∧ p < e) := by omega
            have hcov : e ≤ p ∧ p < seg.stop := by omega
            cases flag <;>
              simp [Contour.addLoop, h1, h2, hB, heightAt_append, heightAt,
                hb, hnew, hcov, hc] <;>
              split_ifs <;> simp [heightAt, hb, hnew, hcov]
        · have hb : ¬(seg.start ≤ p ∧ p < s) := by omega
          have ha : ¬(e ≤ p ∧ p < seg.stop) := by omega
          have hnew : ¬(s ≤ p ∧ p < e) := by omega
          cases flag <;>
            simp [Contour.addLoop, h1, h2, heightAt_append, heightAt, hb, ha,
              hnew, hc, ih] <;>
            split_ifs <;> simp [heightAt, hb, ha, hnew]

theorem addLoop_true_id (s e h : Int) (segs : List ContourSegment) :
    ∀ lb : Int, s < e → e ≤ lb → SegsWFFrom lb segs →
      Contour.addLoop s e h segs true = segs := by
  induction segs with
  | nil => intro lb _ _ _; simp [Contour.addLoop]
  | cons seg rest ih =>
    intro lb hse hel hwf
    obtain ⟨hlb, hnd, hrest⟩ := hwf
    have hn1 : ¬seg.stop ≤ s := by omega
    have h2 : e ≤ seg.start := by omega
    simp [Contour.addLoop, hn1, h2, ih seg.stop hse (by omega) hrest]

theorem addLoop_true_wf (s e h : Int) (segs : List ContourSegment) :
    ∀ lb : Int, s < e → s < lb → SegsWFFrom lb segs →
      SegsWFFrom e (Contour.addLoop s e h segs true) := by
  induction segs with
  | nil => intro lb _ _ _; simp [Contour.addLoop, SegsWFFrom]
  | cons seg rest ih =>
    intro lb hse hsl hwf
    obtain ⟨hlb, hnd, hrest⟩ := hwf
    have hn1 : ¬seg.stop ≤ s := by omega
    by_cases h2 : e ≤ seg.start
    · rw [show Contour.addLoop s e h (seg :: rest) true =
          seg :: Contour.addLoop s e h rest true by simp [Contour.addLoop, hn1, h2]]
      rw [addLoop_true_id s e h rest seg.stop hse (by omega) hrest]
      exact ⟨h2, hnd, hrest⟩
    · have hA : ¬seg.start < s := by omega
      by_cases hB : e < seg.stop
      · rw [show Contour.addLoop s e h (seg :: rest) true =
            ContourSegment.mk e seg.stop seg.height :: Contour.addLoop s e h rest true by
              simp [Contour.addLoop, hn1, h2, hA, hB]]
        rw [addLoop_true_id s e h rest seg.stop hse (by omega) hrest]
        exact ⟨le_refl e, hB, hrest⟩
      · rw [show Contour.addLoop s e h (seg :: rest) true =
            Contour.addLoop s e h rest true by simp [Contour.addLoop, hn1, h2, hA, hB]]
        exact ih seg.stop hse (by omega) hrest

theorem addLoop_false_wf (s e h : Int) (segs : List ContourSegment) :
    ∀ lb : Int, s < e → SegsWFFrom lb segs →
      SegsWFFrom (min lb s) (Contour.addLoop s e h segs false) := by
  induction segs with
  | nil =>
    intro lb hse _
    exact ⟨min_le_right lb s, hse, trivial⟩
  | cons seg rest ih =>
    intro lb hse hwf
    obtain ⟨hlb, hnd, hrest⟩ := hwf
    by_cases h1 : seg.stop ≤ s
    · rw [show Contour.addLoop s e h (seg :: rest) false =
          seg :: Contour.addLoop s e h rest false by simp [Contour.addLoop, h1]]
      have hrec := ih seg.stop hse hrest
      rw [min_eq_left h1] at hrec
      exact ⟨le_trans (min_le_left lb s) hlb, hnd, hrec⟩
    · by_cases h2 : e ≤ seg.start
      · rw [show Contour.addLoop s e h (seg :: rest) false =
            ContourSegment.mk s e h :: seg :: Contour.addLoop s e h rest true by
              simp [Contour.addLoop, h1, h2]]
        rw [addLoop_true_id s e h rest seg.stop hse (by omega) hrest]
        exact ⟨min_le_right lb s, hse, h2, hnd, hrest⟩
      · by_cases hA : seg.start < s
        · by_cases hB : e < seg.stop
          · rw [show Contour.addLoop s e h (seg :: rest) false =
                ContourSegment.mk seg.start s seg.height :: ContourSegment.mk s e h ::
                  ContourSegment.mk e seg.stop seg.height ::
                  Contour.addLoop s e h rest true by
                    simp [Contour.addLoop, h1, h2, hA, hB]]
            rw [addLoop_true_id s e h rest seg.stop hse (by omega) hrest]
            exact ⟨le_trans (min_le_left lb s) hlb, hA, le_refl s, hse,
              le_refl e, hB, hrest⟩
          · rw [show Contour.addLoop s e h (seg :: rest) false =
                ContourSegment.mk seg.start s seg.height :: ContourSegment.mk s e h ::
                  Contour.addLoop s e h rest true by
                    simp [Contour.addLoop, h1, h2, hA, hB]]
            exact ⟨le_trans (min_le_left lb s) hlb, hA, le_refl s, hse,
              addLoop_true_wf s e h rest seg.stop hse (by omega) hrest⟩
        · by_cases hB : e < seg.stop
          · rw [show Contour.addLoop s e h (seg :: rest) false =
                ContourSegment.mk s e h :: ContourSegment.mk e seg.stop seg.height ::
                  Contour.addLoop s e h rest true by
                    simp [Contour.addLoop, h1, h2, hA, hB]]
            rw [addLoop_true_id s e h rest seg.stop hse (by omega) hrest]
            exact ⟨min_le_right lb s, hse, le_refl e, hB, hrest⟩
          · rw [show Contour.addLoop s e h (seg :: rest) false =
                ContourSegment.mk s e h :: Contour.addLoop s e h rest true by
                  simp [Contour.addLoop, h1, h2, hA, hB]]
            exact ⟨min_le_right lb s, hse,
              addLoop_true_wf s e h rest seg.stop hse (by omega) hrest⟩

theorem sortByStart_id (l : List ContourSegment) :
    ∀ lb : Int, SegsWFFrom lb l → Contour.sortByStart l = l := by
  induction l with
  | nil => intro lb _; rfl
  | cons x rest ih =>
    intro lb hwf
    obtain ⟨hlb, hnd, hrest⟩ := hwf
    rw [show Contour.sortByStart (x :: rest) =
        Contour.insertByStart x (Contour.sortByStart rest) from rfl]
    rw [ih x.stop hrest]
    cases rest with
    | nil => rfl
    | cons t rest2 =>
      have hx : x.start < t.start := by
        obtain ⟨ht, _, _⟩ := hrest
        omega
      simp [Contour.insertByStart, hx]

theorem mergeLoop_first (l : List ContourSegment) :
    ∀ last : ContourSegment, ∃ st tl,
      Contour.mergeLoop last l = ContourSegment.mk last.start st last.height :: tl := by
  induction l with
  | nil => intro last; exact ⟨last.stop, [], rfl⟩
  | cons cur rest ih =>
    intro last
    by_cases hm : last.stop = cur.start ∧ last.height = cur.height
    · have hstep : Contour.mergeLoop last (cur :: rest) =
          Contour.mergeLoop (ContourSegment.mk last.start cur.stop last.height) rest := by
        simp [Contour.mergeLoop, hm]
      obtain ⟨st, tl, heq⟩ := ih (ContourSegment.mk last.start cur.stop last.height)
      exact ⟨st, tl, hstep.trans heq⟩
    · exact ⟨last.stop, Contour.mergeLoop cur rest, by simp [Contour.mergeLoop, hm]⟩

theorem mergeLoop_wf_fused (l : List ContourSegment) :
    ∀ (lb : Int) (last : ContourSegment), SegsWFFrom lb (last :: l) →
      SegsWFFrom lb (Contour.mergeLoop last l) ∧ Fused (Contour.mergeLoop last l) := by
  induction l with
  | nil =>
    intro lb last hwf
    exact ⟨⟨hwf.1, hwf.2.1, trivial⟩, trivial⟩
  | cons cur rest ih =>
    intro lb last hwf
    obtain ⟨hlb, hnd, hcur, hcnd, hrest⟩ := hwf
    by_cases hm : last.stop = cur.start ∧ last.height = cur.height
    · rw [show Contour.mergeLoop last (cur :: rest) =
          Contour.mergeLoop (ContourSegment.mk last.start cur.stop last.height) rest by
            simp [Contour.mergeLoop, hm]]
      refine ih lb (ContourSegment.mk last.start cur.stop last.height) ⟨hlb, ?_, hrest⟩
      show last.start < cur.stop
      omega
    · rw [show Contour.mergeLoop last (cur :: rest) =
          last :: Contour.mergeLoop cur rest by simp [Contour.mergeLoop, hm]]
      have hrec := ih last.stop cur ⟨hcur, hcnd, hrest⟩
      obtain ⟨st, tl, heq⟩ := mergeLoop_first rest cur
      constructor
      · exact ⟨hlb, hnd, hrec.1⟩
      · rw [heq]
        rw [heq] at hrec
        exact ⟨by simpa using hm, hrec.2⟩

theorem mergeLoop_heightAt (l : List ContourSegment) :
    ∀ (lb : Int) (last : ContourSegment) (p : Int), SegsWFFrom lb (last :: l) →
      heightAt (Contour.mergeLoop last l) p = heightAt (last :: l) p := by
  induction l with
  | nil => intro lb last p _; rfl
  | cons cur rest ih =>
    intro lb last p hwf
    obtain ⟨hlb, hnd, hcur, hcnd, hrest⟩ := hwf
    by_cases hm : last.stop = cur.start ∧ last.height = cur.height
    · rw [show Contour.mergeLoop last (cur :: rest) =
          Contour.mergeLoop (ContourSegment.mk last.start cur.stop last.height) rest by
            simp [Contour.mergeLoop, hm]]
      have harg : last.start < cur.stop := by omega
      rw [ih lb (ContourSegment.mk last.start cur.stop last.height) p ⟨hlb, harg, hrest⟩]
      by_cases hc1 : last.start ≤ p ∧ p < last.stop
      · have : last.start ≤ p ∧ p < cur.stop := by omega
        simp [heightAt, this, hc1, hm.2]
      · by_cases hc2 : cur.start ≤ p ∧ p < cur.stop
        · have : last.start ≤ p ∧ p < cur.stop := by omega
          simp [heightAt, this, hc1, hc2, hm.2]
        · have : ¬(last.start ≤ p ∧ p < cur.stop) := by omega
          simp [heightAt, this, hc1, hc2]
    · rw [show Contour.mergeLoop last (cur :: rest) =
          last :: Contour.mergeLoop cur rest by simp [Contour.mergeLoop, hm]]
      by_cases hc1 : last.start ≤ p ∧ p < last.stop
      · simp [heightAt, hc1]
      · simp [heightAt, hc1, ih last.stop cur p ⟨hcur, hcnd, hrest⟩]

/-- C3: on a sorted, non-overlapping contour, `addSegment(start, end, height)`
with `start < end` (i) gives every point of `[start, end)` exactly the new
height, (ii) leaves the height at every point outside `[start, end)`
unchanged (partially overlapped segments are split so that their outside
portions keep their heights), and (iii) returns a sorted, non-overlapping
list in which no two adjacent touching segments have equal heights. -/
theorem contour_addSegment_spec (c : Contour) (s e h : Int)
    (hwf : SegsWF c.segments) (hse : s < e) :
    (∀ p, s ≤ p → p < e →
      heightAt (c.addSegment s e h).segments p = some h) ∧
    (∀ p, p < s ∨ e ≤ p →
      heightAt (c.addSegment s e h).segments p = heightAt c.segments p) ∧
    SegsWF (c.addSegment s e h).segments ∧
    Fused (c.addSegment s e h).segments := by
  have hne : ¬e ≤ s := by omega
  cases hcs : c.segments with
  | nil =>
    have hseg : (c.addSegment s e h).segments = [ContourSegment.mk s e h] := by
      simp [Contour.addSegment, hne, hcs]
    refine ⟨?_, ?_, ?_, ?_⟩
    · intro p hp1 hp2
      simp [hseg, heightAt, hp1, hp2]
    · intro p hp
      have : ¬(s ≤ p ∧ p < e) := by omega
      simp [hseg, heightAt, this, hcs]
    · rw [hseg]; exact ⟨hse, trivial⟩
    · rw [hseg]; trivial
  | cons a rest =>
    have hfrom : SegsWFFrom a.start (a :: rest) := by
      rw [hcs] at hwf
      exact ⟨le_refl a.start, hwf.1, hwf.2⟩
    have hLwf : SegsWFFrom (min a.start s)
        (Contour.addLoop s e h (a :: rest) false) :=
      addLoop_false_wf s e h (a :: rest) a.start hse hfrom
    have hLne : Contour.addLoop s e h (a :: rest) false ≠ [] := by
      intro hnil
      have := addLoop_heightAt_in s e h s (le_refl s) hse (a :: rest) false
      rw [hnil] at this
      simp [heightAt] at this
    have hseg : (c.addSegment s e h).segments =
        Contour.mergeSegments (Contour.addLoop s e h (a :: rest) false) := by
      simp [Contour.addSegment, hne, hcs,
        sortByStart_id (Contour.addLoop s e h (a :: rest) false) (min a.start s) hLwf]
    cases hL : Contour.addLoop s e h (a :: rest) false with
    | nil => exact absurd hL hLne
    | cons l0 ltl =>
      rw [hL] at hLwf
      have hmerge : Contour.mergeSegments (l0 :: ltl) = Contour.mergeLoop l0 ltl := rfl
      have hwfm := mergeLoop_wf_fused ltl (min a.start s) l0 hLwf
      refine ⟨?_, ?_, ?_, ?_⟩
      · intro p hp1 hp2
        rw [hseg, hL, hmerge, mergeLoop_heightAt ltl (min a.start s) l0 p hLwf, ← hL]
        have := addLoop_heightAt_in s e h p hp1 hp2 (a :: rest) false
        simpa using this
      · intro p hp
        rw [hseg, hL, hmerge, mergeLoop_heightAt ltl (min a.start s) l0 p hLwf, ← hL,
          addLoop_heightAt_out s e h p hse hp (a :: rest) false]
      · rw [hseg, hL, hmerge]
        exact segsWF_of_from hwfm.1
      · rw [hseg, hL, hmerge]
        exact hwfm.2

/-- C8: `addSegment(start, end, height)` with `start ≥ end` is a silent
no-op: the whole contour state (segments, maxCoordinate, maxHeight) is
unchanged, hence every later `getHeight` query answers as before. -/
theorem contour_addSegment_degenerate (c : Contour) (s e h : Int) (hse : e ≤ s) :
    c.addSegment s e h = c ∧
    (c.addSegment s e h).segments = c.segments ∧
    (c.addSegment s e h).maxCoordinate = c.maxCoordinate ∧
    (c.addSegment s e h).maxHeight = c.maxHeight ∧
    (∀ a b, (c.addSegment s e h).getHeight a b = c.getHeight a b) := by
  have h1 : c.addSegment s e h = c := by simp [Contour.addSegment, hse]
  exact ⟨h1, by rw [h1], by rw [h1], by rw [h1], fun a b => by rw [h1]⟩

/-- Witness for C8 at a concrete contour and a degenerate call. -/
theorem contour_addSegment_degenerate_witness :
    ((5 : Int) ≤ 5) ∧
    Contour.addSegment ⟨[ContourSegment.mk 0 4 2], 4, 2⟩ 5 5 9 =
      ⟨[ContourSegment.mk 0 4 2], 4, 2⟩ :=
  ⟨le_refl 5,
    (contour_addSegment_degenerate ⟨[ContourSegment.mk 0 4 2], 4, 2⟩ 5 5 9 (le_refl 5)).1⟩

/-- Witness for C3 at a concrete contour: adding `[2, 6) → 10` over the
segments `[0,5)→3, [5,9)→7` overrides the covered part, splits the two
overlapped segments and keeps the outside heights. -/
theorem contour_addSegment_spec_witness :
    (SegsWF [ContourSegment.mk 0 5 3, ContourSegment.mk 5 9 7] ∧ (2 : Int) < 6) ∧
    heightAt (Contour.addSegment ⟨[ContourSegment.mk 0 5 3, ContourSegment.mk 5 9 7], 9, 7⟩
      2 6 10).segments 3 = some 10 ∧
    heightAt (Contour.addSegment ⟨[ContourSegment.mk 0 5 3, ContourSegment.mk 5 9 7], 9, 7⟩
      2 6 10).segments 7 =
      heightAt [ContourSegment.mk 0 5 3, ContourSegment.mk 5 9 7] 7 := by
  have hwf : SegsWF [ContourSegment.mk 0 5 3, ContourSegment.mk 5 9 7] := by
    simp [SegsWF, SegsWFFrom]
  have hmain := contour_addSegment_spec
    ⟨[ContourSegment.mk 0 5 3, ContourSegment.mk 5 9 7], 9, 7⟩ 2 6 10 hwf (by norm_num)
  exact ⟨⟨hwf, by norm_num⟩, hmain.1 3 (by norm_num) (by norm_num),
    hmain.2.1 7 (Or.inr (by norm_num))⟩

/-- A name-keyed map with the semantics of `std::map<std::string, T>` (the
container used for the HB*-tree registries; see the in-src signature
`const map<string, shared_ptr<Module>>& HBStarTree::getModules()`): an
association list kept sorted by key, so that range-for iteration runs in
lexicographic name order. -/
abbrev SMap (α : Type) := List (String × α)

/-- Lexicographic order on character lists by code point — the comparison
`std::string::operator<` performs (byte order; identical on the ASCII
names this program uses).  Defined over the character data so that it
evaluates inside the kernel. -/
def strLtB : List Char → List Char → Bool
  | [], [] => false
  | [], _ :: _ => true
  | _ :: _, [] => false
  | a :: as, b :: bs =>
    if a.toNat < b.toNat then true
    else if b.toNat < a.toNat then false
    else strLtB as bs

/-- `std::string` comparison of two names. -/
def sLt (a b : String) : Bool := strLtB a.data b.data

namespace SMap

def find? {α : Type} : SMap α → String → Option α
  | [], _ => none
  | (k, v) :: rest, key => if key = k then some v else find? rest key

/-- `operator[]`-style insertion: overwrite an existing key, otherwise place
the new entry at its sorted position. -/
def insert {α : Type} : SMap α → String → α → SMap α
  | [], k, v => [(k, v)]
  | (k', v') :: rest, k, v =>
    if sLt k k' then (k, v) :: (k', v') :: rest
    else if k = k' then (k, v) :: rest
    else (k', v') :: insert rest k v

def contains {α : Type} (m : SMap α) (k : String) : Bool := (find? m k).isSome

def keyList {α : Type} (m : SMap α) : List String := m.map Prod.fst

end SMap

/-- Modelled from the spec: the C++ `Module` class (§3); `Module.hpp` is
not under src/ (renamed here because Mathlib already has `Module`).  A
rectangle with a unique name, mutable position and dimensions, and a
rotation flag; `rotate()` swaps width and height, `area` is
rotation-invariant. -/
structure HBModule where
  name : String
  width : Int
  height : Int
  x : Int
  y : Int
  rotated : Bool
deriving DecidableEq, Repr

def HBModule.getArea (m : HBModule) : Int := m.width * m.height

def HBModule.rotate (m : HBModule) : HBModule :=
  { m with width := m.height, height := m.width, rotated := !m.rotated }

def HBModule.setPosition (m : HBModule) (px py : Int) : HBModule := { m with x := px, y := py }

/-- Modelled from the spec: `SymmetryGroup` (§3); `SymmetryConstraint.hpp`
is not under src/.  A name, the ordered list of symmetry pairs, the
self-symmetric member names, and the axis orientation. -/
structure SymmetryGroup where
  name : String
  pairs : List (String × String)
  selfSymmetric : List String
  verticalAxis : Bool
deriving DecidableEq, Repr

/-- Modelled from the spec: the observable state of an ASF-B*-tree (§4.2);
`ASFBStarTree.{hpp,cpp}` are not under src/.  The HB*-tree only reads the
member-module set, the packed axis position, and the packed horizontal
contour; the internal topology is opaque (`core`). -/
structure ASFBStarTree where
  groupName : String
  memberNames : List String
  axisPos : Int
  hContour : Contour
  core : Nat
deriving DecidableEq, Repr

/-- Modelled from the spec: the operation contract of the ASF-B*-tree that
HBStarTree.cpp calls through (§4.2).  The theorems below are quantified
over any implementation of this record; concrete witnesses instantiate
it. -/
structure AsfOps where
  constructInitialTree : ASFBStarTree → ASFBStarTree
  pack : ASFBStarTree → SMap HBModule → ASFBStarTree × SMap HBModule
  rotateModule : ASFBStarTree → SMap HBModule → String → ASFBStarTree × SMap HBModule × Bool

/-- enum class HBNodeType (HBStarTreeNode.hpp). -/
inductive HBNodeType
  | MODULE
  | HIERARCHY
  | CONTOUR
deriving DecidableEq, Repr

/-- class HBStarTreeNode (HBStarTreeNode.hpp): node kind, name, the three
tree links (children owning, parent weak — here all by node name), the
ASF-tree payload of HIERARCHY nodes and the four contour coordinates of
CONTOUR nodes. -/
structure HBNode where
  ntype : HBNodeType
  name : String
  left : Option String
  right : Option String
  parent : Option String
  asf : Option ASFBStarTree
  cx1 : Int
  cy1 : Int
  cx2 : Int
  cy2 : Int
deriving DecidableEq, Repr

/-- HBStarTreeNode constructor: fresh node of a kind and name. -/
def HBNode.mkNode (t : HBNodeType) (nm : String) : HBNode :=
  ⟨t, nm, none, none, none, none, 0, 0, 0, 0⟩

/-- HBStarTreeNode::getASFTree — null unless the node is HIERARCHY. -/
def HBNode.getASFTree (n : HBNode) : Option ASFBStarTree :=
  if n.ntype = HBNodeType.HIERARCHY then n.asf else none

/-- The whole HBStarTree object state (HBStarTree.hpp members, listed in
§4.4 of the spec).  Nodes live in a name-keyed arena (`nodes`); the C++
node pointers are represented by node names, which are unique for all
MODULE/HIERARCHY nodes and for the generated contour-chain names. -/
structure HBState where
  modules : SMap HBModule
  symmetryGroups : List SymmetryGroup
  nodes : SMap HBNode
  root : Option String
  horizontalContour : Contour
  verticalContour : Contour
  moduleNodes : SMap Unit
  symmetryGroupNodes : SMap Unit
  nodeMap : SMap Unit
  modifiedSubtrees : SMap Unit
  totalArea : Int
  isPacked : Bool
deriving Repr

namespace HBStarTree

/-- HBStarTree::HBStarTree() — empty state. -/
def emptyHBState : HBState :=
  { modules := [], symmetryGroups := [], nodes := [], root := none,
    horizontalContour := Contour.emptyContour,
    verticalContour := Contour.emptyContour,
    moduleNodes := [], symmetryGroupNodes := [], nodeMap := [],
    modifiedSubtrees := [], totalArea := 0, isPacked := false }

def getNode (s : HBState) (n : String) : Option HBNode := SMap.find? s.nodes n

def updNode (s : HBState) (n : String) (f : HBNode → HBNode) : HBState :=
  match SMap.find? s.nodes n with
  | none => s
  | some nd => { s with nodes := SMap.insert s.nodes n (f nd) }

def setLeftOf (s : HBState) (n : String) (c : Option String) : HBState :=
  updNode s n (fun nd => { nd with left := c })

def setRightOf (s : HBState) (n : String) (c : Option String) : HBState :=
  updNode s n (fun nd => { nd with right := c })

def setParentOf (s : HBState) (n : String) (p : Option String) : HBState :=
  updNode s n (fun nd => { nd with parent := p })

/-- HBStarTreeNode::isLeftChild — via the parent back link. -/
def isLeftChild (s : HBState) (n : String) : Bool :=
  match getNode s n with
  | none => false
  | some nd =>
    match nd.parent with
    | none => false
    | some p =>
      match getNode s p with
      | none => false
      | some pnd => pnd.left = some n

/-- HBStarTree::addModule. -/
def addModule (s : HBState) (m : HBModule) : HBState :=
  { s with modules := SMap.insert s.modules m.name m }

/-- HBStarTree::addSymmetryGroup. -/
def addSymmetryGroup (s : HBState) (g : SymmetryGroup) : HBState :=
  { s with symmetryGroups := s.symmetryGroups ++ [g] }

/-- HBStarTree::findNode — nodeMap lookup. -/
def findNode (s : HBState) (n : String) : Option HBNode :=
  match SMap.find? s.nodeMap n with
  | some _ => getNode s n
  | none => none

/-- The x-coordinate rule of HBStarTree::packSubtree (HBStarTree.cpp lines
890-924 for MODULE nodes and the verbatim duplicate at lines 964-998 for
HIERARCHY nodes): derive x from the parent's kind and from which child
slot the node occupies; x stays 0 for the root. -/
def computeXFor (s : HBState) (nd : HBNode) : Int :=
  match nd.parent with
  | none => 0
  | some pname =>
    match getNode s pname with
    | none => 0
    | some pnd =>
      if pnd.left = some nd.name then
        match pnd.ntype with
        | HBNodeType.MODULE =>
          match SMap.find? s.modules pnd.name with
          | some pm => pm.x + pm.width
          | none => 0
        | HBNodeType.HIERARCHY =>
          match pnd.asf with
          | some pa => pa.axisPos
          | none => 0
        | HBNodeType.CONTOUR => pnd.cx2
      else
        match pnd.ntype with
        | HBNodeType.MODULE =>
          match SMap.find? s.modules pnd.name with
          | some pm => pm.x
          | none => 0
        | HBNodeType.HIERARCHY => 0
        | HBNodeType.CONTOUR => pnd.cx1

/-- The island bounding box computed in the HIERARCHY case of packSubtree
(HBStarTree.cpp lines 946-959): (minX, minY, symMaxX, symMaxY) over the
island's modules, with the C++ initial values. -/
def islandBBox (ms : SMap HBModule) (a : ASFBStarTree) : Int × Int × Int × Int :=
  a.memberNames.foldl
    (fun acc nm =>
      match SMap.find? ms nm with
      | none => acc
      | some m =>
        (min acc.1 m.x, min acc.2.1 m.y,
         max acc.2.2.1 (m.x + m.width), max acc.2.2.2 (m.y + m.height)))
    (2147483647, 2147483647, 0, 0)

/-- The island translation of packSubtree (HBStarTree.cpp lines 1003-1010). -/
def shiftIsland (ms : SMap HBModule) (a : ASFBStarTree) (dx dy : Int) : SMap HBModule :=
  a.memberNames.foldl
    (fun acc nm =>
      match SMap.find? acc nm with
      | none => acc
      | some m => SMap.insert acc nm (HBModule.setPosition m (m.x + dx) (m.y + dy)))
    ms

/-- HBStarTree::packSubtree (HBStarTree.cpp lines 877-1030): place the node
according to its kind, update the two global contours, then recurse into
the left and the right child.  The fuel bounds the recursion depth; the
top-level callers pass `s.nodes.length + 1`, enough for every acyclic
arena. -/
def packSubtree (ops : AsfOps) : Nat → HBState → String → HBState
  | 0, s, _ => s
  | Nat.succ fuel, s, name =>
    match getNode s name with
    | none => s
    | some nd =>
      match nd.ntype with
      | HBNodeType.MODULE =>
        match SMap.find? s.modules name with
        | none => s
        | some m =>
          let x := computeXFor s nd
          let y := Contour.getHeight s.horizontalContour x (x + m.width)
          let s := { s with
            modules := SMap.insert s.modules name (HBModule.setPosition m x y) }
          let s := { s with
            horizontalContour :=
              Contour.addSegment s.horizontalContour x (x + m.width) (y + m.height),
            verticalContour :=
              Contour.addSegment s.verticalContour y (y + m.height) (x + m.width) }
          let s := match nd.left with
                   | some l => packSubtree ops fuel s l
                   | none => s
          match nd.right with
          | some r => packSubtree ops fuel s r
          | none => s
      | HBNodeType.HIERARCHY =>
        match nd.getASFTree with
        | none => s
        | some a0 =>
          let pr := ops.pack a0 s.modules
          let a1 := pr.1
          let s := { s with modules := pr.2 }
          let s := updNode s name (fun n0 => { n0 with asf := some a1 })
          let bb := islandBBox s.modules a1
          let minX := bb.1
          let minY := bb.2.1
          let sMaxX := bb.2.2.1
          let sMaxY := bb.2.2.2
          let x := computeXFor s nd
          let y := Contour.getHeight s.horizontalContour x (x + (sMaxX - minX))
          let s := { s with modules := shiftIsland s.modules a1 (x - minX) (y - minY) }
          let s := { s with
            horizontalContour :=
              Contour.addSegment s.horizontalContour x (x + (sMaxX - minX))
                (y + (sMaxY - minY)),
            verticalContour :=
              Contour.addSegment s.verticalContour y (y + (sMaxY - minY))
                (x + (sMaxX - minX)) }
          let s := match nd.left with
                   | some l => packSubtree ops fuel s l
                   | none => s
          match nd.right with
          | some r => packSubtree ops fuel s r
          | none => s
      | HBNodeType.CONTOUR =>
        let s := match nd.left with
                 | some l => packSubtree ops fuel s l
                 | none => s
        match nd.right with
        | some r => packSubtree ops fuel s r
        | none => s

/-- HBStarTree::markSubtreeForRepack inner loop: add the node and every
ancestor to modifiedSubtrees. -/
def markLoop (s : HBState) : Nat → Option String → SMap Unit → SMap Unit
  | 0, _, acc => acc
  | Nat.succ _, none, acc => acc
  | Nat.succ fuel, some n, acc =>
    let acc := SMap.insert acc n ()
    match getNode s n with
    | none => acc
    | some nd => markLoop s fuel nd.parent acc

/-- HBStarTree::markSubtreeForRepack (HBStarTree.cpp lines 809-818). -/
def markSubtreeForRepack (s : HBState) (n : Option String) : HBState :=
  match n with
  | none => s
  | some _ =>
    { s with modifiedSubtrees := markLoop s (s.nodes.length + 1) n s.modifiedSubtrees }

/-- The ancestor walk of repackAffectedSubtrees (HBStarTree.cpp lines
831-839): is some ancestor in the modified set? -/
def hasMarkedAncestor (s : HBState) : Nat → Option String → Bool
  | 0, _ => false
  | Nat.succ _, none => false
  | Nat.succ fuel, some p =>
    if SMap.contains s.modifiedSubtrees p then true
    else
      match getNode s p with
      | none => false
      | some pnd => hasMarkedAncestor s fuel pnd.parent

/-- Node depth by walking the parent chain (the comparator of
repackAffectedSubtrees, HBStarTree.cpp lines 847-863). -/
def nodeDepth (s : HBState) : Nat → String → Nat
  | 0, _ => 0
  | Nat.succ fuel, n =>
    match getNode s n with
    | none => 0
    | some nd =>
      match nd.parent with
      | none => 0
      | some p => nodeDepth s fuel p + 1

def insertByDepthDesc (s : HBState) (fuel : Nat) (n : String) :
    List String → List String
  | [] => [n]
  | m :: rest =>
    if nodeDepth s fuel m < nodeDepth s fuel n then n :: m :: rest
    else m :: insertByDepthDesc s fuel n rest

def sortByDepthDesc (s : HBState) (fuel : Nat) : List String → List String
  | [] => []
  | n :: rest => insertByDepthDesc s fuel n (sortByDepthDesc s fuel rest)

/-- HBStarTree::repackAffectedSubtrees (HBStarTree.cpp lines 823-872):
collect the maximal modified nodes, sort them deepest first, repack each,
then clear the modified set. -/
def repackAffectedSubtrees (ops : AsfOps) (s : HBState) : HBState :=
  if s.modifiedSubtrees.isEmpty then s
  else
    let fuel := s.nodes.length + 1
    let roots := (s.modifiedSubtrees.map Prod.fst).filter
      (fun n =>
        match getNode s n with
        | none => true
        | some nd => !(hasMarkedAncestor s fuel nd.parent))
    let sorted := sortByDepthDesc s fuel roots
    let s := sorted.foldl (fun st n => packSubtree ops fuel st n) s
    { s with modifiedSubtrees := [] }

end HBStarTree

namespace HBStarTree

/-- The BFS of updateContourNodes that collects the existing contour nodes
below a hierarchy node's right child (HBStarTree.cpp lines 240-261): only
CONTOUR nodes are collected and expanded.  Each collected entry carries a
snapshot of the node's right child (read later at lines 287-291, before
which the old chain is not mutated). -/
def collectContourBFS (s : HBState) : Nat → List String → List (String × Option String)
  | 0, _ => []
  | Nat.succ fuel, [] => []
  | Nat.succ fuel, q :: queue =>
    match getNode s q with
    | none => collectContourBFS s fuel queue
    | some nd =>
      if nd.ntype = HBNodeType.CONTOUR then
        (q, nd.right) :: collectContourBFS s fuel (queue ++ nd.left.toList ++ nd.right.toList)
      else
        collectContourBFS s fuel queue

/-- The fresh contour nodes of updateContourNodes (HBStarTree.cpp lines
264-270): one CONTOUR node per skyline segment, named
`<group>_contour_<i>`, with coordinates (start, height, end, height). -/
def buildContourNodes (gname : String) (segs : List ContourSegment) :
    List (String × HBNode) :=
  segs.enum.map (fun pr =>
    let nm := gname ++ "_contour_" ++ toString pr.1
    (nm, { ntype := HBNodeType.CONTOUR, name := nm, left := none, right := none,
           parent := none, asf := none,
           cx1 := pr.2.start, cy1 := pr.2.height, cx2 := pr.2.stop, cy2 := pr.2.height }))

/-- Left-link the consecutive members of the fresh contour chain
(HBStarTree.cpp lines 279-282). -/
def wireLinks (s : HBState) : List String → HBState
  | a :: b :: rest =>
    let s := setLeftOf s a (some b)
    let s := setParentOf s b (some a)
    wireLinks s (b :: rest)
  | _ => s

/-- Attach the fresh chain under the hierarchy node (HBStarTree.cpp lines
273-283); nothing is attached when the chain is empty. -/
def wireChain (s : HBState) (gname : String) (names : List String) : HBState :=
  match names with
  | [] => s
  | first :: _ =>
    let s := setRightOf s gname (some first)
    let s := setParentOf s first (some gname)
    wireLinks s names

/-- HBStarTree::findNearestContourNode (HBStarTree.cpp lines 185-205): BFS
from the root, first CONTOUR node wins.  (The C++ takes the dangling node
as an argument but only null-checks it; the search always starts at the
root.) -/
def findNearestContour (s : HBState) : Nat → List String → Option String
  | 0, _ => none
  | Nat.succ fuel, [] => none
  | Nat.succ fuel, q :: queue =>
    match getNode s q with
    | none => findNearestContour s fuel queue
    | some nd =>
      if nd.ntype = HBNodeType.CONTOUR then some q
      else findNearestContour s fuel (queue ++ nd.left.toList ++ nd.right.toList)

/-- HBStarTree::findLeftmostSkewedChild (HBStarTree.cpp lines 210-219). -/
def leftmostSkewed (s : HBState) : Nat → String → String
  | 0, n => n
  | Nat.succ fuel, n =>
    match getNode s n with
    | none => n
    | some nd =>
      match nd.left with
      | none => n
      | some l => leftmostSkewed s fuel l

/-- The rightmost-skewed walk inlined in moveNode (HBStarTree.cpp lines
357-360). -/
def rightmostSkewed (s : HBState) : Nat → String → String
  | 0, n => n
  | Nat.succ fuel, n =>
    match getNode s n with
    | none => n
    | some nd =>
      match nd.right with
      | none => n
      | some r => rightmostSkewed s fuel r

/-- Re-attachment of one dangling subtree in updateContourNodes
(HBStarTree.cpp lines 294-311). -/
def reattachDangling (s : HBState) (d : String) : HBState :=
  let fuel := s.nodes.length + 1
  match findNearestContour s fuel s.root.toList with
  | none => s
  | some c =>
    match getNode s c with
    | none => s
    | some cnd =>
      match cnd.right with
      | none =>
        let s := setRightOf s c (some d)
        setParentOf s d (some c)
      | some r =>
        let lm := leftmostSkewed s fuel r
        let s := setLeftOf s lm (some d)
        setParentOf s d (some lm)

/-- updateContourNodes body for one hierarchy node (HBStarTree.cpp lines
226-312). -/
def updateContourForGroup (s : HBState) (gname : String) : HBState :=
  match getNode s gname with
  | none => s
  | some hnd =>
    match hnd.getASFTree with
    | none => s
    | some a =>
      let segs := a.hContour.segments
      let fuel := s.nodes.length + 1
      let existing := collectContourBFS s fuel hnd.right.toList
      let newNodes := buildContourNodes gname segs
      let s := { s with
        nodes := newNodes.foldl (fun m pr => SMap.insert m pr.1 pr.2) s.nodes }
      let s := wireChain s gname (newNodes.map Prod.fst)
      let danglings := existing.filterMap Prod.snd
      danglings.foldl (fun st d => reattachDangling st d) s

/-- HBStarTree::updateContourNodes (HBStarTree.cpp lines 224-313): for each
hierarchy node (in the name order of the symmetryGroupNodes map), destroy
and regenerate its contour-node chain from the island's packed skyline and
re-attach dangling subtrees. -/
def updateContourNodes (s : HBState) : HBState :=
  s.symmetryGroupNodes.foldl (fun st pr => updateContourForGroup st pr.1) s

/-- The total-area computation in pack (HBStarTree.cpp lines 369-379). -/
def totalAreaOf (ms : SMap HBModule) : Int :=
  let maxX := ms.foldl (fun acc pr => max acc (pr.2.x + pr.2.width)) 0
  let maxY := ms.foldl (fun acc pr => max acc (pr.2.y + pr.2.height)) 0
  maxX * maxY

/-- std::numeric_limits<int>::max(), used as the upper end of the base
contour segment. -/
def intMax : Int := 2147483647

/-- HBStarTree::pack (HBStarTree.cpp lines 346-387). -/
def pack (ops : AsfOps) (s : HBState) : Bool × HBState :=
  match s.root with
  | none => (false, s)
  | some r =>
    if !s.modifiedSubtrees.isEmpty then
      (true, repackAffectedSubtrees ops s)
    else
      let s := { s with
        horizontalContour :=
          Contour.addSegment (Contour.clear s.horizontalContour) 0 intMax 0,
        verticalContour :=
          Contour.addSegment (Contour.clear s.verticalContour) 0 intMax 0 }
      let s := packSubtree ops (s.nodes.length + 1) s r
      let s := { s with totalArea := totalAreaOf s.modules }
      let s := updateContourNodes s
      (true, { s with isPacked := true })

/-- The symmetry-group search of HBStarTree::rotateModule (HBStarTree.cpp
lines 399-425): first group whose pairs or selfSymmetric list mention the
module. -/
def findGroupOf : List SymmetryGroup → String → Option SymmetryGroup
  | [], _ => none
  | g :: rest, nm =>
    if g.pairs.any (fun pr => pr.1 = nm ∨ pr.2 = nm) then some g
    else if g.selfSymmetric.any (fun n => n = nm) then some g
    else findGroupOf rest nm

/-- HBStarTree::rotateModule (HBStarTree.cpp lines 392-465). -/
def rotateModule (ops : AsfOps) (s : HBState) (moduleName : String) : Bool × HBState :=
  match SMap.find? s.modules moduleName with
  | none => (false, s)
  | some m =>
    match findGroupOf s.symmetryGroups moduleName with
    | some g =>
      if !SMap.contains s.symmetryGroupNodes g.name then (false, s)
      else
        match getNode s g.name with
        | none => (false, s)
        | some hnd =>
          match hnd.getASFTree with
          | none => (false, s)
          | some a =>
            let res := ops.rotateModule a s.modules moduleName
            let success := res.2.2
            let s := { s with modules := res.2.1 }
            let s := updNode s g.name (fun n0 => { n0 with asf := some res.1 })
            let s := markSubtreeForRepack s (some g.name)
            let s := if s.isPacked && success then repackAffectedSubtrees ops s else s
            (success, s)
    | none =>
      let s := { s with modules := SMap.insert s.modules moduleName (HBModule.rotate m) }
      let s :=
        match SMap.find? s.moduleNodes moduleName with
        | some _ => markSubtreeForRepack s (some moduleName)
        | none => s
      let s := if s.isPacked then repackAffectedSubtrees ops s else s
      (true, s)

/-- The relocation of an evicted child in HBStarTree::moveNode
(HBStarTree.cpp lines 505-527 for left insertion, 530-552 for right):
prefer the moved node's free left slot, then its free right slot, else
descend the skewed chain. -/
def relocateExisting (s : HBState) (node existing : String) (asLeft : Bool) : HBState :=
  match getNode s node with
  | none => s
  | some nd =>
    match nd.left with
    | none =>
      let s := setLeftOf s node (some existing)
      setParentOf s existing (some node)
    | some lft =>
      match nd.right with
      | none =>
        let s := setRightOf s node (some existing)
        setParentOf s existing (some node)
      | some rgt =>
        if asLeft then
          let c := leftmostSkewed s (s.nodes.length + 1) lft
          let s := setLeftOf s c (some existing)
          setParentOf s existing (some c)
        else
          let c := rightmostSkewed s (s.nodes.length + 1) rgt
          let s := setRightOf s c (some existing)
          setParentOf s existing (some c)

/-- HBStarTree::moveNode (HBStarTree.cpp lines 470-568). -/
def moveNode (ops : AsfOps) (s0 : HBState) (nodeName newParentName : String)
    (asLeft : Bool) : Bool × HBState :=
  match findNode s0 nodeName, findNode s0 newParentName with
  | some nd, some _ =>
    let s := s0
    let s :=
      match nd.parent with
      | some op =>
        let s :=
          match getNode s op with
          | some opnd =>
            if opnd.left = some nodeName then setLeftOf s op none
            else if opnd.right = some nodeName then setRightOf s op none
            else s
          | none => s
        markSubtreeForRepack s (some op)
      | none =>
        if s.root = some nodeName then
          { s with root :=
              match nd.left with
              | some l => some l
              | none =>
                match nd.right with
                | some r => some r
                | none => none }
        else s
    let s := setParentOf s nodeName (some newParentName)
    let s :=
      if asLeft then
        let existing := (getNode s newParentName).bind (fun p => p.left)
        let s :=
          match existing with
          | some ex =>
            let s := relocateExisting s nodeName ex true
            markSubtreeForRepack s (some ex)
          | none => s
        setLeftOf s newParentName (some nodeName)
      else
        let existing := (getNode s newParentName).bind (fun p => p.right)
        let s :=
          match existing with
          | some ex =>
            let s := relocateExisting s nodeName ex false
            markSubtreeForRepack s (some ex)
          | none => s
        setRightOf s newParentName (some nodeName)
    let s := markSubtreeForRepack s (some newParentName)
    let s := markSubtreeForRepack s (some nodeName)
    let s := if s.isPacked then repackAffectedSubtrees ops s else s
    (true, s)
  | _, _ => (false, s0)

/-- HBStarTree::swapNodes (HBStarTree.cpp lines 573-742), including the
stale child-slot test at lines 610/650 (`node1->getLeftChild() == node2`
is evaluated after node2 has already been detached). -/
def swapNodes (ops : AsfOps) (s0 : HBState) (n1 n2 : String) : Bool × HBState :=
  match findNode s0 n1, findNode s0 n2 with
  | some nd1, some nd2 =>
    let s := markSubtreeForRepack s0 (some n1)
    let s := markSubtreeForRepack s (some n2)
    let parent1 := nd1.parent
    let parent2 := nd2.parent
    let isL1 := isLeftChild s n1
    let isL2 := isLeftChild s n2
    if nd1.left = some n2 ∨ nd1.right = some n2 then
      let s := if nd1.left = some n2 then setLeftOf s n1 none else setRightOf s n1 none
      let s :=
        match parent1 with
        | some p1 => if isL1 then setLeftOf s p1 none else setRightOf s p1 none
        | none => s
      let s :=
        if ((getNode s n1).bind (fun x => x.left)) = some n2 then
          setLeftOf s n2 (some n1)
        else setRightOf s n2 (some n1)
      let s := setParentOf s n1 (some n2)
      let s :=
        match parent1 with
        | some p1 =>
          let s := if isL1 then setLeftOf s p1 (some n2) else setRightOf s p1 (some n2)
          setParentOf s n2 (some p1)
        | none =>
          let s := { s with root := some n2 }
          setParentOf s n2 none
      let s := if s.isPacked then repackAffectedSubtrees ops s else s
      (true, s)
    else if nd2.left = some n1 ∨ nd2.right = some n1 then
      let s := if nd2.left = some n1 then setLeftOf s n2 none else setRightOf s n2 none
      let s :=
        match parent2 with
        | some p2 => if isL2 then setLeftOf s p2 none else setRightOf s p2 none
        | none => s
      let s :=
        if ((getNode s n2).bind (fun x => x.left)) = some n1 then
          setLeftOf s n1 (some n2)
        else setRightOf s n1 (some n2)
      let s := setParentOf s n2 (some n1)
      let s :=
        match parent2 with
        | some p2 =>
          let s := if isL2 then setLeftOf s p2 (some n1) else setRightOf s p2 (some n1)
          setParentOf s n1 (some p2)
        | none =>
          let s := { s with root := some n1 }
          setParentOf s n1 none
      let s := if s.isPacked then repackAffectedSubtrees ops s else s
      (true, s)
    else
      let s :=
        match parent1 with
        | some p1 => if isL1 then setLeftOf s p1 none else setRightOf s p1 none
        | none => s
      let s :=
        match parent2 with
        | some p2 => if isL2 then setLeftOf s p2 none else setRightOf s p2 none
        | none => s
      let l1 := (getNode s n1).bind (fun x => x.left)
      let r1 := (getNode s n1).bind (fun x => x.right)
      let l2 := (getNode s n2).bind (fun x => x.left)
      let r2 := (getNode s n2).bind (fun x => x.right)
      let s := setLeftOf s n1 l2
      let s := setRightOf s n1 r2
      let s := match l2 with | some c => setParentOf s c (some n1) | none => s
      let s := match r2 with | some c => setParentOf s c (some n1) | none => s
      let s := setLeftOf s n2 l1
      let s := setRightOf s n2 r1
      let s := match l1 with | some c => setParentOf s c (some n2) | none => s
      let s := match r1 with | some c => setParentOf s c (some n2) | none => s
      let s :=
        match parent1 with
        | some p1 =>
          let s := if isL1 then setLeftOf s p1 (some n2) else setRightOf s p1 (some n2)
          setParentOf s n2 (some p1)
        | none =>
          let s := { s with root := some n2 }
          setParentOf s n2 none
      let s :=
        match parent2 with
        | some p2 =>
          let s := if isL2 then setLeftOf s p2 (some n1) else setRightOf s p2 (some n1)
          setParentOf s n1 (some p2)
        | none =>
          let s := { s with root := some n1 }
          setParentOf s n1 none
      let s := if s.isPacked then repackAffectedSubtrees ops s else s
      (true, s)
  | _, _ => (false, s0)

/-- HBStarTree::clearTree (HBStarTree.cpp lines 158-163). -/
def clearTree (s : HBState) : HBState :=
  { s with root := none, moduleNodes := [], symmetryGroupNodes := [], isPacked := false }

/-- The ASF-B*-tree created in constructSymmetryIslands (HBStarTree.cpp
lines 54-70): members are the pair elements present in the module map, in
pair order, followed by the present self-symmetric modules. -/
def mkASF (s : HBState) (g : SymmetryGroup) : ASFBStarTree :=
  let names1 := g.pairs.foldl
    (fun acc pr =>
      let acc := if (SMap.find? s.modules pr.1).isSome then acc ++ [pr.1] else acc
      if (SMap.find? s.modules pr.2).isSome then acc ++ [pr.2] else acc) []
  let names := g.selfSymmetric.foldl
    (fun acc n => if (SMap.find? s.modules n).isSome then acc ++ [n] else acc) names1
  { groupName := g.name, memberNames := names, axisPos := 0,
    hContour := Contour.emptyContour, core := 0 }

/-- HBStarTree::constructSymmetryIslands (HBStarTree.cpp lines 51-82). -/
def constructSymmetryIslands (ops : AsfOps) (s : HBState) : HBState :=
  s.symmetryGroups.foldl
    (fun st g =>
      let a := ops.constructInitialTree (mkASF st g)
      let hnode : HBNode :=
        { ntype := HBNodeType.HIERARCHY, name := g.name, left := none, right := none,
          parent := none, asf := some a, cx1 := 0, cy1 := 0, cx2 := 0, cy2 := 0 }
      { st with nodes := SMap.insert st.nodes g.name hnode,
                symmetryGroupNodes := SMap.insert st.symmetryGroupNodes g.name () }) s

/-- The set of module names claimed by some symmetry group (HBStarTree.cpp
lines 90-99; only membership is ever queried). -/
def symmetryModuleNames (groups : List SymmetryGroup) : List String :=
  groups.foldl
    (fun acc g =>
      let acc := g.pairs.foldl (fun a pr => a ++ [pr.1, pr.2]) acc
      g.selfSymmetric.foldl (fun a n => a ++ [n]) acc) []

/-- The area-descending sort of the non-symmetric modules (HBStarTree.cpp
lines 109-112).  Its result fixes only the node-creation order; the chain
itself is later rebuilt from the name-keyed moduleNodes map. -/
def insertByAreaDesc (s : HBState) (n : String) : List String → List String
  | [] => [n]
  | m :: rest =>
    let areaOf := fun nm =>
      match SMap.find? s.modules nm with
      | some md => HBModule.getArea md
      | none => 0
    if areaOf m < areaOf n then n :: m :: rest else m :: insertByAreaDesc s n rest

def sortByAreaDesc (s : HBState) : List String → List String
  | [] => []
  | n :: rest => insertByAreaDesc s n (sortByAreaDesc s rest)

/-- The chain-building loops of constructInitialTreeStructure
(HBStarTree.cpp lines 127-152): attach each name as the left child of the
current chain end and return the new chain end. -/
def chainAttach (s : HBState) (cur : String) : List String → HBState × String
  | [] => (s, cur)
  | n :: rest =>
    let s := setLeftOf s cur (some n)
    let s := setParentOf s n (some cur)
    chainAttach s n rest

/-- HBStarTree::constructInitialTreeStructure (HBStarTree.cpp lines
85-155). -/
def constructInitialTreeStructure (s : HBState) : HBState :=
  let symNames := symmetryModuleNames s.symmetryGroups
  let nonSym := (s.modules.map Prod.fst).filter (fun n => !symNames.contains n)
  let nonSymSorted := sortByAreaDesc s nonSym
  let s := nonSymSorted.foldl
    (fun st n =>
      { st with nodes := SMap.insert st.nodes n (HBNode.mkNode HBNodeType.MODULE n),
                moduleNodes := SMap.insert st.moduleNodes n () }) s
  if s.symmetryGroupNodes.isEmpty && s.moduleNodes.isEmpty then s
  else if !s.symmetryGroupNodes.isEmpty then
    match s.symmetryGroupNodes.map Prod.fst with
    | [] => s
    | r :: restG =>
      let s := { s with root := some r }
      let pr := chainAttach s r restG
      (chainAttach pr.1 pr.2 (s.moduleNodes.map Prod.fst)).1
  else
    match s.moduleNodes.map Prod.fst with
    | [] => s
    | r :: restM =>
      let s := { s with root := some r }
      (chainAttach s r restM).1

/-- HBStarTree::registerNodeInMap (HBStarTree.cpp lines 1034-1047). -/
def registerNodeInMap (s : HBState) : Nat → String → HBState
  | 0, _ => s
  | Nat.succ fuel, n =>
    match getNode s n with
    | none => s
    | some nd =>
      let s := { s with nodeMap := SMap.insert s.nodeMap n () }
      let s := match nd.left with
               | some l => registerNodeInMap s fuel l
               | none => s
      match nd.right with
      | some r => registerNodeInMap s fuel r
      | none => s

/-- HBStarTree::constructInitialTree (HBStarTree.cpp lines 166-180). -/
def constructInitialTree (ops : AsfOps) (s : HBState) : HBState :=
  let s := clearTree s
  let s := constructSymmetryIslands ops s
  let s := constructInitialTreeStructure s
  match s.root with
  | some r => registerNodeInMap s (s.nodes.length + 1) r
  | none => s

/-- HBStarTree::clone (HBStarTree.cpp lines 1137-1165): deep-copy modules
and groups into a fresh tree, re-run constructInitialTree, then copy the
packed flag, total area and the two contours. -/
def clone (ops : AsfOps) (s : HBState) : HBState :=
  let c := emptyHBState
  let c := { c with modules := s.modules, symmetryGroups := s.symmetryGroups }
  let c := constructInitialTree ops c
  { c with isPacked := s.isPacked, totalArea := s.totalArea,
           horizontalContour := s.horizontalContour,
           verticalContour := s.verticalContour }

/-- HBStarTree::getArea. -/
def getArea (s : HBState) : Int := s.totalArea

end HBStarTree

open HBStarTree

/-- A concrete instantiation of the ASF-B*-tree contract used by witnesses
and counterexamples: `pack` lays the island members out in a row at y = 0
(deterministically, from their dimensions only), the axis position is the
row's total width and the contour is the row's skyline;
`rotateModule` reports failure and changes nothing. -/
def rowPack (a : ASFBStarTree) (ms : SMap HBModule) : ASFBStarTree × SMap HBModule :=
  let res := a.memberNames.foldl
    (fun (acc : SMap HBModule × Int × Contour) nm =>
      match SMap.find? acc.1 nm with
      | none => acc
      | some m =>
        (SMap.insert acc.1 nm (HBModule.setPosition m acc.2.1 0),
         acc.2.1 + m.width,
         Contour.addSegment acc.2.2 acc.2.1 (acc.2.1 + m.width) m.height))
    (ms, 0, Contour.emptyContour)
  ({ a with axisPos := res.2.1, hContour := res.2.2 }, res.1)

def simpleOps : AsfOps :=
  { constructInitialTree := fun a => a,
    pack := rowPack,
    rotateModule := fun a ms _ => (a, ms, false) }

/-- A fresh (unplaced) module. -/
def mkMod (nm : String) (w h : Int) : HBModule := ⟨nm, w, h, 0, 0, false⟩

set_option maxRecDepth 1000000

/-- The left-child chain from a node: the observable shape of the initial
left-skewed tree. -/
def chainOf (s : HBState) : Nat → Option String → List String
  | 0, _ => []
  | Nat.succ _, none => []
  | Nat.succ fuel, some n =>
    match getNode s n with
    | none => [n]
    | some nd => n :: chainOf s fuel nd.left

/-- The initial tree for two symmetry groups added in the order g2, g1 and
two non-symmetric modules a (area 1) and b (area 100). -/
def c2state : HBState :=
  let s := emptyHBState
  let s := addModule s (mkMod "p" 4 4)
  let s := addModule s (mkMod "q" 4 4)
  let s := addModule s (mkMod "a" 1 1)
  let s := addModule s (mkMod "b" 10 10)
  let s := addSymmetryGroup s ⟨"g2", [], ["p"], true⟩
  let s := addSymmetryGroup s ⟨"g1", [], ["q"], true⟩
  constructInitialTree simpleOps s

/-- Counterexample for C2: the groups were added in the order g2, g1 and
the area-descending order of the free modules is b, a, so the claimed
chain is g2, g1, b, a; the code builds the chain by iterating the
name-keyed maps, producing g1, g2, a, b. -/
theorem constructInitialTree_chain_cex :
    chainOf c2state (c2state.nodes.length + 1) c2state.root = ["g1", "g2", "a", "b"] ∧
    (["g1", "g2", "a", "b"] : List String) ≠ ["g2", "g1", "b", "a"] := by
  constructor
  · decide
  · decide

/-- Two 10×10 and 5×5 modules; initial chain a → b (a is the root, b its
left child). -/
def c6state : HBState :=
  let s := emptyHBState
  let s := addModule s (mkMod "a" 10 10)
  let s := addModule s (mkMod "b" 5 5)
  constructInitialTree simpleOps s

/-- C6 (code bug): swapNodes on a parent and its LEFT child.  The code's
own comment says `Attach node1 as child of node2 in the same position`,
but the slot test `node1->getLeftChild() == node2` (HBStarTree.cpp line
610) runs after node2 has been detached (line 595), so it is always false
and node1 is attached as node2's RIGHT child.  Here b was a's left child,
the claim and the comment require a to become b's left child, yet after
the call b's left is empty and a sits in b's right slot (the root and the
return value do match the claim). -/
theorem swapNodes_slot_bug :
    (swapNodes simpleOps c6state "a" "b").1 = true ∧
    (swapNodes simpleOps c6state "a" "b").2.root = some "b" ∧
    ((getNode (swapNodes simpleOps c6state "a" "b").2 "b").map
      (fun n => (n.left, n.right))) = some (none, some "a") := by
  refine ⟨by decide, by decide, by decide⟩

/-- A packed tree perturbed by one moveNode: modules a 20×10 and b 10×10,
pack, move b to be a's right child, pack again.  The placement is a at
(0,0) with b stacked above, bounding box 20×20 = 400. -/
def c5state : HBState :=
  let s := emptyHBState
  let s := addModule s (mkMod "a" 20 10)
  let s := addModule s (mkMod "b" 10 10)
  let s := constructInitialTree simpleOps s
  let s := (pack simpleOps s).2
  let s := (moveNode simpleOps s "b" "a" false).2
  (pack simpleOps s).2

/-- Counterexample for C5: the original packed tree has bounding-box area
400, but its clone — which re-runs initial construction and thereby
discards the moveNode — packs back to the initial chain with area 300. -/
theorem clone_pack_area_cex :
    c5state.isPacked = true ∧
    totalAreaOf c5state.modules = 400 ∧
    c5state.totalArea = 400 ∧
    totalAreaOf (pack simpleOps (clone simpleOps c5state)).2.modules = 300 ∧
    (pack simpleOps (clone simpleOps c5state)).2.totalArea = 300 ∧
    ((300 : Int) = 400 → False) := by
  refine ⟨by decide, by decide, by decide, by decide, by decide, by decide⟩

/-- The C4 counterexample state: one symmetry group G (a single
self-symmetric 30×10 module s0) and four free modules; after the first
pack, a sequence of structural perturbations leaves the module node d (with
the stale contour chain below it) attached as the hierarchy node's right
child, and q attached after it in traversal order. -/
def c4state : HBState :=
  let s := emptyHBState
  let s := addModule s (mkMod "s0" 30 10)
  let s := addModule s (mkMod "a" 10 10)
  let s := addModule s (mkMod "b" 10 10)
  let s := addModule s (mkMod "d" 10 5)
  let s := addModule s (mkMod "q" 10 10)
  let s := addSymmetryGroup s ⟨"G", [], ["s0"], true⟩
  let s := constructInitialTree simpleOps s
  let s := (pack simpleOps s).2
  let s := (swapNodes simpleOps s "G" "a").2
  let s := (moveNode simpleOps s "G" "b" true).2
  let s := (moveNode simpleOps s "q" "a" false).2
  (moveNode simpleOps s "d" "G" false).2

/-- The state after the first of the two consecutive packs. -/
def c4packed : HBState := (pack simpleOps c4state).2

/-- Counterexample for C4: both packs succeed and no perturbation happens
between them, yet the second pack assigns q the y-coordinate 10 where the
first pack assigned 15.  (The first pack places d above a — d hangs as the
hierarchy's right child — and q above d; its contour regeneration then
replaces the hierarchy's right child with a fresh contour chain, silently
orphaning d, so the second pack no longer stacks q on d.) -/
theorem pack_idempotence_cex :
    c4state.root = some "a" ∧
    (pack simpleOps c4state).1 = true ∧
    (pack simpleOps c4packed).1 = true ∧
    SMap.find? c4packed.modules "q" =
      some ⟨"q", 10, 10, 0, 15, false⟩ ∧
    SMap.find? (pack simpleOps c4packed).2.modules "q" =
      some ⟨"q", 10, 10, 0, 10, false⟩ ∧
    (SMap.find? (pack simpleOps c4packed).2.modules "q" =
      SMap.find? c4packed.modules "q" → False) := by
  refine ⟨by decide, by decide, by decide, by decide, by decide, by decide⟩

/-- C7: a perturbation on an unregistered name fails without touching the
state: rotateModule checks the module map, moveNode and swapNodes check the
node map, and each returns false with the entire tree state — root, links,
module data, contours, modifiedSubtrees — exactly as before. -/
theorem perturb_unknown_name (ops : AsfOps) (s : HBState) (nm other : String)
    (asLeft : Bool)
    (hm : SMap.find? s.modules nm = none)
    (hn : SMap.find? s.nodeMap nm = none) :
    rotateModule ops s nm = (false, s) ∧
    moveNode ops s nm other asLeft = (false, s) ∧
    moveNode ops s other nm asLeft = (false, s) ∧
    swapNodes ops s nm other = (false, s) ∧
    swapNodes ops s other nm = (false, s) := by
  have hfind : findNode s nm = none := by
    simp [HBStarTree.findNode, hn]
  refine ⟨?_, ?_, ?_, ?_, ?_⟩
  · simp [HBStarTree.rotateModule, hm]
  · simp [HBStarTree.moveNode, hfind]
  · rw [HBStarTree.moveNode]
    rw [hfind]
    cases findNode s other <;> rfl
  · simp [HBStarTree.swapNodes, hfind]
  · rw [HBStarTree.swapNodes]
    rw [hfind]
    cases findNode s other <;> rfl

/-- Witness for C7 at the two-module state and the unregistered name zz. -/
theorem perturb_unknown_name_witness :
    (SMap.find? c6state.modules "zz" = none ∧
      SMap.find? c6state.nodeMap "zz" = none) ∧
    rotateModule simpleOps c6state "zz" = (false, c6state) ∧
    swapNodes simpleOps c6state "a" "zz" = (false, c6state) := by
  have h := perturb_unknown_name simpleOps c6state "zz" "a" true
    (by decide) (by decide)
  exact ⟨⟨by decide, by decide⟩, h.1, h.2.2.2.2⟩

theorem smap_contains_insert {α : Type} (m : SMap α) (k x : String) (v : α) :
    SMap.contains (SMap.insert m k v) x = true ↔ x = k ∨ SMap.contains m x = true := by
  induction m with
  | nil =>
    by_cases hx : x = k <;> simp [SMap.insert, SMap.contains, SMap.find?, hx]
  | cons hd tl ih =>
    obtain ⟨k', v'⟩ := hd
    by_cases h1 : sLt k k'
    · by_cases hx : x = k <;>
        simp [SMap.insert, SMap.contains, SMap.find?, h1, hx]
    · by_cases h2 : k = k'
      · subst h2
        by_cases hx : x = k <;>
          simp [SMap.insert, SMap.contains, SMap.find?, h1, hx]
      · by_cases hx : x = k'
        · subst hx
          simp [SMap.insert, SMap.contains, SMap.find?, h1, h2, Ne.symm h2]
        · simp only [SMap.insert, if_neg h1, if_neg h2]
          simp only [SMap.contains, SMap.find?, if_neg hx]
          exact ih

theorem smap_insert_length_ge {α : Type} (m : SMap α) (k : String) (v : α) :
    m.length ≤ (SMap.insert m k v).length := by
  induction m with
  | nil => simp [SMap.insert]
  | cons hd tl ih =>
    obtain ⟨k', v'⟩ := hd
    by_cases h1 : sLt k k'
    · simp [SMap.insert, h1]
    · by_cases h2 : k = k'
      · subst h2
        simp [SMap.insert, h1]
      · simpa [SMap.insert, h1, h2] using ih

/-- The node-and-ancestors list walked by markSubtreeForRepack. -/
def ancestorChain (s : HBState) : Nat → Option String → List String
  | 0, _ => []
  | Nat.succ _, none => []
  | Nat.succ fuel, some n =>
    n :: (match getNode s n with
          | none => []
          | some nd => ancestorChain s fuel nd.parent)

theorem ancestorChain_fuel_mono (s : HBState) :
    ∀ (fuel fuel' : Nat) (n : Option String) (x : String), fuel ≤ fuel' →
      x ∈ ancestorChain s fuel n → x ∈ ancestorChain s fuel' n := by
  intro fuel
  induction fuel with
  | zero => intro fuel' n x _ h; simp [ancestorChain] at h
  | succ fuel ih =>
    intro fuel' n x hle h
    cases n with
    | none => simp [ancestorChain] at h
    | some nm =>
      obtain ⟨fuel2, rfl⟩ : ∃ f2, fuel' = f2 + 1 :=
        ⟨fuel' - 1, by omega⟩
      rw [ancestorChain] at h ⊢
      cases hg : getNode s nm with
      | none =>
        rw [hg] at h
        simpa using by simpa using h
      | some nd =>
        rw [hg] at h
        simp only [List.mem_cons] at h ⊢
        rcases h with h | h
        · exact Or.inl h
        · exact Or.inr (ih fuel2 nd.parent x (by omega) h)

theorem markLoop_mono (s : HBState) :
    ∀ (fuel : Nat) (n : Option String) (acc : SMap Unit) (x : String),
      SMap.contains acc x = true →
      SMap.contains (markLoop s fuel n acc) x = true := by
  intro fuel
  induction fuel with
  | zero => intro n acc x h; simpa [HBStarTree.markLoop] using h
  | succ fuel ih =>
    intro n acc x h
    cases n with
    | none => simpa [HBStarTree.markLoop] using h
    | some nm =>
      rw [HBStarTree.markLoop]
      cases hg : getNode s nm with
      | none =>
        exact (smap_contains_insert acc nm x ()).mpr (Or.inr h)
      | some nd =>
        exact ih nd.parent _ x ((smap_contains_insert acc nm x ()).mpr (Or.inr h))

theorem markLoop_contains (s : HBState) :
    ∀ (fuel : Nat) (n : Option String) (acc : SMap Unit) (x : String),
      x ∈ ancestorChain s fuel n →
      SMap.contains (markLoop s fuel n acc) x = true := by
  intro fuel
  induction fuel with
  | zero => intro n acc x h; simp [ancestorChain] at h
  | succ fuel ih =>
    intro n acc x h
    cases n with
    | none => simp [ancestorChain] at h
    | some nm =>
      rw [HBStarTree.markLoop]
      rw [ancestorChain] at h
      cases hg : getNode s nm with
      | none =>
        rw [hg] at h
        simp at h
        subst h
        exact (smap_contains_insert acc x x ()).mpr (Or.inl rfl)
      | some nd =>
        rw [hg] at h
        simp only [List.mem_cons] at h
        rcases h with h | h
        · subst h
          exact markLoop_mono s fuel nd.parent _ x
            ((smap_contains_insert acc x x ()).mpr (Or.inl rfl))
        · exact ih nd.parent _ x h

theorem smap_find_insert {α : Type} (m : SMap α) (k x : String) (v : α) :
    SMap.find? (SMap.insert m k v) x = if x = k then some v else SMap.find? m x := by
  induction m with
  | nil => simp [SMap.insert, SMap.find?]
  | cons hd tl ih =>
    obtain ⟨k', v'⟩ := hd
    by_cases h1 : sLt k k'
    · simp [SMap.insert, SMap.find?, h1]
    · by_cases h2 : k = k'
      · subst h2
        by_cases hx : x = k <;> simp [SMap.insert, SMap.find?, h1, hx]
      · by_cases hx : x = k'
        · subst hx
          simp [SMap.insert, SMap.find?, h1, h2, Ne.symm h2]
        · simp [SMap.insert, SMap.find?, h1, h2, hx, ih]

theorem ancestorChain_congr (s t : HBState)
    (h : ∀ x, (getNode t x).map (fun nd => nd.parent) =
      (getNode s x).map (fun nd => nd.parent)) :
    ∀ (fuel : Nat) (n : Option String),
      ancestorChain t fuel n = ancestorChain s fuel n := by
  intro fuel
  induction fuel with
  | zero => intro n; rfl
  | succ fuel ih =>
    intro n
    cases n with
    | none => rfl
    | some nm =>
      rw [ancestorChain, ancestorChain]
      have hx := h nm
      cases hs : getNode s nm with
      | none =>
        have ht : getNode t nm = none := by
          rw [hs] at hx
          cases ht2 : getNode t nm
          · rfl
          · rw [ht2] at hx; simp at hx
        rw [ht]
      | some nd =>
        have hex : ∃ nd', getNode t nm = some nd' ∧ nd'.parent = nd.parent := by
          rw [hs] at hx
          cases ht2 : getNode t nm
          · simp [ht2] at hx
          · simp [ht2] at hx
            exact ⟨_, rfl, hx⟩
        obtain ⟨nd', ht, hp⟩ := hex
        simp only [ht]
        rw [ih nd'.parent, hp]

/-- C10: for a module in a symmetry group, rotateModule marks the group's
Hierarchy node and all of its ancestors even when the delegated ASF-tree
rotation fails: the call returns false, yet the hierarchy node and its
whole ancestor chain sit in modifiedSubtrees afterwards (the incremental
repack that would clear them is skipped on the failure path, so the
failure path is not state-preserving). -/
theorem rotateModule_marks_on_failure
    (ops : AsfOps) (s : HBState) (nm : String) (m : HBModule) (g : SymmetryGroup)
    (hnd : HBNode) (a a' : ASFBStarTree) (ms' : SMap HBModule)
    (hm : SMap.find? s.modules nm = some m)
    (hg : findGroupOf s.symmetryGroups nm = some g)
    (hc : SMap.contains s.symmetryGroupNodes g.name = true)
    (hnode : getNode s g.name = some hnd)
    (hasf : hnd.getASFTree = some a)
    (hres : ops.rotateModule a s.modules nm = (a', ms', false)) :
    (rotateModule ops s nm).1 = false ∧
    (∀ x, x ∈ ancestorChain s (s.nodes.length + 1) (some g.name) →
      SMap.contains (rotateModule ops s nm).2.modifiedSubtrees x = true) ∧
    SMap.contains (rotateModule ops s nm).2.modifiedSubtrees g.name = true := by
  have hfind : SMap.find? ({ s with modules := ms' } : HBState).nodes g.name =
      some hnd := hnode
  have hs1eq : updNode { s with modules := ms' } g.name
        (fun n0 => { n0 with asf := some a' }) =
      { s with modules := ms',
               nodes := SMap.insert s.nodes g.name { hnd with asf := some a' } } := by
    unfold HBStarTree.updNode
    rw [hfind]
  have hrun : rotateModule ops s nm =
      (false, markSubtreeForRepack
        { s with modules := ms',
                 nodes := SMap.insert s.nodes g.name { hnd with asf := some a' } }
        (some g.name)) := by
    simp only [HBStarTree.rotateModule, hm, hg, hc, Bool.not_true,
      Bool.false_eq_true, if_false, hnode, hasf, hres, Bool.and_false, hs1eq]
  set s1 : HBState :=
    { s with modules := ms',
             nodes := SMap.insert s.nodes g.name { hnd with asf := some a' } }
    with hs1
  have hcong : ∀ x, (getNode s1 x).map (fun nd => nd.parent) =
      (getNode s x).map (fun nd => nd.parent) := by
    intro x
    have hgx : getNode s1 x =
        SMap.find? (SMap.insert s.nodes g.name { hnd with asf := some a' }) x := rfl
    rw [hgx, smap_find_insert]
    by_cases hx : x = g.name
    · subst hx
      rw [if_pos rfl, show getNode s g.name = some hnd from hnode]
      rfl
    · rw [if_neg hx]
      rfl
  have hlen : s.nodes.length + 1 ≤ s1.nodes.length + 1 := by
    have := smap_insert_length_ge s.nodes g.name { hnd with asf := some a' }
    simp only [hs1]
    omega
  have hcontains : ∀ x, x ∈ ancestorChain s (s.nodes.length + 1) (some g.name) →
      SMap.contains (rotateModule ops s nm).2.modifiedSubtrees x = true := by
    intro x hx
    rw [hrun]
    show SMap.contains
      (markLoop s1 (s1.nodes.length + 1) (some g.name) s1.modifiedSubtrees) x = true
    apply markLoop_contains
    have hx1 : x ∈ ancestorChain s1 (s.nodes.length + 1) (some g.name) := by
      rw [ancestorChain_congr s s1 hcong]
      exact hx
    exact ancestorChain_fuel_mono s1 _ _ _ x hlen hx1
  refine ⟨by rw [hrun], hcontains, ?_⟩
  apply hcontains
  rw [ancestorChain]
  exact List.mem_cons_self g.name _

/-- Group G with the self-symmetric member s0 and one free module f. -/
def c10state : HBState :=
  let s := emptyHBState
  let s := addModule s (mkMod "s0" 30 10)
  let s := addModule s (mkMod "f" 10 10)
  let s := addSymmetryGroup s ⟨"G", [], ["s0"], true⟩
  constructInitialTree simpleOps s

/-- Witness for C10: simpleOps's delegated rotation fails, and the call on
s0 returns false while marking the hierarchy node G. -/
theorem rotateModule_marks_on_failure_witness :
    (SMap.find? c10state.modules "s0" = some (mkMod "s0" 30 10) ∧
      findGroupOf c10state.symmetryGroups "s0" = some ⟨"G", [], ["s0"], true⟩ ∧
      simpleOps.rotateModule ⟨"G", ["s0"], 0, ⟨[], 0, 0⟩, 0⟩ c10state.modules "s0" =
        (⟨"G", ["s0"], 0, ⟨[], 0, 0⟩, 0⟩, c10state.modules, false)) ∧
    (rotateModule simpleOps c10state "s0").1 = false ∧
    SMap.contains (rotateModule simpleOps c10state "s0").2.modifiedSubtrees "G" = true := by
  have h := rotateModule_marks_on_failure simpleOps c10state "s0"
    (mkMod "s0" 30 10) ⟨"G", [], ["s0"], true⟩
    ⟨HBNodeType.HIERARCHY, "G", some "f", none, none,
      some ⟨"G", ["s0"], 0, ⟨[], 0, 0⟩, 0⟩, 0, 0, 0, 0⟩
    ⟨"G", ["s0"], 0, ⟨[], 0, 0⟩, 0⟩ ⟨"G", ["s0"], 0, ⟨[], 0, 0⟩, 0⟩
    c10state.modules (by decide) (by decide) (by decide) (by decide)
    (by decide) (by decide)
  exact ⟨⟨by decide, by decide, by decide⟩, h.1, h.2.2⟩

/-- The structural content of a node: everything except the ASF-tree
payload (packSubtree re-packs islands in place but never rewires the
tree). -/
def structOf (nd : HBNode) :
    HBNodeType × String × Option String × Option String × Option String ×
      Int × Int × Int × Int :=
  (nd.ntype, nd.name, nd.left, nd.right, nd.parent, nd.cx1, nd.cy1, nd.cx2, nd.cy2)

/-- Frame relation: everything except the module coordinates, the two
global contours and the nodes' ASF payloads agrees. -/
def FrameEq (s t : HBState) : Prop :=
  t.root = s.root ∧ t.isPacked = s.isPacked ∧ t.totalArea = s.totalArea ∧
  t.modifiedSubtrees = s.modifiedSubtrees ∧ t.nodeMap = s.nodeMap ∧
  t.moduleNodes = s.moduleNodes ∧ t.symmetryGroupNodes = s.symmetryGroupNodes ∧
  t.symmetryGroups = s.symmetryGroups ∧
  ∀ x, (getNode t x).map structOf = (getNode s x).map structOf

theorem frameEq_refl (s : HBState) : FrameEq s s :=
  ⟨rfl, rfl, rfl, rfl, rfl, rfl, rfl, rfl, fun _ => rfl⟩

theorem frameEq_trans {s t u : HBState} (h1 : FrameEq s t) (h2 : FrameEq t u) :
    FrameEq s u := by
  obtain ⟨a1, b1, c1, d1, e1, f1, g1, i1, j1⟩ := h1
  obtain ⟨a2, b2, c2, d2, e2, f2, g2, i2, j2⟩ := h2
  exact ⟨a2.trans a1, b2.trans b1, c2.trans c1, d2.trans d1, e2.trans e1,
    f2.trans f1, g2.trans g1, i2.trans i1, fun x => (j2 x).trans (j1 x)⟩

theorem updNode_asf_frame (s : HBState) (nm : String) (v : Option ASFBStarTree) :
    FrameEq s (updNode s nm (fun n0 => { n0 with asf := v })) := by
  unfold HBStarTree.updNode
  cases hf : SMap.find? s.nodes nm with
  | none => exact frameEq_refl s
  | some nd =>
    refine ⟨rfl, rfl, rfl, rfl, rfl, rfl, rfl, rfl, ?_⟩
    intro x
    show (SMap.find? (SMap.insert s.nodes nm { nd with asf := v }) x).map structOf =
      (SMap.find? s.nodes x).map structOf
    rw [smap_find_insert]
    by_cases hx : x = nm
    · subst hx
      rw [if_pos rfl, hf]
      rfl
    · rw [if_neg hx]

theorem frameEq_child {ops : AsfOps} {fuel : Nat} {s t : HBState}
    (h : FrameEq s t)
    (ih : ∀ (u : HBState) (l : String), FrameEq u (packSubtree ops fuel u l))
    (o : Option String) :
    FrameEq s (match o with
               | some l => packSubtree ops fuel t l
               | none => t) := by
  cases o with
  | none => exact h
  | some l => exact frameEq_trans h (ih t l)

theorem packSubtree_frame (ops : AsfOps) :
    ∀ (fuel : Nat) (s : HBState) (n : String),
      FrameEq s (packSubtree ops fuel s n) := by
  intro fuel
  induction fuel with
  | zero => intro s n; exact frameEq_refl s
  | succ fuel ih =>
    intro s n
    rw [HBStarTree.packSubtree]
    split
    · exact frameEq_refl _
    · rename_i nd hg
      split
      · split
        · exact frameEq_refl _
        · exact frameEq_child
            (frameEq_child ⟨rfl, rfl, rfl, rfl, rfl, rfl, rfl, rfl, fun _ => rfl⟩
              ih nd.left)
            ih nd.right
      · split
        · exact frameEq_refl _
        · rename_i a0 ha
          refine frameEq_child (frameEq_child ?_ ih nd.left) ih nd.right
          have h1 : FrameEq s (updNode { s with modules := (ops.pack a0 s.modules).2 } n
              (fun n0 => { n0 with asf := some (ops.pack a0 s.modules).1 })) :=
            frameEq_trans ⟨rfl, rfl, rfl, rfl, rfl, rfl, rfl, rfl, fun _ => rfl⟩
              (updNode_asf_frame _ n _)
          exact frameEq_trans h1 ⟨rfl, rfl, rfl, rfl, rfl, rfl, rfl, rfl, fun _ => rfl⟩
      · exact frameEq_child (frameEq_child (frameEq_refl _) ih nd.left) ih nd.right

theorem frameEq_foldl (ops : AsfOps) (fuel : Nat) :
    ∀ (l : List String) (s : HBState),
      FrameEq s (l.foldl (fun st n => packSubtree ops fuel st n) s) := by
  intro l
  induction l with
  | nil => intro s; exact frameEq_refl s
  | cons n rest ih =>
    intro s
    exact frameEq_trans (packSubtree_frame ops fuel s n) (ih _)

/-- C9: when pack() is entered with a non-empty modifiedSubtrees set (and
a root), it performs only the incremental repackAffectedSubtrees pass and
returns true; the full-pack actions are all skipped — the contours are not
cleared and re-seeded, totalArea and isPacked keep their values, and the
tree (in particular the contour-node chains) is not rewired. -/
theorem pack_incremental_only (ops : AsfOps) (s : HBState) (r : String)
    (hr : s.root = some r) (hne : s.modifiedSubtrees.isEmpty = false) :
    pack ops s = (true, repackAffectedSubtrees ops s) ∧
    (repackAffectedSubtrees ops s).isPacked = s.isPacked ∧
    (repackAffectedSubtrees ops s).totalArea = s.totalArea ∧
    (repackAffectedSubtrees ops s).root = s.root ∧
    (repackAffectedSubtrees ops s).nodeMap = s.nodeMap ∧
    (repackAffectedSubtrees ops s).modifiedSubtrees = [] ∧
    (∀ x, (getNode (repackAffectedSubtrees ops s) x).map structOf =
      (getNode s x).map structOf) := by
  have hpack : pack ops s = (true, repackAffectedSubtrees ops s) := by
    rw [HBStarTree.pack, hr]
    simp [hne]
  have hrep : FrameEq s
      ((sortByDepthDesc s (s.nodes.length + 1)
        ((s.modifiedSubtrees.map Prod.fst).filter
          (fun n =>
            match getNode s n with
            | none => true
            | some nd => !(hasMarkedAncestor s (s.nodes.length + 1) nd.parent)))).foldl
        (fun st n => packSubtree ops (s.nodes.length + 1) st n) s) :=
    frameEq_foldl ops _ _ s
  have hrepeq : repackAffectedSubtrees ops s =
      { (sortByDepthDesc s (s.nodes.length + 1)
          ((s.modifiedSubtrees.map Prod.fst).filter
            (fun n =>
              match getNode s n with
              | none => true
              | some nd => !(hasMarkedAncestor s (s.nodes.length + 1) nd.parent)))).foldl
          (fun st n => packSubtree ops (s.nodes.length + 1) st n) s
        with modifiedSubtrees := [] } := by
    rw [HBStarTree.repackAffectedSubtrees]
    rw [hne]
    rfl
  obtain ⟨h1, h2, h3, _, h5, h6, h7, h8, h9⟩ := hrep
  refine ⟨hpack, ?_, ?_, ?_, ?_, ?_, ?_⟩ <;> rw [hrepeq]
  · exact h2
  · exact h3
  · exact h1
  · exact h5
  · intro x
    exact h9 x

/-- Witness for C9: a packed two-module state with b's node freshly
marked; pack takes the incremental path. -/
def c9state : HBState :=
  let s := emptyHBState
  let s := addModule s (mkMod "a" 10 10)
  let s := addModule s (mkMod "b" 5 5)
  let s := constructInitialTree simpleOps s
  let s := (pack simpleOps s).2
  markSubtreeForRepack s (some "b")

theorem pack_incremental_only_witness :
    (c9state.root = some "a" ∧ c9state.modifiedSubtrees.isEmpty = false) ∧
    pack simpleOps c9state = (true, repackAffectedSubtrees simpleOps c9state) ∧
    (repackAffectedSubtrees simpleOps c9state).isPacked = c9state.isPacked := by
  have h := pack_incremental_only simpleOps c9state "a" (by decide) (by decide)
  exact ⟨⟨by decide, by decide⟩, h.1, h.2.1⟩

/- ### The amended initial-chain property (C2) -/

theorem mem_keyList_find {α : Type} (m : SMap α) (x : String) :
    x ∈ SMap.keyList m ↔ (SMap.find? m x).isSome = true := by
  induction m with
  | nil => simp [SMap.keyList, SMap.find?]
  | cons hd tl ih =>
    obtain ⟨k, v⟩ := hd
    by_cases hx : x = k <;> simp [SMap.keyList, SMap.find?, hx] at ih ⊢ <;> exact ih

theorem mem_keyList_insert {α : Type} (m : SMap α) (k : String) (v : α) (x : String) :
    x ∈ SMap.keyList (SMap.insert m k v) ↔ x = k ∨ x ∈ SMap.keyList m := by
  rw [mem_keyList_find, mem_keyList_find, smap_find_insert]
  by_cases hx : x = k <;> simp [hx]

theorem getNode_updNode (s : HBState) (n : String) (f : HBNode → HBNode) (x : String) :
    getNode (updNode s n f) x = if x = n then (getNode s n).map f else getNode s x := by
  unfold HBStarTree.updNode HBStarTree.getNode
  cases h : SMap.find? s.nodes n with
  | none =>
    by_cases hx : x = n <;> simp [hx, h]
  | some nd =>
    simp only [smap_find_insert, h]
    by_cases hx : x = n <;> simp [hx]

theorem updNode_fields (s : HBState) (n : String) (f : HBNode → HBNode) :
    (updNode s n f).root = s.root ∧
    (updNode s n f).symmetryGroupNodes = s.symmetryGroupNodes ∧
    (updNode s n f).moduleNodes = s.moduleNodes := by
  unfold HBStarTree.updNode
  cases h : SMap.find? s.nodes n <;> simp

theorem chainAttach_fields :
    ∀ (l : List String) (s : HBState) (cur : String),
      (chainAttach s cur l).1.root = s.root ∧
      (chainAttach s cur l).1.symmetryGroupNodes = s.symmetryGroupNodes ∧
      (chainAttach s cur l).1.moduleNodes = s.moduleNodes := by
  intro l
  induction l with
  | nil => intro s cur; exact ⟨rfl, rfl, rfl⟩
  | cons n rest ih =>
    intro s cur
    rw [HBStarTree.chainAttach]
    obtain ⟨h1, h2, h3⟩ := ih (setParentOf (setLeftOf s cur (some n)) n (some cur)) n
    obtain ⟨p1, p2, p3⟩ := updNode_fields (setLeftOf s cur (some n)) n
      (fun nd => { nd with parent := some cur })
    obtain ⟨q1, q2, q3⟩ := updNode_fields s cur (fun nd => { nd with left := some n })
    refine ⟨?_, ?_, ?_⟩
    · rw [h1]; rw [HBStarTree.setParentOf] at *; rw [p1]
      rw [HBStarTree.setLeftOf] at *; exact q1
    · rw [h2]; rw [HBStarTree.setParentOf] at *; rw [p2]
      rw [HBStarTree.setLeftOf] at *; exact q2
    · rw [h3]; rw [HBStarTree.setParentOf] at *; rw [p3]
      rw [HBStarTree.setLeftOf] at *; exact q3

theorem chainAttach_getNode_notmem :
    ∀ (l : List String) (s : HBState) (cur x : String),
      x ≠ cur → x ∉ l →
      getNode (chainAttach s cur l).1 x = getNode s x := by
  intro l
  induction l with
  | nil => intro s cur x _ _; rfl
  | cons n rest ih =>
    intro s cur x hxc hxl
    rw [HBStarTree.chainAttach]
    have hxn : x ≠ n := fun h => hxl (h ▸ List.mem_cons_self n rest)
    have hxr : x ∉ rest := fun h => hxl (List.mem_cons_of_mem n h)
    rw [ih _ n x hxn hxr]
    rw [HBStarTree.setParentOf, getNode_updNode, if_neg hxn,
      HBStarTree.setLeftOf, getNode_updNode, if_neg hxc]

theorem chainAttach_append :
    ∀ (l1 l2 : List String) (s : HBState) (cur : String),
      chainAttach s cur (l1 ++ l2) =
        chainAttach (chainAttach s cur l1).1 (chainAttach s cur l1).2 l2 := by
  intro l1
  induction l1 with
  | nil => intro l2 s cur; rfl
  | cons n rest ih =>
    intro l2 s cur
    rw [List.cons_append, HBStarTree.chainAttach, ih]
    rfl

theorem chainAttach_chainOf :
    ∀ (l : List String) (s : HBState) (cur : String) (fuel : Nat),
      l.length + 2 ≤ fuel →
      (cur :: l).Nodup →
      (∀ n, n ∈ cur :: l → (getNode s n).isSome = true) →
      (∀ n, n ∈ cur :: l → ∀ nd, getNode s n = some nd → nd.left = none) →
      chainOf (chainAttach s cur l).1 fuel (some cur) = cur :: l := by
  intro l
  induction l with
  | nil =>
    intro s cur fuel hfuel _ hex hleft
    obtain ⟨f1, rfl⟩ : ∃ f1, fuel = f1 + 1 := ⟨fuel - 1, by omega⟩
    obtain ⟨f2, rfl⟩ : ∃ f2, f1 = f2 + 1 := ⟨f1 - 1, by omega⟩
    cases hg : getNode s cur with
    | none =>
      have := hex cur (List.mem_cons_self cur []) ; rw [hg] at this; simp at this
    | some nd =>
      have hl : nd.left = none := hleft cur (List.mem_cons_self cur []) nd hg
      show chainOf s (f2 + 1 + 1) (some cur) = [cur]
      rw [chainOf]
      simp only [hg]
      rw [hl, chainOf]
  | cons n rest ih =>
    intro s cur fuel hfuel hnodup hex hleft
    obtain ⟨f1, rfl⟩ : ∃ f1, fuel = f1 + 1 := ⟨fuel - 1, by omega⟩
    have hcurn : cur ≠ n := by
      intro h; subst h
      exact (List.nodup_cons.mp hnodup).1 (List.mem_cons_self cur rest)
    have hcurrest : cur ∉ rest := fun h =>
      (List.nodup_cons.mp hnodup).1 (List.mem_cons_of_mem n h)
    have hnods : (n :: rest).Nodup := (List.nodup_cons.mp hnodup).2
    rw [HBStarTree.chainAttach]
    have hexc := hex cur (List.mem_cons_self cur (n :: rest))
    cases hg : getNode s cur with
    | none => rw [hg] at hexc; simp at hexc
    | some nd =>
      have hget1 : getNode (setLeftOf s cur (some n)) cur = some { nd with left := some n } := by
        rw [HBStarTree.setLeftOf, getNode_updNode, if_pos rfl, hg]; rfl
      have hget2 : getNode (setParentOf (setLeftOf s cur (some n)) n (some cur)) cur =
          some { nd with left := some n } := by
        rw [HBStarTree.setParentOf, getNode_updNode, if_neg hcurn, hget1]
      have hframe := chainAttach_getNode_notmem rest
        (setParentOf (setLeftOf s cur (some n)) n (some cur)) n cur hcurn hcurrest
      have hex' : ∀ m, m ∈ n :: rest →
          (getNode (setParentOf (setLeftOf s cur (some n)) n (some cur)) m).isSome = true := by
        intro m hm
        have hbase := hex m (List.mem_cons_of_mem cur hm)
        have hmcur : m ≠ cur := by
          intro h
          rcases List.mem_cons.mp hm with h' | h'
          · exact hcurn (h ▸ h')
          · exact hcurrest (h ▸ h')
        rw [HBStarTree.setParentOf, getNode_updNode]
        by_cases h1 : m = n
        · rw [if_pos h1, HBStarTree.setLeftOf, getNode_updNode,
            if_neg (Ne.symm hcurn), ← h1]
          cases hgm : getNode s m with
          | none => rw [hgm] at hbase; simp at hbase
          | some ndm => rfl
        · rw [if_neg h1, HBStarTree.setLeftOf, getNode_updNode, if_neg hmcur]
          exact hbase
      have hleft' : ∀ m, m ∈ n :: rest → ∀ nd2,
          getNode (setParentOf (setLeftOf s cur (some n)) n (some cur)) m = some nd2 →
          nd2.left = none := by
        intro m hm nd2 hget
        have hmcur : m ≠ cur := by
          intro h
          rcases List.mem_cons.mp hm with h' | h'
          · exact hcurn (h ▸ h')
          · exact hcurrest (h ▸ h')
        rw [HBStarTree.setParentOf, getNode_updNode] at hget
        by_cases h1 : m = n
        · rw [if_pos h1, HBStarTree.setLeftOf, getNode_updNode,
            if_neg (Ne.symm hcurn), ← h1] at hget
          cases hgm : getNode s m with
          | none => rw [hgm] at hget; simp at hget
          | some ndm =>
            rw [hgm] at hget
            simp at hget
            have hl0 := hleft m (List.mem_cons_of_mem cur hm) ndm hgm
            rw [← hget]
            exact hl0
        · rw [if_neg h1, HBStarTree.setLeftOf, getNode_updNode, if_neg hmcur] at hget
          exact hleft m (List.mem_cons_of_mem cur hm) nd2 hget
      have hchain := ih (setParentOf (setLeftOf s cur (some n)) n (some cur)) n f1
        (by simp only [List.length_cons] at hfuel; omega) hnods hex' hleft'
      rw [chainOf]
      rw [hframe, hget2]
      show cur :: chainOf _ f1 (some n) = cur :: n :: rest
      rw [hchain]

/-- The foldl body of constructSymmetryIslands, named so the fold can be
reasoned about; constructSymmetryIslands_eq shows the two agree
definitionally. -/
def islandStep (ops : AsfOps) (st : HBState) (g : SymmetryGroup) : HBState :=
  let a := ops.constructInitialTree (mkASF st g)
  let hnode : HBNode :=
    { ntype := HBNodeType.HIERARCHY, name := g.name, left := none, right := none,
      parent := none, asf := some a, cx1 := 0, cy1 := 0, cx2 := 0, cy2 := 0 }
  { st with nodes := SMap.insert st.nodes g.name hnode,
            symmetryGroupNodes := SMap.insert st.symmetryGroupNodes g.name () }

theorem constructSymmetryIslands_eq (ops : AsfOps) (s : HBState) :
    constructSymmetryIslands ops s = s.symmetryGroups.foldl (islandStep ops) s := rfl

theorem islandStep_getNode (ops : AsfOps) (st : HBState) (g : SymmetryGroup) (k : String) :
    getNode (islandStep ops st g) k =
      if k = g.name then
        some { ntype := HBNodeType.HIERARCHY, name := g.name, left := none, right := none,
               parent := none, asf := some (ops.constructInitialTree (mkASF st g)),
               cx1 := 0, cy1 := 0, cx2 := 0, cy2 := 0 }
      else getNode st k := by
  show SMap.find? (SMap.insert st.nodes g.name _) k = _
  rw [smap_find_insert]
  rfl

theorem islandFold_fields (ops : AsfOps) :
    ∀ (gs : List SymmetryGroup) (st : HBState),
      (List.foldl (islandStep ops) st gs).moduleNodes = st.moduleNodes ∧
      (List.foldl (islandStep ops) st gs).root = st.root := by
  intro gs
  induction gs with
  | nil => intro st; exact ⟨rfl, rfl⟩
  | cons g rest ih =>
    intro st
    rw [List.foldl_cons]
    exact ih (islandStep ops st g)

theorem islandFold_inv (ops : AsfOps) :
    ∀ (gs : List SymmetryGroup) (st : HBState),
      (∀ k, k ∈ SMap.keyList st.symmetryGroupNodes →
        ∃ nd, getNode st k = some nd ∧ nd.left = none) →
      ∀ k, k ∈ SMap.keyList (List.foldl (islandStep ops) st gs).symmetryGroupNodes →
        ∃ nd, getNode (List.foldl (islandStep ops) st gs) k = some nd ∧ nd.left = none := by
  intro gs
  induction gs with
  | nil => intro st h; exact h
  | cons g rest ih =>
    intro st h
    rw [List.foldl_cons]
    apply ih
    intro k hk
    rw [show (islandStep ops st g).symmetryGroupNodes =
        SMap.insert st.symmetryGroupNodes g.name () from rfl, mem_keyList_insert] at hk
    by_cases hkg : k = g.name
    · exact ⟨_, by rw [islandStep_getNode, if_pos hkg], rfl⟩
    · rcases hk with hk | hk
      · exact absurd hk hkg
      · obtain ⟨nd, hnd, hl⟩ := h k hk
        exact ⟨nd, by rw [islandStep_getNode, if_neg hkg]; exact hnd, hl⟩

/-- The foldl body of the module-node creation loop of
constructInitialTreeStructure. -/
def moduleNodeStep (st : HBState) (n : String) : HBState :=
  { st with nodes := SMap.insert st.nodes n (HBNode.mkNode HBNodeType.MODULE n),
            moduleNodes := SMap.insert st.moduleNodes n () }

theorem moduleNodeStep_getNode (st : HBState) (n k : String) :
    getNode (moduleNodeStep st n) k =
      if k = n then some (HBNode.mkNode HBNodeType.MODULE n) else getNode st k := by
  show SMap.find? (SMap.insert st.nodes n _) k = _
  rw [smap_find_insert]
  rfl

theorem moduleFold_fields :
    ∀ (ns : List String) (st : HBState),
      (List.foldl moduleNodeStep st ns).symmetryGroupNodes = st.symmetryGroupNodes ∧
      (List.foldl moduleNodeStep st ns).root = st.root ∧
      (∀ k, k ∈ SMap.keyList (List.foldl moduleNodeStep st ns).moduleNodes ↔
        k ∈ SMap.keyList st.moduleNodes ∨ k ∈ ns) := by
  intro ns
  induction ns with
  | nil => intro st; exact ⟨rfl, rfl, fun k => by simp⟩
  | cons n rest ih =>
    intro st
    rw [List.foldl_cons]
    obtain ⟨h1, h2, h3⟩ := ih (moduleNodeStep st n)
    refine ⟨h1, h2, fun k => ?_⟩
    rw [h3 k,
      show (moduleNodeStep st n).moduleNodes = SMap.insert st.moduleNodes n () from rfl,
      mem_keyList_insert]
    constructor
    · rintro ((h | h) | h)
      · exact Or.inr (by rw [h]; exact List.mem_cons_self n rest)
      · exact Or.inl h
      · exact Or.inr (List.mem_cons_of_mem n h)
    · rintro (h | h)
      · exact Or.inl (Or.inr h)
      · rcases List.mem_cons.mp h with h | h
        · exact Or.inl (Or.inl h)
        · exact Or.inr h

theorem moduleFold_inv :
    ∀ (ns : List String) (st : HBState),
      (∀ n, n ∈ ns → n ∉ SMap.keyList st.symmetryGroupNodes) →
      (∀ k, k ∈ SMap.keyList st.symmetryGroupNodes →
        ∃ nd, getNode st k = some nd ∧ nd.left = none) →
      (∀ k, k ∈ SMap.keyList st.moduleNodes →
        ∃ nd, getNode st k = some nd ∧ nd.left = none) →
      (∀ k, k ∈ SMap.keyList (List.foldl moduleNodeStep st ns).symmetryGroupNodes →
        ∃ nd, getNode (List.foldl moduleNodeStep st ns) k = some nd ∧ nd.left = none) ∧
      (∀ k, k ∈ SMap.keyList (List.foldl moduleNodeStep st ns).moduleNodes →
        ∃ nd, getNode (List.foldl moduleNodeStep st ns) k = some nd ∧ nd.left = none) := by
  intro ns
  induction ns with
  | nil => intro st _ hG hM; exact ⟨hG, hM⟩
  | cons n rest ih =>
    intro st hdisj hG hM
    rw [List.foldl_cons]
    apply ih
    · intro m hm
      rw [show (moduleNodeStep st n).symmetryGroupNodes = st.symmetryGroupNodes from rfl]
      exact hdisj m (List.mem_cons_of_mem n hm)
    · intro k hk
      rw [show (moduleNodeStep st n).symmetryGroupNodes = st.symmetryGroupNodes from rfl] at hk
      have hkn : k ≠ n := fun h => hdisj n (List.mem_cons_self n rest) (h ▸ hk)
      obtain ⟨nd, hnd, hl⟩ := hG k hk
      exact ⟨nd, by rw [moduleNodeStep_getNode, if_neg hkn]; exact hnd, hl⟩
    · intro k hk
      rw [show (moduleNodeStep st n).moduleNodes = SMap.insert st.moduleNodes n () from rfl,
        mem_keyList_insert] at hk
      by_cases hkn : k = n
      · exact ⟨_, by rw [moduleNodeStep_getNode, if_pos hkn], rfl⟩
      · rcases hk with hk | hk
        · exact absurd hk hkn
        · obtain ⟨nd, hnd, hl⟩ := hM k hk
          exact ⟨nd, by rw [moduleNodeStep_getNode, if_neg hkn]; exact hnd, hl⟩

/-- The chain-building tail of constructInitialTreeStructure, applied to
the state after the module-node creation fold;
constructInitialTreeStructure_eq shows the decomposition is
definitional. -/
def structChainResult (s : HBState) : HBState :=
  if s.symmetryGroupNodes.isEmpty && s.moduleNodes.isEmpty then s
  else if !s.symmetryGroupNodes.isEmpty then
    match s.symmetryGroupNodes.map Prod.fst with
    | [] => s
    | r :: restG =>
      let s2 := { s with root := some r }
      let pr := chainAttach s2 r restG
      (chainAttach pr.1 pr.2 (s.moduleNodes.map Prod.fst)).1
  else
    match s.moduleNodes.map Prod.fst with
    | [] => s
    | r :: restM =>
      let s2 := { s with root := some r }
      (chainAttach s2 r restM).1

theorem constructInitialTreeStructure_eq (s : HBState) :
    constructInitialTreeStructure s =
      structChainResult (List.foldl moduleNodeStep s (sortByAreaDesc s
        ((s.modules.map Prod.fst).filter
          (fun n => !(symmetryModuleNames s.symmetryGroups).contains n)))) := rfl

theorem structChainResult_sgn (s : HBState) :
    (structChainResult s).symmetryGroupNodes = s.symmetryGroupNodes := by
  rw [structChainResult]
  split
  · rfl
  · split
    · split
      · rfl
      · rename_i r restG heq
        exact ((chainAttach_fields _ _ _).2.1).trans
          ((chainAttach_fields restG { s with root := some r } r).2.1)
    · split
      · rfl
      · rename_i r restM heq
        exact (chainAttach_fields restM { s with root := some r } r).2.1

theorem structChainResult_mod (s : HBState) :
    (structChainResult s).moduleNodes = s.moduleNodes := by
  rw [structChainResult]
  split
  · rfl
  · split
    · split
      · rfl
      · rename_i r restG heq
        exact ((chainAttach_fields _ _ _).2.2).trans
          ((chainAttach_fields restG { s with root := some r } r).2.2)
    · split
      · rfl
      · rename_i r restM heq
        exact (chainAttach_fields restM { s with root := some r } r).2.2

theorem registerNodeInMap_nodeMapOnly :
    ∀ (fuel : Nat) (s : HBState) (n : String),
      ∃ nm, registerNodeInMap s fuel n = { s with nodeMap := nm } := by
  intro fuel
  induction fuel with
  | zero => intro s n; exact ⟨s.nodeMap, rfl⟩
  | succ fuel ih =>
    intro s n
    cases hg : getNode s n with
    | none =>
      refine ⟨s.nodeMap, ?_⟩
      rw [HBStarTree.registerNodeInMap, hg]
    | some nd =>
      cases hl : nd.left with
      | none =>
        cases hr : nd.right with
        | none =>
          refine ⟨SMap.insert s.nodeMap n (), ?_⟩
          rw [HBStarTree.registerNodeInMap, hg]
          simp only [hl, hr]
        | some r =>
          obtain ⟨nm1, e1⟩ := ih { s with nodeMap := SMap.insert s.nodeMap n () } r
          refine ⟨nm1, ?_⟩
          rw [HBStarTree.registerNodeInMap, hg]
          simp only [hl, hr]
          exact e1
      | some l =>
        cases hr : nd.right with
        | none =>
          obtain ⟨nm1, e1⟩ := ih { s with nodeMap := SMap.insert s.nodeMap n () } l
          refine ⟨nm1, ?_⟩
          rw [HBStarTree.registerNodeInMap, hg]
          simp only [hl, hr]
          exact e1
        | some r =>
          obtain ⟨nm1, e1⟩ := ih { s with nodeMap := SMap.insert s.nodeMap n () } l
          obtain ⟨nm2, e2⟩ := ih
            (registerNodeInMap { s with nodeMap := SMap.insert s.nodeMap n () } fuel l) r
          refine ⟨nm2, ?_⟩
          rw [HBStarTree.registerNodeInMap, hg]
          simp only [hl, hr]
          rw [e2, e1]

theorem chainOf_congr_nodes (s t : HBState) (h : s.nodes = t.nodes) :
    ∀ (fuel : Nat) (o : Option String), chainOf s fuel o = chainOf t fuel o := by
  intro fuel
  induction fuel with
  | zero => intro o; rfl
  | succ fuel ih =>
    intro o
    cases o with
    | none => rfl
    | some n =>
      rw [chainOf, chainOf]
      have hg : getNode s n = getNode t n := by
        show SMap.find? s.nodes n = SMap.find? t.nodes n
        rw [h]
      rw [hg]
      cases getNode t n with
      | none => rfl
      | some nd =>
        show n :: chainOf s fuel nd.left = n :: chainOf t fuel nd.left
        rw [ih]

theorem structChainResult_chain (s : HBState) (fuel : Nat)
    (hG : ∀ k, k ∈ SMap.keyList s.symmetryGroupNodes →
      ∃ nd, getNode s k = some nd ∧ nd.left = none)
    (hM : ∀ k, k ∈ SMap.keyList s.moduleNodes →
      ∃ nd, getNode s k = some nd ∧ nd.left = none)
    (hnodup : (SMap.keyList s.symmetryGroupNodes ++ SMap.keyList s.moduleNodes).Nodup)
    (hfuel : (SMap.keyList s.symmetryGroupNodes ++ SMap.keyList s.moduleNodes).length + 1 ≤ fuel)
    (hroot0 : s.root = none) :
    (structChainResult s).root =
      (SMap.keyList s.symmetryGroupNodes ++ SMap.keyList s.moduleNodes).head? ∧
    chainOf (structChainResult s) fuel (structChainResult s).root =
      SMap.keyList s.symmetryGroupNodes ++ SMap.keyList s.moduleNodes := by
  rcases hsg : s.symmetryGroupNodes with _ | ⟨⟨g, gu⟩, restG⟩
  · rcases hmn : s.moduleNodes with _ | ⟨⟨m, mu⟩, restM⟩
    · have h1 : structChainResult s = s := by
        rw [structChainResult, hsg, hmn]
        rfl
      refine ⟨?_, ?_⟩
      · rw [h1, hroot0]
        rfl
      · rw [h1, hroot0]
        obtain ⟨f1, rfl⟩ : ∃ f1, fuel = f1 + 1 := ⟨fuel - 1, by omega⟩
        rfl
    · have h1 : structChainResult s =
          (chainAttach { s with root := some m } m (List.map Prod.fst restM)).1 := by
        rw [structChainResult, hsg, hmn]
        rfl
      rw [hsg, hmn] at hnodup hfuel
      have hnod2 : (m :: List.map Prod.fst restM).Nodup := by
        simpa [SMap.keyList] using hnodup
      have hfuel2 : (List.map Prod.fst restM).length + 2 ≤ fuel := by
        simp only [SMap.keyList, List.map, List.nil_append, List.length_cons] at hfuel
        omega
      have hex : ∀ k, k ∈ m :: List.map Prod.fst restM →
          (getNode { s with root := some m } k).isSome = true := by
        intro k hk
        obtain ⟨nd, hnd, _⟩ := hM k (by rw [hmn]; exact hk)
        show (getNode s k).isSome = true
        rw [hnd]
        rfl
      have hlft : ∀ k, k ∈ m :: List.map Prod.fst restM → ∀ nd2,
          getNode { s with root := some m } k = some nd2 → nd2.left = none := by
        intro k hk nd2 hnd2
        obtain ⟨nd, hnd, hl⟩ := hM k (by rw [hmn]; exact hk)
        have h3 : (some nd : Option HBNode) = some nd2 := hnd.symm.trans hnd2
        cases h3
        exact hl
      have hchain := chainAttach_chainOf (List.map Prod.fst restM)
        { s with root := some m } m fuel hfuel2 hnod2 hex hlft
      have hroot : (chainAttach { s with root := some m } m (List.map Prod.fst restM)).1.root =
          some m :=
        (chainAttach_fields (List.map Prod.fst restM) { s with root := some m } m).1
      refine ⟨?_, ?_⟩
      · rw [h1, hroot]
        rfl
      · rw [h1, hroot]
        exact hchain
  · have h1 : structChainResult s =
        (chainAttach
          (chainAttach { s with root := some g } g (List.map Prod.fst restG)).1
          (chainAttach { s with root := some g } g (List.map Prod.fst restG)).2
          (s.moduleNodes.map Prod.fst)).1 := by
      rw [structChainResult, hsg]
      rfl
    have h1' : structChainResult s =
        (chainAttach { s with root := some g } g
          (List.map Prod.fst restG ++ s.moduleNodes.map Prod.fst)).1 := by
      rw [h1, chainAttach_append]
    rw [hsg] at hnodup hfuel
    have hnod2 : (g :: (List.map Prod.fst restG ++ s.moduleNodes.map Prod.fst)).Nodup := by
      simpa [SMap.keyList] using hnodup
    have hfuel2 : (List.map Prod.fst restG ++ s.moduleNodes.map Prod.fst).length + 2 ≤ fuel := by
      simp only [SMap.keyList, List.map, List.cons_append, List.length_cons,
        List.length_append, List.length_map] at hfuel ⊢
      omega
    have hmem : ∀ k, k ∈ g :: (List.map Prod.fst restG ++ s.moduleNodes.map Prod.fst) →
        k ∈ SMap.keyList s.symmetryGroupNodes ∨ k ∈ SMap.keyList s.moduleNodes := by
      intro k hk
      rw [hsg]
      rcases List.mem_cons.mp hk with h | h
      · exact Or.inl (by rw [h]; exact List.mem_cons_self g (List.map Prod.fst restG))
      · rcases List.mem_append.mp h with h | h
        · exact Or.inl (List.mem_cons_of_mem g h)
        · exact Or.inr h
    have hex : ∀ k, k ∈ g :: (List.map Prod.fst restG ++ s.moduleNodes.map Prod.fst) →
        (getNode { s with root := some g } k).isSome = true := by
      intro k hk
      rcases hmem k hk with h | h
      · obtain ⟨nd, hnd, _⟩ := hG k h
        show (getNode s k).isSome = true
        rw [hnd]
        rfl
      · obtain ⟨nd, hnd, _⟩ := hM k h
        show (getNode s k).isSome = true
        rw [hnd]
        rfl
    have hlft : ∀ k, k ∈ g :: (List.map Prod.fst restG ++ s.moduleNodes.map Prod.fst) → ∀ nd2,
        getNode { s with root := some g } k = some nd2 → nd2.left = none := by
      intro k hk nd2 hnd2
      rcases hmem k hk with h | h
      · obtain ⟨nd, hnd, hl⟩ := hG k h
        have h3 : (some nd : Option HBNode) = some nd2 := hnd.symm.trans hnd2
        cases h3
        exact hl
      · obtain ⟨nd, hnd, hl⟩ := hM k h
        have h3 : (some nd : Option HBNode) = some nd2 := hnd.symm.trans hnd2
        cases h3
        exact hl
    have hchain := chainAttach_chainOf
      (List.map Prod.fst restG ++ s.moduleNodes.map Prod.fst)
      { s with root := some g } g fuel hfuel2 hnod2 hex hlft
    have hroot : (chainAttach { s with root := some g } g
        (List.map Prod.fst restG ++ s.moduleNodes.map Prod.fst)).1.root = some g :=
      (chainAttach_fields (List.map Prod.fst restG ++ s.moduleNodes.map Prod.fst)
        { s with root := some g } g).1
    refine ⟨?_, ?_⟩
    · rw [h1', hroot]
      rfl
    · rw [h1', hroot]
      exact hchain

/-- The final registerNodeInMap step of constructInitialTree, applied to
the chain-building result. -/
def postRegister (s2 : HBState) : HBState :=
  match (structChainResult s2).root with
  | some r => registerNodeInMap (structChainResult s2) ((structChainResult s2).nodes.length + 1) r
  | none => structChainResult s2

theorem postRegister_fields (s2 : HBState) :
    (postRegister s2).symmetryGroupNodes = s2.symmetryGroupNodes ∧
    (postRegister s2).moduleNodes = s2.moduleNodes := by
  cases hrt : (structChainResult s2).root with
  | none =>
    have hpr : postRegister s2 = structChainResult s2 := by rw [postRegister, hrt]
    rw [hpr]
    exact ⟨structChainResult_sgn s2, structChainResult_mod s2⟩
  | some r =>
    have hpr : postRegister s2 = registerNodeInMap (structChainResult s2)
        ((structChainResult s2).nodes.length + 1) r := by rw [postRegister, hrt]
    obtain ⟨nm, he⟩ := registerNodeInMap_nodeMapOnly ((structChainResult s2).nodes.length + 1)
      (structChainResult s2) r
    rw [hpr, he]
    exact ⟨structChainResult_sgn s2, structChainResult_mod s2⟩

theorem postRegister_chain (s2 : HBState) (fuel : Nat)
    (hG : ∀ k, k ∈ SMap.keyList s2.symmetryGroupNodes →
      ∃ nd, getNode s2 k = some nd ∧ nd.left = none)
    (hM : ∀ k, k ∈ SMap.keyList s2.moduleNodes →
      ∃ nd, getNode s2 k = some nd ∧ nd.left = none)
    (hroot0 : s2.root = none)
    (hnodup : (SMap.keyList s2.symmetryGroupNodes ++ SMap.keyList s2.moduleNodes).Nodup)
    (hfuel : (SMap.keyList s2.symmetryGroupNodes ++
      SMap.keyList s2.moduleNodes).length + 1 ≤ fuel) :
    (postRegister s2).root =
      (SMap.keyList s2.symmetryGroupNodes ++ SMap.keyList s2.moduleNodes).head? ∧
    chainOf (postRegister s2) fuel ((postRegister s2).root) =
      SMap.keyList s2.symmetryGroupNodes ++ SMap.keyList s2.moduleNodes := by
  obtain ⟨hr, hc⟩ := structChainResult_chain s2 fuel hG hM hnodup hfuel hroot0
  cases hrt : (structChainResult s2).root with
  | none =>
    have hpr : postRegister s2 = structChainResult s2 := by rw [postRegister, hrt]
    constructor
    · rw [hpr]; exact hr
    · rw [hpr]; exact hc
  | some r =>
    have hpr : postRegister s2 = registerNodeInMap (structChainResult s2)
        ((structChainResult s2).nodes.length + 1) r := by rw [postRegister, hrt]
    obtain ⟨nm, he⟩ := registerNodeInMap_nodeMapOnly ((structChainResult s2).nodes.length + 1)
      (structChainResult s2) r
    constructor
    · rw [hpr, he]
      exact hr
    · rw [hpr, he]
      have hcn := chainOf_congr_nodes
        { structChainResult s2 with nodeMap := nm } (structChainResult s2) rfl fuel
        ({ structChainResult s2 with nodeMap := nm }.root)
      rw [hcn]
      show chainOf (structChainResult s2) fuel ((structChainResult s2).root) = _
      exact hc

/-- C2 (amended): constructInitialTree builds a left-skewed chain, but the
order is the name-keyed map iteration order on BOTH segments: the
Hierarchy nodes come first in symmetry-group NAME order (not insertion
order), followed by the non-symmetric Module nodes in NAME order (not
descending-area order — the area sort only fixes node-creation order,
the chain itself is rebuilt from the name-sorted moduleNodes map).  The
root is the first element of that concatenation (and none when there are
no nodes at all). -/
theorem constructInitialTree_chain_order (ops : AsfOps) (s : HBState) (fuel : Nat)
    (hnodup : (SMap.keyList (constructInitialTree ops s).symmetryGroupNodes ++
      SMap.keyList (constructInitialTree ops s).moduleNodes).Nodup)
    (hfuel : (SMap.keyList (constructInitialTree ops s).symmetryGroupNodes ++
      SMap.keyList (constructInitialTree ops s).moduleNodes).length + 1 ≤ fuel) :
    (constructInitialTree ops s).root =
      (SMap.keyList (constructInitialTree ops s).symmetryGroupNodes ++
        SMap.keyList (constructInitialTree ops s).moduleNodes).head? ∧
    chainOf (constructInitialTree ops s) fuel ((constructInitialTree ops s).root) =
      SMap.keyList (constructInitialTree ops s).symmetryGroupNodes ++
        SMap.keyList (constructInitialTree ops s).moduleNodes := by
  obtain ⟨s1, hs1⟩ : ∃ s1, List.foldl (islandStep ops) (clearTree s)
      (clearTree s).symmetryGroups = s1 := ⟨_, rfl⟩
  obtain ⟨ns, hns⟩ : ∃ ns, sortByAreaDesc s1 ((s1.modules.map Prod.fst).filter
      (fun n => !(symmetryModuleNames s1.symmetryGroups).contains n)) = ns := ⟨_, rfl⟩
  obtain ⟨s2, hs2⟩ : ∃ s2, List.foldl moduleNodeStep s1 ns = s2 := ⟨_, rfl⟩
  have hdec : constructInitialTree ops s = postRegister s2 := by
    rw [← hs2, ← hns, ← hs1]
    rfl
  have hGinv1 : ∀ k, k ∈ SMap.keyList s1.symmetryGroupNodes →
      ∃ nd, getNode s1 k = some nd ∧ nd.left = none := by
    rw [← hs1]
    exact islandFold_inv ops (clearTree s).symmetryGroups (clearTree s)
      (fun k hk => ((List.not_mem_nil k) hk).elim)
  have hmod1 : s1.moduleNodes = [] := by
    rw [← hs1]
    exact (islandFold_fields ops (clearTree s).symmetryGroups (clearTree s)).1
  have hroot1 : s1.root = none := by
    rw [← hs1]
    exact (islandFold_fields ops (clearTree s).symmetryGroups (clearTree s)).2
  have hsgn2 : s2.symmetryGroupNodes = s1.symmetryGroupNodes := by
    rw [← hs2]
    exact (moduleFold_fields ns s1).1
  have hroot2 : s2.root = none := by
    rw [← hs2]
    exact ((moduleFold_fields ns s1).2.1).trans hroot1
  have hkeys2 : ∀ k, k ∈ SMap.keyList s2.moduleNodes ↔ k ∈ ns := by
    intro k
    rw [← hs2, (moduleFold_fields ns s1).2.2 k, hmod1]
    simp [SMap.keyList]
  have hf := postRegister_fields s2
  rw [hdec, hf.1, hf.2] at hnodup hfuel ⊢
  have hdisj : ∀ n, n ∈ ns → n ∉ SMap.keyList s1.symmetryGroupNodes := by
    intro n hn hns1
    have h1 : n ∈ SMap.keyList s2.moduleNodes := (hkeys2 n).mpr hn
    have h2 : n ∈ SMap.keyList s2.symmetryGroupNodes := by rw [hsgn2]; exact hns1
    exact (List.nodup_append.mp hnodup).2.2 h2 h1
  have hG2 : ∀ k, k ∈ SMap.keyList s2.symmetryGroupNodes →
      ∃ nd, getNode s2 k = some nd ∧ nd.left = none := by
    rw [← hs2]
    exact (moduleFold_inv ns s1 hdisj hGinv1
      (fun k hk => by rw [hmod1] at hk; exact ((List.not_mem_nil k) hk).elim)).1
  have hM2 : ∀ k, k ∈ SMap.keyList s2.moduleNodes →
      ∃ nd, getNode s2 k = some nd ∧ nd.left = none := by
    rw [← hs2]
    exact (moduleFold_inv ns s1 hdisj hGinv1
      (fun k hk => by rw [hmod1] at hk; exact ((List.not_mem_nil k) hk).elim)).2
  exact postRegister_chain s2 fuel hG2 hM2 hroot2 hnodup hfuel

/-- The pre-construction state of the C2 scenario: the raw adds before
constructInitialTree runs. -/
def c2pre : HBState :=
  let s := emptyHBState
  let s := addModule s (mkMod "p" 4 4)
  let s := addModule s (mkMod "q" 4 4)
  let s := addModule s (mkMod "a" 1 1)
  let s := addModule s (mkMod "b" 10 10)
  let s := addSymmetryGroup s ⟨"g2", [], ["p"], true⟩
  addSymmetryGroup s ⟨"g1", [], ["q"], true⟩

theorem constructInitialTree_chain_order_witness :
    ((SMap.keyList (constructInitialTree simpleOps c2pre).symmetryGroupNodes ++
      SMap.keyList (constructInitialTree simpleOps c2pre).moduleNodes).Nodup ∧
     (SMap.keyList (constructInitialTree simpleOps c2pre).symmetryGroupNodes ++
      SMap.keyList (constructInitialTree simpleOps c2pre).moduleNodes).length + 1 ≤ 6) ∧
    ((constructInitialTree simpleOps c2pre).root =
      (SMap.keyList (constructInitialTree simpleOps c2pre).symmetryGroupNodes ++
        SMap.keyList (constructInitialTree simpleOps c2pre).moduleNodes).head? ∧
     chainOf (constructInitialTree simpleOps c2pre) 6
        ((constructInitialTree simpleOps c2pre).root) =
      SMap.keyList (constructInitialTree simpleOps c2pre).symmetryGroupNodes ++
        SMap.keyList (constructInitialTree simpleOps c2pre).moduleNodes) :=
  ⟨⟨by decide, by decide⟩,
    constructInitialTree_chain_order simpleOps c2pre 6 (by decide) (by decide)⟩

/- ### Congruence of packing on hierarchy-free trees (C4, C5) -/

/-- The placement-independent data of a module: everything except its
position. -/
def dimOf (m : HBModule) : String × Int × Int × Bool := (m.name, m.width, m.height, m.rotated)

/-- Two packing runs relate their module maps pointwise: each key is
either already equal across the runs or untouched by both. -/
def ModRel (sm s'm tm t'm : SMap HBModule) : Prop :=
  ∀ k, SMap.find? t'm k = SMap.find? tm k ∨
    (SMap.find? tm k = SMap.find? sm k ∧ SMap.find? t'm k = SMap.find? s'm k)

theorem modRel_refl (sm s'm : SMap HBModule) : ModRel sm s'm sm s'm :=
  fun _ => Or.inr ⟨rfl, rfl⟩

theorem modRel_trans {sm s'm tm t'm um u'm : SMap HBModule}
    (h1 : ModRel sm s'm tm t'm) (h2 : ModRel tm t'm um u'm) : ModRel sm s'm um u'm := by
  intro k
  rcases h2 k with h | ⟨ha, hb⟩
  · exact Or.inl h
  · rcases h1 k with h' | ⟨ha', hb'⟩
    · exact Or.inl ((hb.trans h').trans ha.symm)
    · exact Or.inr ⟨ha.trans ha', hb.trans hb'⟩

/-- Irreflexivity of the byte order. -/
theorem strLtB_irrefl : ∀ (l : List Char), strLtB l l = false := by
  intro l
  induction l with
  | nil => rfl
  | cons c cs ih => simp [strLtB, ih]

theorem strLtB_asymm : ∀ (a b : List Char), strLtB a b = true → strLtB b a = false := by
  intro a
  induction a with
  | nil => intro b h; cases b with
    | nil => simp [strLtB] at h
    | cons c cs => rfl
  | cons c cs ih =>
    intro b h
    cases b with
    | nil => simp [strLtB] at h
    | cons d ds =>
      rw [strLtB] at h ⊢
      by_cases h1 : c.toNat < d.toNat
      · have h2 : ¬ d.toNat < c.toNat := by omega
        simp [h1, h2]
      · rw [if_neg h1] at h
        by_cases h2 : d.toNat < c.toNat
        · rw [if_pos h2] at h; exact absurd h (by simp)
        · rw [if_neg h2] at h
          simp [h2, h1, ih ds h]

theorem strLtB_total : ∀ (a b : List Char), strLtB a b = false → strLtB b a = false → a = b := by
  intro a
  induction a with
  | nil => intro b h1 _; cases b with
    | nil => rfl
    | cons d ds => simp [strLtB] at h1
  | cons c cs ih =>
    intro b h1 h2
    cases b with
    | nil => simp [strLtB] at h2
    | cons d ds =>
      rw [strLtB] at h1 h2
      by_cases hcd : c.toNat < d.toNat
      · rw [if_pos hcd] at h1; exact absurd h1 (by simp)
      · by_cases hdc : d.toNat < c.toNat
        · rw [if_pos hdc] at h2; exact absurd h2 (by simp)
        · rw [if_neg hcd, if_neg (by omega : ¬ d.toNat < c.toNat)] at h1
          rw [if_neg hdc, if_neg (by omega : ¬ c.toNat < d.toNat)] at h2
          have hc : c = d := by
            have hnat0 : c.toNat = d.toNat := by omega
            have hnat : c.val.toNat = d.val.toNat := hnat0
            exact Char.ext (UInt32.ext hnat)
          exact hc ▸ congrArg (List.cons c) (ih ds h1 h2)

theorem strLtB_trans : ∀ (a b c : List Char),
    strLtB a b = true → strLtB b c = true → strLtB a c = true := by
  intro a
  induction a with
  | nil => intro b c h1 h2; cases c with
    | nil => cases b with
      | nil => simp [strLtB] at h1
      | cons d ds => simp [strLtB] at h2
    | cons e es => rfl
  | cons x xs ih =>
    intro b c h1 h2
    cases b with
    | nil => simp [strLtB] at h1
    | cons y ys =>
      cases c with
      | nil => simp [strLtB] at h2
      | cons z zs =>
        rw [strLtB] at h1 h2 ⊢
        by_cases hxy : x.toNat < y.toNat
        · by_cases hyz : y.toNat < z.toNat
          · simp [show x.toNat < z.toNat by omega]
          · rw [if_neg hyz] at h2
            by_cases hzy : z.toNat < y.toNat
            · rw [if_pos hzy] at h2; exact absurd h2 (by simp)
            · have : y.toNat = z.toNat := by omega
              simp [show x.toNat < z.toNat by omega]
        · rw [if_neg hxy] at h1
          by_cases hyx : y.toNat < x.toNat
          · rw [if_pos hyx] at h1; exact absurd h1 (by simp)
          · rw [if_neg hyx] at h1
            have hxyeq : x.toNat = y.toNat := by omega
            by_cases hyz : y.toNat < z.toNat
            · simp [show x.toNat < z.toNat by omega]
            · rw [if_neg hyz] at h2
              by_cases hzy : z.toNat < y.toNat
              · rw [if_pos hzy] at h2; exact absurd h2 (by simp)
              · rw [if_neg hzy] at h2
                rw [if_neg (by omega : ¬ x.toNat < z.toNat),
                  if_neg (by omega : ¬ z.toNat < x.toNat)]
                exact ih ys zs h1 h2

/-- The keys of an SMap are strictly increasing — the std::map invariant
that every map of this embedding keeps, since all maps are built by
SMap.insert from the empty map. -/
def SSortedKeys {α : Type} : SMap α → Prop
  | [] => True
  | [_] => True
  | a :: b :: rest => sLt a.1 b.1 = true ∧ SSortedKeys (b :: rest)

theorem smap_insert_sorted {α : Type} :
    ∀ (m : SMap α) (k : String) (v : α),
      SSortedKeys m → SSortedKeys (SMap.insert m k v) := by
  intro m
  induction m with
  | nil => intro k v _; trivial
  | cons hd tl ih =>
    intro k v hs
    obtain ⟨k0, v0⟩ := hd
    by_cases h1 : sLt k k0
    · simp only [SMap.insert, if_pos h1]
      exact ⟨h1, hs⟩
    · by_cases h2 : k = k0
      · simp only [SMap.insert, if_neg h1, if_pos h2]
        subst h2
        cases tl with
        | nil => trivial
        | cons b rest => exact ⟨hs.1, hs.2⟩
      · simp only [SMap.insert, if_neg h1, if_neg h2]
        have hk0k : sLt k0 k = true := by
          cases hq : sLt k0 k
          · exfalso
            have hkk0 : strLtB k.data k0.data = false := by
              cases hq2 : sLt k k0
              · exact hq2
              · exact absurd hq2 (by simp [h1])
            exact h2 (String.ext (strLtB_total k.data k0.data hkk0 hq))
          · rfl
        have hstl : SSortedKeys tl := by
          cases tl with
          | nil => trivial
          | cons b rest => exact hs.2
        have hrec := ih k v hstl
        cases tl with
        | nil =>
          exact ⟨hk0k, trivial⟩
        | cons b rest =>
          obtain ⟨k1, v1⟩ := b
          have hs01 : sLt k0 k1 = true := hs.1
          by_cases hb1 : sLt k k1
          · simp only [SMap.insert, if_pos hb1] at hrec ⊢
            exact ⟨hk0k, hrec⟩
          · by_cases hb2 : k = k1
            · simp only [SMap.insert, if_neg hb1, if_pos hb2] at hrec ⊢
              exact ⟨hk0k, hrec⟩
            · simp only [SMap.insert, if_neg hb1, if_neg hb2] at hrec ⊢
              exact ⟨hs01, hrec⟩

theorem ssorted_tail {α : Type} (a : String × α) (tl : SMap α)
    (h : SSortedKeys (a :: tl)) : SSortedKeys tl := by
  cases tl with
  | nil => trivial
  | cons b rest => exact h.2

theorem ssorted_head_lt {α : Type} :
    ∀ (tl : SMap α) (a : String × α), SSortedKeys (a :: tl) →
      ∀ pr, pr ∈ tl → sLt a.1 pr.1 = true := by
  intro tl
  induction tl with
  | nil => intro a _ pr hpr; simp at hpr
  | cons b rest ih =>
    intro a hs pr hpr
    rcases List.mem_cons.mp hpr with h | h
    · rw [h]
      exact hs.1
    · have hlt1 : sLt a.1 b.1 = true := hs.1
      have hlt2 : sLt b.1 pr.1 = true := ih b hs.2 pr h
      exact strLtB_trans a.1.data b.1.data pr.1.data hlt1 hlt2

theorem smap_find_head_none {α : Type} :
    ∀ (tl : SMap α) (k : String), (∀ pr, pr ∈ tl → sLt k pr.1 = true) →
      SMap.find? tl k = none := by
  intro tl
  induction tl with
  | nil => intro k _; rfl
  | cons b rest ih =>
    intro k hall
    rw [SMap.find?]
    have hlt := hall b (List.mem_cons_self b rest)
    have hne : k ≠ b.1 := by
      intro h
      rw [h] at hlt
      rw [show sLt b.1 b.1 = strLtB b.1.data b.1.data from rfl, strLtB_irrefl] at hlt
      exact absurd hlt (by simp)
    rw [if_neg hne]
    exact ih k (fun pr hpr => hall pr (List.mem_cons_of_mem b hpr))

theorem smap_find_mem {α : Type} :
    ∀ (m : SMap α) (k : String) (v : α), SMap.find? m k = some v → (k, v) ∈ m := by
  intro m
  induction m with
  | nil => intro k v h; simp [SMap.find?] at h
  | cons hd tl ih =>
    intro k v h
    obtain ⟨k', v'⟩ := hd
    rw [SMap.find?] at h
    by_cases hk : k = k'
    · rw [if_pos hk] at h
      subst hk
      cases h
      exact List.mem_cons_self _ _
    · rw [if_neg hk] at h
      exact List.mem_cons_of_mem _ (ih k v h)

theorem smap_ext_sorted {α : Type} :
    ∀ (m m' : SMap α), SSortedKeys m → SSortedKeys m' →
      (∀ k, SMap.find? m k = SMap.find? m' k) → m = m' := by
  intro m
  induction m with
  | nil =>
    intro m' _ hs' hf
    cases m' with
    | nil => rfl
    | cons b tl' =>
      obtain ⟨bk, bv⟩ := b
      have := hf bk
      simp [SMap.find?] at this
  | cons a tl ih =>
    intro m' hs hs' hf
    cases m' with
    | nil =>
      obtain ⟨ak, av⟩ := a
      have := hf ak
      simp [SMap.find?] at this
    | cons b tl' =>
      obtain ⟨k0, v0⟩ := a
      obtain ⟨k0', v0'⟩ := b
      have hkk : k0 = k0' := by
        by_cases h : k0 = k0'
        · exact h
        · exfalso
          have h1 := hf k0
          simp only [SMap.find?] at h1
          simp only [if_pos trivial, if_neg h] at h1
          have h2 := hf k0'
          simp only [SMap.find?] at h2
          simp only [if_pos trivial, if_neg (Ne.symm h)] at h2
          have hm1 := smap_find_mem tl' k0 v0 h1.symm
          have hm2 := smap_find_mem tl k0' v0' h2
          have hlt1 : strLtB k0'.data k0.data = true :=
            ssorted_head_lt tl' (k0', v0') hs' (k0, v0) hm1
          have hlt2 : strLtB k0.data k0'.data = true :=
            ssorted_head_lt tl (k0, v0) hs (k0', v0') hm2
          have hasym := strLtB_asymm k0.data k0'.data hlt2
          rw [hasym] at hlt1
          simp at hlt1
      subst hkk
      have hvv : v0 = v0' := by
        have := hf k0
        simp only [SMap.find?] at this
        simp only [if_pos trivial] at this
        exact Option.some.inj this
      subst hvv
      refine congrArg _ (ih tl' (ssorted_tail _ _ hs) (ssorted_tail _ _ hs') ?_)
      intro k
      by_cases hk : k = k0
      · subst hk
        rw [smap_find_head_none tl k (fun pr hpr => ssorted_head_lt tl (k, v0) hs pr hpr),
          smap_find_head_none tl' k (fun pr hpr => ssorted_head_lt tl' (k, v0) hs' pr hpr)]
      · have := hf k
        simp only [SMap.find?] at this
        simp only [if_neg hk] at this
        exact this

/-- The state written by the MODULE branch of packSubtree before it
recurses: the placed module and the two contour updates. -/
def mkT1 (s : HBState) (n : String) (m : HBModule) (x y : Int) : HBState :=
  { s with
    modules := SMap.insert s.modules n (HBModule.setPosition m x y),
    horizontalContour := Contour.addSegment s.horizontalContour x (x + m.width) (y + m.height),
    verticalContour := Contour.addSegment s.verticalContour y (y + m.height) (x + m.width) }

theorem packSubtree_none_eq (ops : AsfOps) (fuel : Nat) (s : HBState) (n : String)
    (hg : getNode s n = none) :
    packSubtree ops (Nat.succ fuel) s n = s := by
  rw [HBStarTree.packSubtree, hg]

theorem packSubtree_nomod_eq (ops : AsfOps) (fuel : Nat) (s : HBState) (n : String)
    (nd : HBNode) (hg : getNode s n = some nd) (hty : nd.ntype = HBNodeType.MODULE)
    (hm : SMap.find? s.modules n = none) :
    packSubtree ops (Nat.succ fuel) s n = s := by
  rw [HBStarTree.packSubtree]
  simp only [hg, hty, hm]

theorem packSubtree_module_eq (ops : AsfOps) (fuel : Nat) (s : HBState) (n : String)
    (nd : HBNode) (m : HBModule) (x y : Int)
    (hg : getNode s n = some nd) (hty : nd.ntype = HBNodeType.MODULE)
    (hm : SMap.find? s.modules n = some m)
    (hx : computeXFor s nd = x)
    (hy : Contour.getHeight s.horizontalContour x (x + m.width) = y) :
    packSubtree ops (Nat.succ fuel) s n =
      (match nd.right with
       | some r => packSubtree ops fuel
           (match nd.left with
            | some l => packSubtree ops fuel (mkT1 s n m x y) l
            | none => mkT1 s n m x y) r
       | none =>
           match nd.left with
           | some l => packSubtree ops fuel (mkT1 s n m x y) l
           | none => mkT1 s n m x y) := by
  rw [HBStarTree.packSubtree]
  simp only [hg, hty, hm, hx, hy]
  rfl

theorem computeXFor_cong (s s' : HBState) (nd : HBNode)
    (h1 : ∀ x ndx, getNode s x = some ndx → ndx.ntype = HBNodeType.MODULE)
    (h2 : ∀ x ndx, getNode s x = some ndx → ndx.name = x)
    (h4 : s'.nodes = s.nodes)
    (h8 : ∀ p, nd.parent = some p → SMap.find? s'.modules p = SMap.find? s.modules p) :
    computeXFor s' nd = computeXFor s nd := by
  rw [HBStarTree.computeXFor, HBStarTree.computeXFor]
  cases hp : nd.parent with
  | none => rfl
  | some p =>
    have hgp : getNode s' p = getNode s p := by
      show SMap.find? s'.nodes p = SMap.find? s.nodes p
      rw [h4]
    simp only [hgp]
    cases hpg : getNode s p with
    | none => rfl
    | some pnd =>
      have hpt : pnd.ntype = HBNodeType.MODULE := h1 p pnd hpg
      have hpn : pnd.name = p := h2 p pnd hpg
      simp only [hpt, hpn, h8 p hp]

theorem packSubtree_cong (ops : AsfOps) :
    ∀ (fuel : Nat) (s s' : HBState) (n : String),
      (∀ x nd, getNode s x = some nd → nd.ntype = HBNodeType.MODULE) →
      (∀ x nd, getNode s x = some nd → nd.name = x) →
      (∀ p pnd c cnd, getNode s p = some pnd → getNode s c = some cnd →
        (pnd.left = some c ∨ pnd.right = some c) → cnd.parent = some p) →
      s'.nodes = s.nodes →
      s'.horizontalContour = s.horizontalContour →
      s'.verticalContour = s.verticalContour →
      (∀ k, (SMap.find? s'.modules k).map dimOf = (SMap.find? s.modules k).map dimOf) →
      (∀ nd p, getNode s n = some nd → nd.parent = some p →
        SMap.find? s'.modules p = SMap.find? s.modules p) →
      (packSubtree ops fuel s n).nodes = s.nodes ∧
      (packSubtree ops fuel s' n).nodes = s'.nodes ∧
      (packSubtree ops fuel s' n).horizontalContour =
        (packSubtree ops fuel s n).horizontalContour ∧
      (packSubtree ops fuel s' n).verticalContour =
        (packSubtree ops fuel s n).verticalContour ∧
      (∀ k, (SMap.find? (packSubtree ops fuel s n).modules k).map dimOf =
        (SMap.find? s.modules k).map dimOf) ∧
      (∀ k, (SMap.find? (packSubtree ops fuel s' n).modules k).map dimOf =
        (SMap.find? s'.modules k).map dimOf) ∧
      (SSortedKeys s.modules → SSortedKeys (packSubtree ops fuel s n).modules) ∧
      (SSortedKeys s'.modules → SSortedKeys (packSubtree ops fuel s' n).modules) ∧
      ModRel s.modules s'.modules (packSubtree ops fuel s n).modules
        (packSubtree ops fuel s' n).modules := by
  intro fuel
  induction fuel with
  | zero =>
    intro s s' n _ _ _ _ h5 h6 _ _
    exact ⟨rfl, rfl, h5, h6, fun _ => rfl, fun _ => rfl, id, id, modRel_refl _ _⟩
  | succ fuel ih =>
    intro s s' n h1 h2 h3 h4 h5 h6 h7 h8
    have hgq : getNode s' n = getNode s n := by
      show SMap.find? s'.nodes n = SMap.find? s.nodes n
      rw [h4]
    cases hg : getNode s n with
    | none =>
      have hg' : getNode s' n = none := hgq.trans hg
      rw [packSubtree_none_eq ops fuel s n hg, packSubtree_none_eq ops fuel s' n hg']
      exact ⟨rfl, rfl, h5, h6, fun _ => rfl, fun _ => rfl, id, id, modRel_refl _ _⟩
    | some nd =>
      have hg' : getNode s' n = some nd := hgq.trans hg
      have hty : nd.ntype = HBNodeType.MODULE := h1 n nd hg
      cases hm : SMap.find? s.modules n with
      | none =>
        have hm' : SMap.find? s'.modules n = none := by
          have := h7 n
          rw [hm] at this
          cases hq : SMap.find? s'.modules n with
          | none => rfl
          | some mv => rw [hq] at this; simp at this
        rw [packSubtree_nomod_eq ops fuel s n nd hg hty hm,
            packSubtree_nomod_eq ops fuel s' n nd hg' hty hm']
        exact ⟨rfl, rfl, h5, h6, fun _ => rfl, fun _ => rfl, id, id, modRel_refl _ _⟩
      | some m =>
        obtain ⟨m', hm'⟩ : ∃ m', SMap.find? s'.modules n = some m' := by
          have := h7 n
          rw [hm] at this
          cases hq : SMap.find? s'.modules n with
          | none => rw [hq] at this; simp at this
          | some mv => exact ⟨mv, rfl⟩
        have hdm4 : m'.name = m.name ∧ m'.width = m.width ∧ m'.height = m.height ∧
            m'.rotated = m.rotated := by
          have h7n := h7 n
          rw [hm, hm'] at h7n
          simp [dimOf] at h7n
          exact ⟨h7n.1, h7n.2.1, h7n.2.2.1, h7n.2.2.2⟩
        obtain ⟨x, hx⟩ : ∃ x, computeXFor s nd = x := ⟨_, rfl⟩
        obtain ⟨y, hy⟩ : ∃ y, Contour.getHeight s.horizontalContour x (x + m.width) = y :=
          ⟨_, rfl⟩
        have hx' : computeXFor s' nd = x :=
          (computeXFor_cong s s' nd h1 h2 h4 (fun p hp => h8 nd p hg hp)).trans hx
        have hy' : Contour.getHeight s'.horizontalContour x (x + m'.width) = y := by
          rw [h5, hdm4.2.1]
          exact hy
        have hspos : HBModule.setPosition m' x y = HBModule.setPosition m x y := by
          obtain ⟨e1, e2, e3, e4⟩ := hdm4
          simp only [HBModule.setPosition]
          rw [e1, e2, e3, e4]
        have heqS := packSubtree_module_eq ops fuel s n nd m x y hg hty hm hx hy
        have heqS' := packSubtree_module_eq ops fuel s' n nd m' x y hg' hty hm' hx' hy'
        obtain ⟨t1, ht1⟩ : ∃ t, mkT1 s n m x y = t := ⟨_, rfl⟩
        obtain ⟨t1', ht1'⟩ : ∃ t, mkT1 s' n m' x y = t := ⟨_, rfl⟩
        rw [ht1] at heqS
        rw [ht1'] at heqS'
        have e1nodes : t1.nodes = s.nodes := by rw [← ht1]; rfl
        have e1nodes' : t1'.nodes = s'.nodes := by rw [← ht1']; rfl
        have ehc1 : t1'.horizontalContour = t1.horizontalContour := by
          rw [← ht1, ← ht1']
          show Contour.addSegment s'.horizontalContour x (x + m'.width) (y + m'.height) =
            Contour.addSegment s.horizontalContour x (x + m.width) (y + m.height)
          rw [h5, hdm4.2.1, hdm4.2.2.1]
        have evc1 : t1'.verticalContour = t1.verticalContour := by
          rw [← ht1, ← ht1']
          show Contour.addSegment s'.verticalContour y (y + m'.height) (x + m'.width) =
            Contour.addSegment s.verticalContour y (y + m.height) (x + m.width)
          rw [h6, hdm4.2.1, hdm4.2.2.1]
        have efind1 : SMap.find? t1.modules n = some (HBModule.setPosition m x y) := by
          rw [← ht1]
          show SMap.find? (SMap.insert s.modules n (HBModule.setPosition m x y)) n = _
          rw [smap_find_insert, if_pos rfl]
        have efind1' : SMap.find? t1'.modules n = some (HBModule.setPosition m x y) := by
          rw [← ht1']
          show SMap.find? (SMap.insert s'.modules n (HBModule.setPosition m' x y)) n = _
          rw [smap_find_insert, if_pos rfl, hspos]
        have edim1 : ∀ k, (SMap.find? t1.modules k).map dimOf =
            (SMap.find? s.modules k).map dimOf := by
          intro k
          rw [← ht1]
          show (SMap.find? (SMap.insert s.modules n (HBModule.setPosition m x y)) k).map dimOf = _
          rw [smap_find_insert]
          by_cases hk : k = n
          · rw [if_pos hk, hk, hm]
            rfl
          · rw [if_neg hk]
        have edim1' : ∀ k, (SMap.find? t1'.modules k).map dimOf =
            (SMap.find? s'.modules k).map dimOf := by
          intro k
          rw [← ht1']
          show (SMap.find? (SMap.insert s'.modules n (HBModule.setPosition m' x y)) k).map dimOf = _
          rw [smap_find_insert]
          by_cases hk : k = n
          · rw [if_pos hk, hk, hm']
            rfl
          · rw [if_neg hk]
        have edims : ∀ k, (SMap.find? t1'.modules k).map dimOf =
            (SMap.find? t1.modules k).map dimOf := by
          intro k
          rw [edim1 k, edim1' k]
          exact h7 k
        have esort1 : SSortedKeys s.modules → SSortedKeys t1.modules := by
          intro hs
          rw [← ht1]
          exact smap_insert_sorted _ _ _ hs
        have esort1' : SSortedKeys s'.modules → SSortedKeys t1'.modules := by
          intro hs
          rw [← ht1']
          exact smap_insert_sorted _ _ _ hs
        have emr1 : ModRel s.modules s'.modules t1.modules t1'.modules := by
          intro k
          by_cases hk : k = n
          · subst hk
            rw [efind1, efind1']
            exact Or.inl rfl
          · refine Or.inr ⟨?_, ?_⟩
            · rw [← ht1]
              show SMap.find? (SMap.insert s.modules n (HBModule.setPosition m x y)) k = _
              rw [smap_find_insert, if_neg hk]
            · rw [← ht1']
              show SMap.find? (SMap.insert s'.modules n (HBModule.setPosition m' x y)) k = _
              rw [smap_find_insert, if_neg hk]
        have hGet1 : ∀ a, getNode t1 a = getNode s a := by
          intro a
          show SMap.find? t1.nodes a = SMap.find? s.nodes a
          rw [e1nodes]
        have h1t : ∀ a b, getNode t1 a = some b → b.ntype = HBNodeType.MODULE :=
          fun a b h => h1 a b ((hGet1 a) ▸ h)
        have h2t : ∀ a b, getNode t1 a = some b → b.name = a :=
          fun a b h => h2 a b ((hGet1 a) ▸ h)
        have h3t : ∀ p pnd c cnd, getNode t1 p = some pnd → getNode t1 c = some cnd →
            (pnd.left = some c ∨ pnd.right = some c) → cnd.parent = some p :=
          fun p pnd c cnd hp hc0 hor =>
            h3 p pnd c cnd ((hGet1 p) ▸ hp) ((hGet1 c) ▸ hc0) hor
        have h4t : t1'.nodes = t1.nodes := by rw [e1nodes, e1nodes']; exact h4
        obtain ⟨t2, ht2⟩ : ∃ t, (match nd.left with
            | some l => packSubtree ops fuel t1 l
            | none => t1) = t := ⟨_, rfl⟩
        obtain ⟨t2', ht2'⟩ : ∃ t, (match nd.left with
            | some l => packSubtree ops fuel t1' l
            | none => t1') = t := ⟨_, rfl⟩
        rw [ht2] at heqS
        rw [ht2'] at heqS'
        have stepL : t2.nodes = t1.nodes ∧ t2'.nodes = t1'.nodes ∧
            t2'.horizontalContour = t2.horizontalContour ∧
            t2'.verticalContour = t2.verticalContour ∧
            (∀ k, (SMap.find? t2.modules k).map dimOf =
              (SMap.find? t1.modules k).map dimOf) ∧
            (∀ k, (SMap.find? t2'.modules k).map dimOf =
              (SMap.find? t1'.modules k).map dimOf) ∧
            (SSortedKeys t1.modules → SSortedKeys t2.modules) ∧
            (SSortedKeys t1'.modules → SSortedKeys t2'.modules) ∧
            ModRel t1.modules t1'.modules t2.modules t2'.modules := by
          cases hleft : nd.left with
          | none =>
            simp only [hleft] at ht2 ht2'
            subst ht2
            subst ht2'
            exact ⟨rfl, rfl, ehc1, evc1, fun _ => rfl, fun _ => rfl, id, id, modRel_refl _ _⟩
          | some l =>
            simp only [hleft] at ht2 ht2'
            have h8L : ∀ ndl p, getNode t1 l = some ndl → ndl.parent = some p →
                SMap.find? t1'.modules p = SMap.find? t1.modules p := by
              intro ndl p hgl hp
              have hgl2 : getNode s l = some ndl := (hGet1 l) ▸ hgl
              have hpn : ndl.parent = some n := h3 n nd l ndl hg hgl2 (Or.inl hleft)
              have hpe : p = n := Option.some.inj (hp.symm.trans hpn)
              subst hpe
              rw [efind1, efind1']
            have hstep := ih t1 t1' l h1t h2t h3t h4t ehc1 evc1 edims h8L
            rw [ht2, ht2'] at hstep
            exact hstep
        obtain ⟨a1, a2, a3, a4, a5, a6, a7, a8, a9⟩ := stepL
        have hGet2 : ∀ a, getNode t2 a = getNode s a := by
          intro a
          show SMap.find? t2.nodes a = SMap.find? s.nodes a
          rw [a1, e1nodes]
        cases hright : nd.right with
        | none =>
          simp only [hright] at heqS heqS'
          rw [heqS, heqS']
          refine ⟨a1.trans e1nodes, a2.trans e1nodes', a3, a4, ?_, ?_, ?_, ?_, ?_⟩
          · exact fun k => (a5 k).trans (edim1 k)
          · exact fun k => (a6 k).trans (edim1' k)
          · exact fun hs => a7 (esort1 hs)
          · exact fun hs => a8 (esort1' hs)
          · exact modRel_trans emr1 a9
        | some r =>
          simp only [hright] at heqS heqS'
          rw [heqS, heqS']
          have h1t2 : ∀ a b, getNode t2 a = some b → b.ntype = HBNodeType.MODULE :=
            fun a b h => h1 a b ((hGet2 a) ▸ h)
          have h2t2 : ∀ a b, getNode t2 a = some b → b.name = a :=
            fun a b h => h2 a b ((hGet2 a) ▸ h)
          have h3t2 : ∀ p pnd c cnd, getNode t2 p = some pnd → getNode t2 c = some cnd →
              (pnd.left = some c ∨ pnd.right = some c) → cnd.parent = some p :=
            fun p pnd c cnd hp hc0 hor =>
              h3 p pnd c cnd ((hGet2 p) ▸ hp) ((hGet2 c) ▸ hc0) hor
          have h4t2 : t2'.nodes = t2.nodes := by
            rw [a1, a2, e1nodes, e1nodes']
            exact h4
          have edims2 : ∀ k, (SMap.find? t2'.modules k).map dimOf =
              (SMap.find? t2.modules k).map dimOf := by
            intro k
            rw [a5 k, a6 k, edim1 k, edim1' k]
            exact h7 k
          have h8R : ∀ ndr p, getNode t2 r = some ndr → ndr.parent = some p →
              SMap.find? t2'.modules p = SMap.find? t2.modules p := by
            intro ndr p hgr hp
            have hgr2 : getNode s r = some ndr := (hGet2 r) ▸ hgr
            have hpn : ndr.parent = some n := h3 n nd r ndr hg hgr2 (Or.inr hright)
            have hpe : p = n := Option.some.inj (hp.symm.trans hpn)
            subst hpe
            rcases a9 p with hcase | ⟨hu1, hu2⟩
            · exact hcase
            · rw [hu1, hu2, efind1, efind1']
          have hstep := ih t2 t2' r h1t2 h2t2 h3t2 h4t2 a3 a4 edims2 h8R
          obtain ⟨b1, b2, b3, b4, b5, b6, b7, b8, b9⟩ := hstep
          refine ⟨b1.trans (a1.trans e1nodes), b2.trans (a2.trans e1nodes'), b3, b4,
            ?_, ?_, ?_, ?_, ?_⟩
          · exact fun k => (b5 k).trans ((a5 k).trans (edim1 k))
          · exact fun k => (b6 k).trans ((a6 k).trans (edim1' k))
          · exact fun hs => b7 (a7 (esort1 hs))
          · exact fun hs => b8 (a8 (esort1' hs))
          · exact modRel_trans (modRel_trans emr1 a9) b9

/-- The contour re-initialization at the start of a full pack
(HBStarTree.cpp lines 357-363). -/
def packPrep (s : HBState) : HBState :=
  { s with
    horizontalContour := Contour.addSegment (Contour.clear s.horizontalContour) 0 intMax 0,
    verticalContour := Contour.addSegment (Contour.clear s.verticalContour) 0 intMax 0 }

theorem updateContourNodes_noGroups (s : HBState) (h : s.symmetryGroupNodes = []) :
    updateContourNodes s = s := by
  rw [HBStarTree.updateContourNodes, h]
  rfl

theorem pack_full_eq (ops : AsfOps) (s : HBState) (r : String)
    (hroot : s.root = some r) (hms : s.modifiedSubtrees = []) :
    pack ops s = (true,
      { updateContourNodes
          { packSubtree ops (s.nodes.length + 1) (packPrep s) r with
            totalArea := totalAreaOf
              (packSubtree ops (s.nodes.length + 1) (packPrep s) r).modules }
        with isPacked := true }) := by
  rw [HBStarTree.pack, hroot, hms]
  simp only [List.isEmpty_nil, Bool.not_true, Bool.false_eq_true, if_false]
  rw [← hroot, ← hms]
  rfl

/-- C4 (amended): pack is idempotent on hierarchy-free trees.  The general
claim fails because the contour-node regeneration of a full pack rewires
every hierarchy node's right child and can orphan a subtree hanging there
(see the counterexample); on a tree with no symmetry-group nodes — all
nodes MODULE, consistent parent/child links, a parentless root, and no
pending incremental marks — a second pack() recomputes exactly the same
(x, y) for every module. -/
theorem pack_idempotent_no_hierarchy (ops : AsfOps) (s : HBState) (r : String)
    (hroot : s.root = some r)
    (hms : s.modifiedSubtrees = [])
    (hsg : s.symmetryGroupNodes = [])
    (hmod : ∀ pr, pr ∈ s.nodes → pr.2.ntype = HBNodeType.MODULE ∧ pr.2.name = pr.1)
    (hwf : ∀ pr, pr ∈ s.nodes → ∀ pr2, pr2 ∈ s.nodes →
      (pr.2.left = some pr2.1 ∨ pr.2.right = some pr2.1) → pr2.2.parent = some pr.1)
    (hrp : ∀ pr, pr ∈ s.nodes → pr.1 = r → pr.2.parent = none) :
    (pack ops s).1 = true ∧
    (pack ops (pack ops s).2).1 = true ∧
    (∀ k, SMap.find? (pack ops (pack ops s).2).2.modules k =
      SMap.find? (pack ops s).2.modules k) := by
  have h1g : ∀ x nd, getNode s x = some nd → nd.ntype = HBNodeType.MODULE :=
    fun x nd h => (hmod (x, nd) (smap_find_mem _ _ _ h)).1
  have h2g : ∀ x nd, getNode s x = some nd → nd.name = x :=
    fun x nd h => (hmod (x, nd) (smap_find_mem _ _ _ h)).2
  have h3g : ∀ p pnd c cnd, getNode s p = some pnd → getNode s c = some cnd →
      (pnd.left = some c ∨ pnd.right = some c) → cnd.parent = some p :=
    fun p pnd c cnd hp hc hor =>
      hwf (p, pnd) (smap_find_mem _ _ _ hp) (c, cnd) (smap_find_mem _ _ _ hc) hor
  have hrpg : ∀ nd, getNode s r = some nd → nd.parent = none :=
    fun nd h => hrp (r, nd) (smap_find_mem _ _ _ h) rfl
  have heq1 := pack_full_eq ops s r hroot hms
  obtain ⟨P1, hP1⟩ : ∃ t, packSubtree ops (s.nodes.length + 1) (packPrep s) r = t := ⟨_, rfl⟩
  rw [hP1] at heq1
  have hfr1 := packSubtree_frame ops (s.nodes.length + 1) (packPrep s) r
  rw [hP1] at hfr1
  have hsg1 : P1.symmetryGroupNodes = [] := hfr1.2.2.2.2.2.2.1.trans hsg
  have hroot1 : P1.root = some r := hfr1.1.trans hroot
  have hms1 : P1.modifiedSubtrees = [] := hfr1.2.2.2.1.trans hms
  have hsg2 : ({ P1 with totalArea := totalAreaOf P1.modules }).symmetryGroupNodes = [] := hsg1
  rw [updateContourNodes_noGroups _ hsg2] at heq1
  have hP2 : (pack ops s).2 =
      { { P1 with totalArea := totalAreaOf P1.modules } with isPacked := true } := by
    rw [heq1]
  have cong1 := packSubtree_cong ops (s.nodes.length + 1) (packPrep s) (packPrep s) r
    h1g h2g h3g rfl rfl rfl (fun _ => rfl)
    (fun nd p hgr hp => absurd hp (by simp [hrpg nd hgr]))
  rw [hP1] at cong1
  have hnodes1 : P1.nodes = s.nodes := cong1.1
  have hdims1 : ∀ k, (SMap.find? P1.modules k).map dimOf =
      (SMap.find? s.modules k).map dimOf := cong1.2.2.2.2.1
  have heq2 := pack_full_eq ops (pack ops s).2 r
    (by rw [hP2]; exact hroot1) (by rw [hP2]; exact hms1)
  have hflen : ((pack ops s).2).nodes.length = s.nodes.length := by
    rw [hP2]
    exact congrArg List.length hnodes1
  rw [hflen] at heq2
  obtain ⟨Q1, hQ1⟩ : ∃ t, packSubtree ops (s.nodes.length + 1)
      (packPrep (pack ops s).2) r = t := ⟨_, rfl⟩
  rw [hQ1] at heq2
  have hfr2 := packSubtree_frame ops (s.nodes.length + 1) (packPrep (pack ops s).2) r
  rw [hQ1] at hfr2
  have hsgQ : Q1.symmetryGroupNodes = [] :=
    hfr2.2.2.2.2.2.2.1.trans (by rw [hP2]; exact hsg1)
  have hsgQ2 : ({ Q1 with totalArea := totalAreaOf Q1.modules }).symmetryGroupNodes = [] := hsgQ
  rw [updateContourNodes_noGroups _ hsgQ2] at heq2
  have cong2 := packSubtree_cong ops (s.nodes.length + 1)
    (packPrep s) (packPrep (pack ops s).2) r
    h1g h2g h3g (by rw [hP2]; exact hnodes1) rfl rfl
    (fun k => by rw [hP2]; exact hdims1 k)
    (fun nd p hgr hp => absurd hp (by simp [hrpg nd hgr]))
  rw [hP1, hQ1] at cong2
  refine ⟨by rw [heq1], by rw [heq2], ?_⟩
  intro k
  rw [heq2, heq1]
  show SMap.find? Q1.modules k = SMap.find? P1.modules k
  rcases cong2.2.2.2.2.2.2.2.2 k with hcase | ⟨hu1, hu2⟩
  · exact hcase
  · rw [hu2, hP2]
    rfl

/-- A hierarchy-free two-module tree for the C4 witness. -/
def c4simple : HBState :=
  let s := emptyHBState
  let s := addModule s (mkMod "a" 10 10)
  let s := addModule s (mkMod "b" 5 5)
  constructInitialTree simpleOps s

theorem pack_idempotent_no_hierarchy_witness :
    (c4simple.root = some "a" ∧ c4simple.modifiedSubtrees = [] ∧
     c4simple.symmetryGroupNodes = [] ∧
     (∀ pr, pr ∈ c4simple.nodes → pr.2.ntype = HBNodeType.MODULE ∧ pr.2.name = pr.1) ∧
     (∀ pr, pr ∈ c4simple.nodes → ∀ pr2, pr2 ∈ c4simple.nodes →
       (pr.2.left = some pr2.1 ∨ pr.2.right = some pr2.1) → pr2.2.parent = some pr.1) ∧
     (∀ pr, pr ∈ c4simple.nodes → pr.1 = "a" → pr.2.parent = none)) ∧
    ((pack simpleOps c4simple).1 = true ∧
     (pack simpleOps (pack simpleOps c4simple).2).1 = true ∧
     (∀ k, SMap.find? (pack simpleOps (pack simpleOps c4simple).2).2.modules k =
       SMap.find? (pack simpleOps c4simple).2.modules k)) :=
  ⟨⟨by decide, by decide, by decide, by decide, by decide, by decide⟩,
    pack_idempotent_no_hierarchy simpleOps c4simple "a" (by decide) (by decide) (by decide)
      (by decide) (by decide) (by decide)⟩

/- ### Clone round-trip machinery (C5) -/

theorem updNode_modules (s : HBState) (n : String) (f : HBNode → HBNode) :
    (updNode s n f).modules = s.modules ∧
    (updNode s n f).modifiedSubtrees = s.modifiedSubtrees := by
  unfold HBStarTree.updNode
  cases h : SMap.find? s.nodes n <;> simp

theorem updNode_nodes_cong (s s' : HBState) (n : String) (f : HBNode → HBNode)
    (h : s.nodes = s'.nodes) : (updNode s n f).nodes = (updNode s' n f).nodes := by
  unfold HBStarTree.updNode
  rw [h]
  cases hq : SMap.find? s'.nodes n <;> simp [h]

theorem chainAttach_more :
    ∀ (l : List String) (s : HBState) (cur : String),
      (chainAttach s cur l).1.modules = s.modules ∧
      (chainAttach s cur l).1.modifiedSubtrees = s.modifiedSubtrees := by
  intro l
  induction l with
  | nil => intro s cur; exact ⟨rfl, rfl⟩
  | cons n rest ih =>
    intro s cur
    rw [HBStarTree.chainAttach]
    obtain ⟨h1, h2⟩ := ih (setParentOf (setLeftOf s cur (some n)) n (some cur)) n
    obtain ⟨p1, p2⟩ := updNode_modules (setLeftOf s cur (some n)) n
      (fun nd => { nd with parent := some cur })
    obtain ⟨q1, q2⟩ := updNode_modules s cur (fun nd => { nd with left := some n })
    constructor
    · rw [h1]; rw [HBStarTree.setParentOf] at *; rw [p1]
      rw [HBStarTree.setLeftOf] at *; exact q1
    · rw [h2]; rw [HBStarTree.setParentOf] at *; rw [p2]
      rw [HBStarTree.setLeftOf] at *; exact q2

theorem chainAttach_nodes_cong :
    ∀ (l : List String) (s s' : HBState) (cur : String), s.nodes = s'.nodes →
      (chainAttach s cur l).1.nodes = (chainAttach s' cur l).1.nodes := by
  intro l
  induction l with
  | nil => intro s s' cur h; exact h
  | cons n rest ih =>
    intro s s' cur h
    rw [HBStarTree.chainAttach, HBStarTree.chainAttach]
    apply ih
    rw [HBStarTree.setParentOf, HBStarTree.setParentOf]
    apply updNode_nodes_cong
    rw [HBStarTree.setLeftOf, HBStarTree.setLeftOf]
    exact updNode_nodes_cong s s' cur _ h

theorem chainAttach_snd_const :
    ∀ (l : List String) (s s' : HBState) (cur : String),
      (chainAttach s cur l).2 = (chainAttach s' cur l).2 := by
  intro l
  induction l with
  | nil => intro s s' cur; rfl
  | cons n rest ih =>
    intro s s' cur
    rw [HBStarTree.chainAttach, HBStarTree.chainAttach]
    exact ih _ _ n

theorem moduleFold_more :
    ∀ (ns : List String) (st : HBState),
      (List.foldl moduleNodeStep st ns).modules = st.modules ∧
      (List.foldl moduleNodeStep st ns).modifiedSubtrees = st.modifiedSubtrees := by
  intro ns
  induction ns with
  | nil => intro st; exact ⟨rfl, rfl⟩
  | cons n rest ih =>
    intro st
    rw [List.foldl_cons]
    exact ih (moduleNodeStep st n)

theorem moduleFold_cong :
    ∀ (ns : List String) (st st' : HBState),
      st.nodes = st'.nodes → st.moduleNodes = st'.moduleNodes →
      (List.foldl moduleNodeStep st ns).nodes = (List.foldl moduleNodeStep st' ns).nodes ∧
      (List.foldl moduleNodeStep st ns).moduleNodes =
        (List.foldl moduleNodeStep st' ns).moduleNodes := by
  intro ns
  induction ns with
  | nil => intro st st' h1 h2; exact ⟨h1, h2⟩
  | cons n rest ih =>
    intro st st' h1 h2
    rw [List.foldl_cons, List.foldl_cons]
    apply ih
    · show SMap.insert st.nodes n (HBNode.mkNode HBNodeType.MODULE n) =
        SMap.insert st'.nodes n (HBNode.mkNode HBNodeType.MODULE n)
      rw [h1]
    · show SMap.insert st.moduleNodes n () = SMap.insert st'.moduleNodes n ()
      rw [h2]

theorem structChainResult_more (s : HBState) :
    (structChainResult s).modules = s.modules ∧
    (structChainResult s).modifiedSubtrees = s.modifiedSubtrees := by
  rw [structChainResult]
  split
  · exact ⟨rfl, rfl⟩
  · split
    · split
      · exact ⟨rfl, rfl⟩
      · rename_i r restG heq
        constructor
        · exact ((chainAttach_more _ _ _).1).trans
            ((chainAttach_more restG { s with root := some r } r).1)
        · exact ((chainAttach_more _ _ _).2).trans
            ((chainAttach_more restG { s with root := some r } r).2)
    · split
      · exact ⟨rfl, rfl⟩
      · rename_i r restM heq
        exact ⟨(chainAttach_more restM { s with root := some r } r).1,
          (chainAttach_more restM { s with root := some r } r).2⟩

theorem postRegister_nodes (s : HBState) :
    (postRegister s).nodes = (structChainResult s).nodes ∧
    (postRegister s).root = (structChainResult s).root ∧
    (postRegister s).modules = s.modules ∧
    (postRegister s).modifiedSubtrees = s.modifiedSubtrees := by
  obtain ⟨hm1, hm2⟩ := structChainResult_more s
  cases hrt : (structChainResult s).root with
  | none =>
    have hpr : postRegister s = structChainResult s := by rw [postRegister, hrt]
    rw [hpr]
    exact ⟨rfl, hrt, hm1, hm2⟩
  | some r =>
    have hpr : postRegister s = registerNodeInMap (structChainResult s)
        ((structChainResult s).nodes.length + 1) r := by rw [postRegister, hrt]
    obtain ⟨nm, he⟩ := registerNodeInMap_nodeMapOnly ((structChainResult s).nodes.length + 1)
      (structChainResult s) r
    rw [hpr, he]
    exact ⟨rfl, hrt, hm1, hm2⟩

theorem chainAttach2_nodes_cong (l1 l2 : List String) (s s' : HBState) (cur : String)
    (h : s.nodes = s'.nodes) :
    (chainAttach (chainAttach s cur l1).1 (chainAttach s cur l1).2 l2).1.nodes =
    (chainAttach (chainAttach s' cur l1).1 (chainAttach s' cur l1).2 l2).1.nodes := by
  rw [← chainAttach_append, ← chainAttach_append]
  exact chainAttach_nodes_cong _ _ _ _ h

theorem chainAttach2_root (l1 l2 : List String) (s : HBState) (cur : String) :
    (chainAttach (chainAttach s cur l1).1 (chainAttach s cur l1).2 l2).1.root = s.root := by
  rw [← chainAttach_append]
  exact (chainAttach_fields _ _ _).1

theorem structChainResult_cong (A B : HBState)
    (h1 : A.nodes = B.nodes) (h2 : A.moduleNodes = B.moduleNodes)
    (h3 : A.symmetryGroupNodes = B.symmetryGroupNodes) (h4 : A.root = B.root) :
    (structChainResult A).nodes = (structChainResult B).nodes ∧
    (structChainResult A).root = (structChainResult B).root := by
  rw [structChainResult, structChainResult, h2, h3]
  rcases hsg : B.symmetryGroupNodes with _ | ⟨⟨g, gu⟩, restG⟩
  · rcases hmn : B.moduleNodes with _ | ⟨⟨m0, mu⟩, restM⟩
    · exact ⟨h1, h4⟩
    · constructor
      · show ((chainAttach _ m0 (List.map Prod.fst restM)).1).nodes =
          ((chainAttach _ m0 (List.map Prod.fst restM)).1).nodes
        exact chainAttach_nodes_cong _ _ _ _ h1
      · show ((chainAttach _ m0 (List.map Prod.fst restM)).1).root =
          ((chainAttach _ m0 (List.map Prod.fst restM)).1).root
        rw [(chainAttach_fields _ _ _).1, (chainAttach_fields _ _ _).1]
  · constructor
    · show (chainAttach (chainAttach _ g (List.map Prod.fst restG)).1
          (chainAttach _ g (List.map Prod.fst restG)).2 (B.moduleNodes.map Prod.fst)).1.nodes =
        (chainAttach (chainAttach _ g (List.map Prod.fst restG)).1
          (chainAttach _ g (List.map Prod.fst restG)).2 (B.moduleNodes.map Prod.fst)).1.nodes
      exact chainAttach2_nodes_cong _ _ _ _ g h1
    · show (chainAttach (chainAttach _ g (List.map Prod.fst restG)).1
          (chainAttach _ g (List.map Prod.fst restG)).2 (B.moduleNodes.map Prod.fst)).1.root =
        (chainAttach (chainAttach _ g (List.map Prod.fst restG)).1
          (chainAttach _ g (List.map Prod.fst restG)).2 (B.moduleNodes.map Prod.fst)).1.root
      rw [chainAttach2_root, chainAttach2_root]

/-- The area lookup of the dead descending-area sort. -/
def areaIn (s : HBState) (nm : String) : Int :=
  match SMap.find? s.modules nm with
  | some md => HBModule.getArea md
  | none => 0

theorem insert_area_eq (s : HBState) (n m : String) (rest : List String) :
    insertByAreaDesc s n (m :: rest) =
      if areaIn s m < areaIn s n then n :: m :: rest
      else m :: insertByAreaDesc s n rest := rfl

theorem areaIn_cong (s1 s2 : HBState)
    (h : ∀ nm, (SMap.find? s2.modules nm).map dimOf = (SMap.find? s1.modules nm).map dimOf) :
    ∀ nm, areaIn s2 nm = areaIn s1 nm := by
  intro nm
  have hnm := h nm
  rw [areaIn, areaIn]
  cases h1 : SMap.find? s1.modules nm with
  | none =>
    rw [h1] at hnm
    cases h2 : SMap.find? s2.modules nm with
    | none => rfl
    | some w => rw [h2] at hnm; simp at hnm
  | some md =>
    rw [h1] at hnm
    cases h2 : SMap.find? s2.modules nm with
    | none => rw [h2] at hnm; simp at hnm
    | some w =>
      rw [h2] at hnm
      simp [dimOf] at hnm
      show HBModule.getArea w = HBModule.getArea md
      rw [HBModule.getArea, HBModule.getArea, hnm.2.1, hnm.2.2.1]

theorem insertByAreaDesc_cong (s1 s2 : HBState)
    (h : ∀ nm, areaIn s2 nm = areaIn s1 nm) :
    ∀ (l : List String) (n : String), insertByAreaDesc s2 n l = insertByAreaDesc s1 n l := by
  intro l
  induction l with
  | nil => intro n; rfl
  | cons m rest ih =>
    intro n
    rw [insert_area_eq, insert_area_eq, h m, h n, ih n]

theorem sortByAreaDesc_cong (s1 s2 : HBState)
    (h : ∀ nm, areaIn s2 nm = areaIn s1 nm) :
    ∀ (l : List String), sortByAreaDesc s2 l = sortByAreaDesc s1 l := by
  intro l
  induction l with
  | nil => rfl
  | cons n rest ih =>
    rw [HBStarTree.sortByAreaDesc, HBStarTree.sortByAreaDesc, ih,
      insertByAreaDesc_cong s1 s2 h]

theorem smap_keys_ext_sorted {α β : Type} :
    ∀ (m : SMap α) (m' : SMap β), SSortedKeys m → SSortedKeys m' →
      (∀ k, (SMap.find? m k).isSome = (SMap.find? m' k).isSome) →
      m.map Prod.fst = m'.map Prod.fst := by
  intro m
  induction m with
  | nil =>
    intro m' _ hs' hf
    cases m' with
    | nil => rfl
    | cons b tl' =>
      obtain ⟨bk, bv⟩ := b
      have := hf bk
      simp [SMap.find?] at this
  | cons a tl ih =>
    intro m' hs hs' hf
    cases m' with
    | nil =>
      obtain ⟨ak, av⟩ := a
      have := hf ak
      simp [SMap.find?] at this
    | cons b tl' =>
      obtain ⟨k0, v0⟩ := a
      obtain ⟨k0', v0'⟩ := b
      have hkk : k0 = k0' := by
        by_cases h : k0 = k0'
        · exact h
        · exfalso
          have h1 := hf k0
          simp only [SMap.find?] at h1
          simp only [if_pos trivial, if_neg h] at h1
          have h2 := hf k0'
          simp only [SMap.find?] at h2
          simp only [if_pos trivial, if_neg (Ne.symm h)] at h2
          obtain ⟨w1, hw1⟩ : ∃ w, SMap.find? tl' k0 = some w := by
            cases hq : SMap.find? tl' k0 with
            | none => rw [hq] at h1; simp at h1
            | some w => exact ⟨w, rfl⟩
          obtain ⟨w2, hw2⟩ : ∃ w, SMap.find? tl k0' = some w := by
            cases hq : SMap.find? tl k0' with
            | none => rw [hq] at h2; simp at h2
            | some w => exact ⟨w, rfl⟩
          have hm1 := smap_find_mem tl' k0 w1 hw1
          have hm2 := smap_find_mem tl k0' w2 hw2
          have hlt1 : strLtB k0'.data k0.data = true :=
            ssorted_head_lt tl' (k0', v0') hs' (k0, w1) hm1
          have hlt2 : strLtB k0.data k0'.data = true :=
            ssorted_head_lt tl (k0, v0) hs (k0', w2) hm2
          have hasym := strLtB_asymm k0.data k0'.data hlt2
          rw [hasym] at hlt1
          simp at hlt1
      subst hkk
      simp only [List.map_cons]
      refine congrArg _ (ih tl' (ssorted_tail _ _ hs) (ssorted_tail _ _ hs') ?_)
      intro k
      by_cases hk : k = k0
      · subst hk
        rw [smap_find_head_none tl k (fun pr hpr => ssorted_head_lt tl (k, v0) hs pr hpr),
          smap_find_head_none tl' k (fun pr hpr => ssorted_head_lt tl' (k, v0') hs' pr hpr)]
        rfl
      · have := hf k
        simp only [SMap.find?] at this
        simp only [if_neg hk] at this
        exact this

/-- Decidability of the sorted-keys invariant, so witnesses can check it. -/
def ssortedDec {α : Type} : (m : SMap α) → Decidable (SSortedKeys m)
  | [] => Decidable.isTrue trivial
  | [_] => Decidable.isTrue trivial
  | a :: b :: rest =>
    match ssortedDec (b :: rest) with
    | Decidable.isTrue h =>
      if hlt : sLt a.1 b.1 = true then Decidable.isTrue ⟨hlt, h⟩
      else Decidable.isFalse (fun hc => hlt hc.1)
    | Decidable.isFalse h => Decidable.isFalse (fun hc => h hc.2)

instance {α : Type} (m : SMap α) : Decidable (SSortedKeys m) := ssortedDec m

theorem isSome_of_dim_eq {o1 o2 : Option HBModule}
    (h : o1.map dimOf = o2.map dimOf) : o1.isSome = o2.isSome := by
  cases o1 <;> cases o2 <;> simp_all

theorem filter_no_groups : ∀ (l : List String),
    l.filter (fun n => !(symmetryModuleNames []).contains n) = l := by
  intro l
  induction l with
  | nil => rfl
  | cons a rest ih =>
    simp [List.filter_cons, symmetryModuleNames, ih]

/-- C5 (amended): the clone round-trip preserves the packed result for a
freshly constructed tree.  In general clone() re-runs initial construction
and thereby discards any perturbation of the topology, so the clone can
pack to a different bounding box (see the counterexample); when the
original IS the initial construct — no symmetry groups, a fresh arena —
clone(); pack() reproduces exactly the same module map and the same
bounding-box area as the original's pack. -/
theorem clone_pack_fresh_construct (ops : AsfOps) (spre : HBState) (r : String)
    (hg0 : spre.symmetryGroups = [])
    (hn0 : spre.nodes = [])
    (hsortpre : SSortedKeys spre.modules)
    (hrootT : (constructInitialTree ops spre).root = some r)
    (hmsT : (constructInitialTree ops spre).modifiedSubtrees = [])
    (hsgT : (constructInitialTree ops spre).symmetryGroupNodes = [])
    (hsgsT : (constructInitialTree ops spre).symmetryGroups = [])
    (hmodT : ∀ pr, pr ∈ (constructInitialTree ops spre).nodes →
      pr.2.ntype = HBNodeType.MODULE ∧ pr.2.name = pr.1)
    (hwfT : ∀ pr, pr ∈ (constructInitialTree ops spre).nodes →
      ∀ pr2, pr2 ∈ (constructInitialTree ops spre).nodes →
      (pr.2.left = some pr2.1 ∨ pr.2.right = some pr2.1) → pr2.2.parent = some pr.1)
    (hrpT : ∀ pr, pr ∈ (constructInitialTree ops spre).nodes → pr.1 = r →
      pr.2.parent = none) :
    (pack ops (constructInitialTree ops spre)).1 = true ∧
    (pack ops (clone ops (pack ops (constructInitialTree ops spre)).2)).1 = true ∧
    (pack ops (clone ops (pack ops (constructInitialTree ops spre)).2)).2.modules =
      (pack ops (constructInitialTree ops spre)).2.modules ∧
    (pack ops (clone ops (pack ops (constructInitialTree ops spre)).2)).2.totalArea =
      (pack ops (constructInitialTree ops spre)).2.totalArea := by
  obtain ⟨T, hT⟩ : ∃ t, constructInitialTree ops spre = t := ⟨_, rfl⟩
  rw [hT] at hrootT hmsT hsgT hsgsT hmodT hwfT hrpT ⊢
  have h1g : ∀ x nd, getNode T x = some nd → nd.ntype = HBNodeType.MODULE :=
    fun x nd h => (hmodT (x, nd) (smap_find_mem _ _ _ h)).1
  have h2g : ∀ x nd, getNode T x = some nd → nd.name = x :=
    fun x nd h => (hmodT (x, nd) (smap_find_mem _ _ _ h)).2
  have h3g : ∀ p pnd c cnd, getNode T p = some pnd → getNode T c = some cnd →
      (pnd.left = some c ∨ pnd.right = some c) → cnd.parent = some p :=
    fun p pnd c cnd hp hc hor =>
      hwfT (p, pnd) (smap_find_mem _ _ _ hp) (c, cnd) (smap_find_mem _ _ _ hc) hor
  have hrpg : ∀ nd, getNode T r = some nd → nd.parent = none :=
    fun nd h => hrpT (r, nd) (smap_find_mem _ _ _ h) rfl
  have heqT := pack_full_eq ops T r hrootT hmsT
  obtain ⟨P1, hP1⟩ : ∃ t, packSubtree ops (T.nodes.length + 1) (packPrep T) r = t := ⟨_, rfl⟩
  rw [hP1] at heqT
  have hfr1 := packSubtree_frame ops (T.nodes.length + 1) (packPrep T) r
  rw [hP1] at hfr1
  have hsg1 : P1.symmetryGroupNodes = [] := hfr1.2.2.2.2.2.2.1.trans hsgT
  have hsg2 : ({ P1 with totalArea := totalAreaOf P1.modules }).symmetryGroupNodes = [] := hsg1
  rw [updateContourNodes_noGroups _ hsg2] at heqT
  have hP2 : (pack ops T).2 =
      { { P1 with totalArea := totalAreaOf P1.modules } with isPacked := true } := by
    rw [heqT]
  have cong1 := packSubtree_cong ops (T.nodes.length + 1) (packPrep T) (packPrep T) r
    h1g h2g h3g rfl rfl rfl (fun _ => rfl)
    (fun nd p hgr hp => absurd hp (by simp [hrpg nd hgr]))
  rw [hP1] at cong1
  have hdims1 : ∀ k, (SMap.find? P1.modules k).map dimOf =
      (SMap.find? (packPrep T).modules k).map dimOf := cong1.2.2.2.2.1
  -- the initial construct decomposed (no symmetry groups)
  have hdecT : T = postRegister (List.foldl moduleNodeStep (clearTree spre)
      (sortByAreaDesc (clearTree spre)
        (((clearTree spre).modules.map Prod.fst).filter
          (fun n => !(symmetryModuleNames (clearTree spre).symmetryGroups).contains n)))) := by
    rw [← hT]
    have h0 : constructInitialTree ops spre =
        postRegister (List.foldl moduleNodeStep
          (List.foldl (islandStep ops) (clearTree spre) (clearTree spre).symmetryGroups)
          (sortByAreaDesc
            (List.foldl (islandStep ops) (clearTree spre) (clearTree spre).symmetryGroups)
            ((((List.foldl (islandStep ops) (clearTree spre)
                (clearTree spre).symmetryGroups).modules.map Prod.fst)).filter
              (fun n => !(symmetryModuleNames (List.foldl (islandStep ops) (clearTree spre)
                (clearTree spre).symmetryGroups).symmetryGroups).contains n)))) := rfl
    rw [h0, show (clearTree spre).symmetryGroups = [] from hg0, List.foldl_nil,
      show (clearTree spre).symmetryGroups = [] from hg0]
  have hTmod : T.modules = spre.modules := by
    rw [hdecT, (postRegister_nodes _).2.2.1, (moduleFold_more _ _).1]
    rfl
  have hsortT2 : SSortedKeys T.modules := by rw [hTmod]; exact hsortpre
  have hsortP1 : SSortedKeys P1.modules := cong1.2.2.2.2.2.2.1 hsortT2
  have hsgsP : ((pack ops T).2).symmetryGroups = [] := by
    rw [hP2]
    exact hfr1.2.2.2.2.2.2.2.1.trans hsgsT
  obtain ⟨Pb, hPb⟩ : ∃ t,
      ({ emptyHBState with
          modules := ((pack ops T).2).modules,
          symmetryGroups := ((pack ops T).2).symmetryGroups } : HBState) = t :=
    ⟨_, rfl⟩
  have hclone : clone ops (pack ops T).2 =
      { constructInitialTree ops Pb with
        isPacked := ((pack ops T).2).isPacked,
        totalArea := ((pack ops T).2).totalArea,
        horizontalContour := ((pack ops T).2).horizontalContour,
        verticalContour := ((pack ops T).2).verticalContour } := by
    rw [← hPb]
    rfl
  have hPbg : Pb.symmetryGroups = [] := by rw [← hPb]; exact hsgsP
  have hPbn : Pb.nodes = [] := by rw [← hPb]; rfl
  have hPbmod : Pb.modules = ((pack ops T).2).modules := by rw [← hPb]
  have hPbms : Pb.modifiedSubtrees = [] := by rw [← hPb]; rfl
  have hPmod_eq : ((pack ops T).2).modules = P1.modules := by rw [hP2]
  have hdecC : constructInitialTree ops Pb = postRegister (List.foldl moduleNodeStep
      (clearTree Pb)
      (sortByAreaDesc (clearTree Pb)
        (((clearTree Pb).modules.map Prod.fst).filter
          (fun n => !(symmetryModuleNames (clearTree Pb).symmetryGroups).contains n)))) := by
    have h0 : constructInitialTree ops Pb =
        postRegister (List.foldl moduleNodeStep
          (List.foldl (islandStep ops) (clearTree Pb) (clearTree Pb).symmetryGroups)
          (sortByAreaDesc
            (List.foldl (islandStep ops) (clearTree Pb) (clearTree Pb).symmetryGroups)
            ((((List.foldl (islandStep ops) (clearTree Pb)
                (clearTree Pb).symmetryGroups).modules.map Prod.fst)).filter
              (fun n => !(symmetryModuleNames (List.foldl (islandStep ops) (clearTree Pb)
                (clearTree Pb).symmetryGroups).symmetryGroups).contains n)))) := rfl
    rw [h0, show (clearTree Pb).symmetryGroups = [] from hPbg, List.foldl_nil,
      show (clearTree Pb).symmetryGroups = [] from hPbg]
  have hdimsPre : ∀ k, (SMap.find? Pb.modules k).map dimOf =
      (SMap.find? spre.modules k).map dimOf := by
    intro k
    rw [hPbmod, hPmod_eq]
    exact (hdims1 k).trans
      (congrArg (fun mm => (SMap.find? mm k).map dimOf) (show (packPrep T).modules = spre.modules from hTmod))
  have hsortPb : SSortedKeys Pb.modules := by
    rw [hPbmod, hPmod_eq]
    exact hsortP1
  have hkeys : Pb.modules.map Prod.fst = spre.modules.map Prod.fst :=
    smap_keys_ext_sorted Pb.modules spre.modules hsortPb hsortpre
      (fun k => isSome_of_dim_eq (hdimsPre k))
  have harea : ∀ nm, areaIn (clearTree Pb) nm = areaIn (clearTree spre) nm :=
    areaIn_cong (clearTree spre) (clearTree Pb) (fun nm => hdimsPre nm)
  have hfT : ((clearTree spre).modules.map Prod.fst).filter
      (fun n => !(symmetryModuleNames (clearTree spre).symmetryGroups).contains n) =
      spre.modules.map Prod.fst := by
    rw [show (clearTree spre).symmetryGroups = [] from hg0]
    exact filter_no_groups _
  have hfC : ((clearTree Pb).modules.map Prod.fst).filter
      (fun n => !(symmetryModuleNames (clearTree Pb).symmetryGroups).contains n) =
      Pb.modules.map Prod.fst := by
    rw [show (clearTree Pb).symmetryGroups = [] from hPbg]
    exact filter_no_groups _
  rw [hfT] at hdecT
  rw [hfC, hkeys, sortByAreaDesc_cong (clearTree spre) (clearTree Pb) harea] at hdecC
  have hfoldcong := moduleFold_cong
    (sortByAreaDesc (clearTree spre) (spre.modules.map Prod.fst))
    (clearTree Pb) (clearTree spre)
    (by show Pb.nodes = spre.nodes; rw [hPbn, hn0]) rfl
  have hstructcong := structChainResult_cong
    (List.foldl moduleNodeStep (clearTree Pb)
      (sortByAreaDesc (clearTree spre) (spre.modules.map Prod.fst)))
    (List.foldl moduleNodeStep (clearTree spre)
      (sortByAreaDesc (clearTree spre) (spre.modules.map Prod.fst)))
    hfoldcong.1 hfoldcong.2
    (by rw [(moduleFold_fields _ _).1, (moduleFold_fields _ _).1]; rfl)
    (by rw [(moduleFold_fields _ _).2.1, (moduleFold_fields _ _).2.1]; rfl)
  have hCTnodes : (constructInitialTree ops Pb).nodes = T.nodes := by
    rw [hdecC, hdecT, (postRegister_nodes _).1, (postRegister_nodes _).1]
    exact hstructcong.1
  have hCTroot : (constructInitialTree ops Pb).root = T.root := by
    rw [hdecC, hdecT, (postRegister_nodes _).2.1, (postRegister_nodes _).2.1]
    exact hstructcong.2
  have hCTmod : (constructInitialTree ops Pb).modules = ((pack ops T).2).modules := by
    rw [hdecC, (postRegister_nodes _).2.2.1, (moduleFold_more _ _).1]
    show Pb.modules = _
    exact hPbmod
  have hCTms : (constructInitialTree ops Pb).modifiedSubtrees = [] := by
    rw [hdecC, (postRegister_nodes _).2.2.2, (moduleFold_more _ _).2]
    exact hPbms
  have hCTsgn : (constructInitialTree ops Pb).symmetryGroupNodes = [] := by
    rw [hdecC, (postRegister_fields _).1, (moduleFold_fields _ _).1]
    rfl
  have hCn : (clone ops (pack ops T).2).nodes = T.nodes := by
    rw [hclone]; exact hCTnodes
  have hCroot : (clone ops (pack ops T).2).root = some r := by
    rw [hclone]; exact hCTroot.trans hrootT
  have hCms : (clone ops (pack ops T).2).modifiedSubtrees = [] := by
    rw [hclone]; exact hCTms
  have hCmod : (clone ops (pack ops T).2).modules = ((pack ops T).2).modules := by
    rw [hclone]; exact hCTmod
  have hCsgn : (clone ops (pack ops T).2).symmetryGroupNodes = [] := by
    rw [hclone]; exact hCTsgn
  have heqC := pack_full_eq ops (clone ops (pack ops T).2) r hCroot hCms
  have hflenC : (clone ops (pack ops T).2).nodes.length = T.nodes.length :=
    congrArg List.length hCn
  rw [hflenC] at heqC
  obtain ⟨Q1, hQ1⟩ : ∃ t, packSubtree ops (T.nodes.length + 1)
      (packPrep (clone ops (pack ops T).2)) r = t := ⟨_, rfl⟩
  rw [hQ1] at heqC
  have hfrQ := packSubtree_frame ops (T.nodes.length + 1)
    (packPrep (clone ops (pack ops T).2)) r
  rw [hQ1] at hfrQ
  have hsgQ : Q1.symmetryGroupNodes = [] := hfrQ.2.2.2.2.2.2.1.trans hCsgn
  have hsgQ2 : ({ Q1 with totalArea := totalAreaOf Q1.modules }).symmetryGroupNodes = [] := hsgQ
  rw [updateContourNodes_noGroups _ hsgQ2] at heqC
  have cong2 := packSubtree_cong ops (T.nodes.length + 1)
    (packPrep T) (packPrep (clone ops (pack ops T).2)) r
    h1g h2g h3g hCn rfl rfl
    (fun k => by
      show (SMap.find? (clone ops (pack ops T).2).modules k).map dimOf =
        (SMap.find? (packPrep T).modules k).map dimOf
      rw [hCmod, hPmod_eq]
      exact hdims1 k)
    (fun nd p hgr hp => absurd hp (by simp [hrpg nd hgr]))
  rw [hP1, hQ1] at cong2
  have hpw : ∀ k, SMap.find? Q1.modules k = SMap.find? P1.modules k := by
    intro k
    rcases cong2.2.2.2.2.2.2.2.2 k with h | ⟨hu1, hu2⟩
    · exact h
    · rw [hu2]
      show SMap.find? (clone ops (pack ops T).2).modules k = _
      rw [hCmod, hPmod_eq]
  have hsortC : SSortedKeys (packPrep (clone ops (pack ops T).2)).modules := by
    show SSortedKeys (clone ops (pack ops T).2).modules
    rw [hCmod, hPmod_eq]
    exact hsortP1
  have hsortQ1 : SSortedKeys Q1.modules := cong2.2.2.2.2.2.2.2.1 hsortC
  have hmapeq : Q1.modules = P1.modules := smap_ext_sorted _ _ hsortQ1 hsortP1 hpw
  refine ⟨by rw [heqT], by rw [heqC], ?_, ?_⟩
  · rw [heqC, hP2]
    show Q1.modules = P1.modules
    exact hmapeq
  · rw [heqC, hP2]
    show totalAreaOf Q1.modules = totalAreaOf P1.modules
    rw [hmapeq]

/-- The fresh two-module adds of the C5 witness. -/
def c5pre : HBState :=
  let s := emptyHBState
  let s := addModule s (mkMod "a" 20 10)
  addModule s (mkMod "b" 10 10)

theorem clone_pack_fresh_construct_witness :
    (c5pre.symmetryGroups = [] ∧ c5pre.nodes = [] ∧ SSortedKeys c5pre.modules ∧
     (constructInitialTree simpleOps c5pre).root = some "a" ∧
     (constructInitialTree simpleOps c5pre).modifiedSubtrees = [] ∧
     (constructInitialTree simpleOps c5pre).symmetryGroupNodes = [] ∧
     (constructInitialTree simpleOps c5pre).symmetryGroups = [] ∧
     (∀ pr, pr ∈ (constructInitialTree simpleOps c5pre).nodes →
       pr.2.ntype = HBNodeType.MODULE ∧ pr.2.name = pr.1) ∧
     (∀ pr, pr ∈ (constructInitialTree simpleOps c5pre).nodes →
       ∀ pr2, pr2 ∈ (constructInitialTree simpleOps c5pre).nodes →
       (pr.2.left = some pr2.1 ∨ pr.2.right = some pr2.1) → pr2.2.parent = some pr.1) ∧
     (∀ pr, pr ∈ (constructInitialTree simpleOps c5pre).nodes → pr.1 = "a" →
       pr.2.parent = none)) ∧
    ((pack simpleOps (constructInitialTree simpleOps c5pre)).1 = true ∧
     (pack simpleOps (clone simpleOps
       (pack simpleOps (constructInitialTree simpleOps c5pre)).2)).1 = true ∧
     (pack simpleOps (clone simpleOps
       (pack simpleOps (constructInitialTree simpleOps c5pre)).2)).2.modules =
       (pack simpleOps (constructInitialTree simpleOps c5pre)).2.modules ∧
     (pack simpleOps (clone simpleOps
       (pack simpleOps (constructInitialTree simpleOps c5pre)).2)).2.totalArea =
       (pack simpleOps (constructInitialTree simpleOps c5pre)).2.totalArea) :=
  ⟨⟨by decide, by decide, by decide, by decide, by decide, by decide, by decide,
    by decide, by decide, by decide⟩,
    clone_pack_fresh_construct simpleOps c5pre "a" (by decide) (by decide) (by decide)
      (by decide) (by decide) (by decide) (by decide) (by decide) (by decide) (by decide)⟩

/- ### The per-node placement rules (C1) -/

/-- Modelled from the spec: the x-coordinate rule of §4.4.2 as the claim
words it — 0 for the root; for a node in its parent's LEFT slot the
parent's x plus width (Module parent), the parent ASF tree's axis position
(Hierarchy parent) or the segment's right end x2 (Contour parent); for a
node in its parent's RIGHT slot the parent's x (Module), 0 (Hierarchy) or
the segment's left end x1 (Contour); none where the spec assigns no rule
(missing parent node or module, or a node in neither slot). -/
def specX (s : HBState) (nd : HBNode) : Option Int :=
  match nd.parent with
  | none => some 0
  | some p =>
    match getNode s p with
    | none => none
    | some pnd =>
      if pnd.left = some nd.name then
        match pnd.ntype with
        | HBNodeType.MODULE =>
          match SMap.find? s.modules pnd.name with
          | some pm => some (pm.x + pm.width)
          | none => none
        | HBNodeType.HIERARCHY =>
          match pnd.getASFTree with
          | some pa => some pa.axisPos
          | none => none
        | HBNodeType.CONTOUR => some pnd.cx2
      else if pnd.right = some nd.name then
        match pnd.ntype with
        | HBNodeType.MODULE =>
          match SMap.find? s.modules pnd.name with
          | some pm => some pm.x
          | none => none
        | HBNodeType.HIERARCHY => some 0
        | HBNodeType.CONTOUR => some pnd.cx1
      else none

theorem specX_computeXFor (s : HBState) (nd : HBNode) (x : Int)
    (h : specX s nd = some x) : computeXFor s nd = x := by
  rw [specX] at h
  cases hp : nd.parent with
  | none =>
    simp only [hp] at h
    cases h
    rw [HBStarTree.computeXFor]
    simp only [hp]
  | some p =>
    simp only [hp] at h
    cases hgp : getNode s p with
    | none => simp only [hgp] at h; cases h
    | some pnd =>
      simp only [hgp] at h
      by_cases hL : pnd.left = some nd.name
      · rw [if_pos hL] at h
        cases hpt : pnd.ntype with
        | MODULE =>
          simp only [hpt] at h
          cases hpm : SMap.find? s.modules pnd.name with
          | none => simp only [hpm] at h; cases h
          | some pm =>
            simp only [hpm, Option.some.injEq] at h
            rw [HBStarTree.computeXFor]
            simp only [hp, hgp, if_pos hL, hpt, hpm, h]
        | HIERARCHY =>
          have ha : pnd.getASFTree = pnd.asf := by
            rw [HBNode.getASFTree, if_pos hpt]
          simp only [hpt, ha] at h
          cases hpa : pnd.asf with
          | none => simp only [hpa] at h; cases h
          | some pa =>
            simp only [hpa, Option.some.injEq] at h
            rw [HBStarTree.computeXFor]
            simp only [hp, hgp, if_pos hL, hpt, hpa, h]
        | CONTOUR =>
          simp only [hpt, Option.some.injEq] at h
          rw [HBStarTree.computeXFor]
          simp only [hp, hgp, if_pos hL, hpt, h]
      · rw [if_neg hL] at h
        by_cases hR : pnd.right = some nd.name
        · rw [if_pos hR] at h
          cases hpt : pnd.ntype with
          | MODULE =>
            simp only [hpt] at h
            cases hpm : SMap.find? s.modules pnd.name with
            | none => simp only [hpm] at h; cases h
            | some pm =>
              simp only [hpm, Option.some.injEq] at h
              rw [HBStarTree.computeXFor]
              simp only [hp, hgp, if_neg hL, hpt, hpm, h]
          | HIERARCHY =>
            simp only [hpt, Option.some.injEq] at h
            rw [HBStarTree.computeXFor]
            simp only [hp, hgp, if_neg hL, hpt, h]
          | CONTOUR =>
            simp only [hpt, Option.some.injEq] at h
            rw [HBStarTree.computeXFor]
            simp only [hp, hgp, if_neg hL, hpt, h]
        · rw [if_neg hR] at h
          cases h

/-- The tail of a packSubtree step: recurse into the left subtree, then
the right, from the state t left by the node's own placement. -/
def packCont (ops : AsfOps) (fuel : Nat) (t : HBState) (nd : HBNode) : HBState :=
  match nd.right with
  | some r => packSubtree ops fuel
      (match nd.left with
       | some l => packSubtree ops fuel t l
       | none => t) r
  | none =>
    match nd.left with
    | some l => packSubtree ops fuel t l
    | none => t

/-- The state written by the HIERARCHY branch of packSubtree before it
recurses: from the asf-updated state s2, the island's modules are shifted
so the bounding box bb lands at (x, y), and both contours receive the
island's bounding box. -/
def mkT2 (s2 : HBState) (a1 : ASFBStarTree) (bb : Int × Int × Int × Int)
    (x y : Int) : HBState :=
  { s2 with
    modules := shiftIsland s2.modules a1 (x - bb.1) (y - bb.2.1),
    horizontalContour := Contour.addSegment s2.horizontalContour x
      (x + (bb.2.2.1 - bb.1)) (y + (bb.2.2.2 - bb.2.1)),
    verticalContour := Contour.addSegment s2.verticalContour y
      (y + (bb.2.2.2 - bb.2.1)) (x + (bb.2.2.1 - bb.1)) }

theorem packSubtree_hier_eq (ops : AsfOps) (fuel : Nat) (s : HBState) (n : String)
    (nd : HBNode) (a0 : ASFBStarTree) (s2 : HBState) (x y : Int)
    (hg : getNode s n = some nd) (hty : nd.ntype = HBNodeType.HIERARCHY)
    (ha : nd.getASFTree = some a0)
    (hs2 : updNode { s with modules := (ops.pack a0 s.modules).2 } n
      (fun n0 => { n0 with asf := some (ops.pack a0 s.modules).1 }) = s2)
    (hx : computeXFor s2 nd = x)
    (hy : Contour.getHeight s2.horizontalContour x
      (x + ((islandBBox s2.modules (ops.pack a0 s.modules).1).2.2.1
        - (islandBBox s2.modules (ops.pack a0 s.modules).1).1)) = y) :
    packSubtree ops (Nat.succ fuel) s n =
      packCont ops fuel
        (mkT2 s2 (ops.pack a0 s.modules).1
          (islandBBox s2.modules (ops.pack a0 s.modules).1) x y) nd := by
  rw [HBStarTree.packSubtree]
  simp only [hg, hty, ha, hs2, hx, hy]
  rfl

/-- C1: the per-node placement rules of packSubtree.  For a MODULE node
whose x-coordinate is assigned by the spec's case table (specX: 0 at the
root; parent's x + width / ASF axis position / segment right end x2 for a
left child of a Module / Hierarchy / Contour parent; parent's x / 0 /
segment left end x1 for a right child), the node is placed at exactly that
x, its y is horizontalContour.getHeight(x, x + w) with w the module's
width, and the horizontal contour then receives the segment [x, x + w) at
height y + h, before packSubtree recurses into the children.  For a
HIERARCHY node, after the nested ASF pack, with w and h the island's
packed bounding-box dimensions and x again given by the spec's case table,
y = horizontalContour.getHeight(x, x + w), the island is translated so its
bounding box sits at (x, y), and the horizontal contour receives
[x, x + w) at height y + h. -/
theorem packSubtree_place_rules (ops : AsfOps) (fuel : Nat) (s : HBState)
    (n : String) (nd : HBNode) (hg : getNode s n = some nd) :
    (∀ m x, nd.ntype = HBNodeType.MODULE → SMap.find? s.modules n = some m →
      specX s nd = some x →
      ∃ t, packSubtree ops (Nat.succ fuel) s n = packCont ops fuel t nd ∧
        SMap.find? t.modules n = some (HBModule.setPosition m x
          (Contour.getHeight s.horizontalContour x (x + m.width))) ∧
        t.horizontalContour = Contour.addSegment s.horizontalContour x (x + m.width)
          (Contour.getHeight s.horizontalContour x (x + m.width) + m.height)) ∧
    (∀ a0 s2 x, nd.ntype = HBNodeType.HIERARCHY → nd.getASFTree = some a0 →
      updNode { s with modules := (ops.pack a0 s.modules).2 } n
        (fun n0 => { n0 with asf := some (ops.pack a0 s.modules).1 }) = s2 →
      specX s2 nd = some x →
      ∀ bb w h y, bb = islandBBox s2.modules (ops.pack a0 s.modules).1 →
        w = bb.2.2.1 - bb.1 → h = bb.2.2.2 - bb.2.1 →
        y = Contour.getHeight s2.horizontalContour x (x + w) →
        ∃ t, packSubtree ops (Nat.succ fuel) s n = packCont ops fuel t nd ∧
          t.modules = shiftIsland s2.modules (ops.pack a0 s.modules).1
            (x - bb.1) (y - bb.2.1) ∧
          t.horizontalContour =
            Contour.addSegment s2.horizontalContour x (x + w) (y + h)) := by
  constructor
  · intro m x hty hm hspec
    refine ⟨mkT1 s n m x (Contour.getHeight s.horizontalContour x (x + m.width)),
      ?_, ?_, ?_⟩
    · exact packSubtree_module_eq ops fuel s n nd m x _ hg hty hm
        (specX_computeXFor s nd x hspec) rfl
    · rw [show (mkT1 s n m x
          (Contour.getHeight s.horizontalContour x (x + m.width))).modules =
          SMap.insert s.modules n (HBModule.setPosition m x
            (Contour.getHeight s.horizontalContour x (x + m.width))) from rfl,
        smap_find_insert, if_pos rfl]
    · rfl
  · intro a0 s2 x hty ha hs2 hspec bb w h y hbb hw hh hy
    subst hbb
    subst hw
    subst hh
    subst hy
    refine ⟨mkT2 s2 (ops.pack a0 s.modules).1
        (islandBBox s2.modules (ops.pack a0 s.modules).1) x
        (Contour.getHeight s2.horizontalContour x
          (x + ((islandBBox s2.modules (ops.pack a0 s.modules).1).2.2.1
            - (islandBBox s2.modules (ops.pack a0 s.modules).1).1))),
      ?_, ?_, ?_⟩
    · exact packSubtree_hier_eq ops fuel s n nd a0 s2 x _ hg hty ha hs2
        (specX_computeXFor s2 nd x hspec) rfl
    · rfl
    · rfl

/-- Two modules a (10×10) and b (5×5); the initial chain makes a the root
and b its left child, so the spec's left-child-of-Module rule gives b the
x-coordinate a.x + a.width = 10. -/
def c1state : HBState :=
  let s := emptyHBState
  let s := addModule s (mkMod "a" 10 10)
  let s := addModule s (mkMod "b" 5 5)
  constructInitialTree simpleOps s

theorem packSubtree_place_rules_witness :
    (getNode c1state "b" =
      some ⟨HBNodeType.MODULE, "b", none, none, some "a", none, 0, 0, 0, 0⟩ ∧
     HBNodeType.MODULE = HBNodeType.MODULE ∧
     SMap.find? c1state.modules "b" = some (mkMod "b" 5 5) ∧
     specX c1state ⟨HBNodeType.MODULE, "b", none, none, some "a", none,
       0, 0, 0, 0⟩ = some 10) ∧
    (∃ t, packSubtree simpleOps 3 c1state "b" =
        packCont simpleOps 2 t
          ⟨HBNodeType.MODULE, "b", none, none, some "a", none, 0, 0, 0, 0⟩ ∧
      SMap.find? t.modules "b" = some (HBModule.setPosition (mkMod "b" 5 5) 10
        (Contour.getHeight c1state.horizontalContour 10
          (10 + (mkMod "b" 5 5).width))) ∧
      t.horizontalContour = Contour.addSegment c1state.horizontalContour 10
        (10 + (mkMod "b" 5 5).width)
        (Contour.getHeight c1state.horizontalContour 10
          (10 + (mkMod "b" 5 5).width) + (mkMod "b" 5 5).height)) :=
  ⟨⟨by decide, rfl, by decide, by decide⟩,
    (packSubtree_place_rules simpleOps 2 c1state "b"
        ⟨HBNodeType.MODULE, "b", none, none, some "a", none, 0, 0, 0, 0⟩
        (by decide)).1 (mkMod "b" 5 5) 10 rfl (by decide) (by decide)⟩
